import Mathlib

/-!
# Upload worker and HTTP side of `template-golang`

A shallow embedding of the queue worker (`cmd/worker.go`), of the upload
pipeline it drives (`pkg/fileUploader/fileuploader.go`) and of the queue client
and producer (`pkg/redisx/redisx.go`), together with the properties of the retry
loop, the acknowledgement, the staged-file cleanup, the folder derivation, the
deletion by URL and the delivery of jobs; and of the HTTP side: the error handler
and the authentication middleware (`pkg/middleware`), the password validation
(`pkg/validator`), pagination (`pkg/pagination`) and the registration and login of
users (`internal/features/users/service`).

Go strings are modelled by `String` and handled through their character lists,
and through their UTF-8 bytes where the code slices bytes (`helper.FormatWord`);
a Go `error` is an `Option String` (`none` is `nil`).  Every call that leaves the
process (object store, queue, disk, image codecs) is answered by an explicit
record of responses, and every such call the worker makes is recorded, in order,
in a trace of events.
-/

namespace TemplateGolang

set_option maxRecDepth 8192

/-! ## Go standard library: `strings` and `path/filepath` (Unix) -/

/-- Go's `error`: `none` is `nil`, `some msg` is an error carrying its message. -/
abbrev GoError := Option String

/-- Rendering of an error by the `%v` verb. -/
def fmtErr : GoError → String
  | none => "<nil>"
  | some e => e

/-- Rendering of a boolean by the `%v` verb. -/
def fmtBool : Bool → String
  | true => "true"
  | false => "false"

/-- Go's `os.IsPathSeparator` on Unix. -/
def isPathSeparator (c : Char) : Bool := c == '/'

/-- Go's `strings.ToLower`, on the ASCII letters (the only ones that can produce the
letters of `http://` and `https://`). -/
def ToLower (s : String) : String := ⟨s.data.map Char.toLower⟩

/-- Go's `strings.HasPrefix`. -/
def HasPrefix (s pre : String) : Bool := pre.data.isPrefixOf s.data

/-- Go's `strings.HasSuffix`. -/
def HasSuffix (s suf : String) : Bool := suf.data.isSuffixOf s.data

/-- Go's `strings.Contains`. -/
def Contains (s substr : String) : Bool := s.data.tails.any (fun t => substr.data.isPrefixOf t)

/-- Go's `strings.Split(s, sep)` for a one-character separator. -/
def Split (s : String) (sep : Char) : List String := (s.data.splitOn sep).map String.mk

/-- Go's `strings.Join`. -/
def Join (parts : List String) (sep : String) : String := sep.intercalate parts

/-- Go's `strings.TrimLeft` on character lists. -/
def trimLeftChars (cutset : List Char) (s : List Char) : List Char :=
  s.dropWhile (fun c => cutset.contains c)

/-- Go's `strings.TrimRight` on character lists. -/
def trimRightChars (cutset : List Char) (s : List Char) : List Char :=
  (s.reverse.dropWhile (fun c => cutset.contains c)).reverse

/-- Go's `strings.Trim(s, cutset)`: all leading and trailing characters of `cutset` removed. -/
def Trim (s cutset : String) : String :=
  ⟨trimRightChars cutset.data (trimLeftChars cutset.data s.data)⟩

/-- Go's `strings.TrimRight(s, cutset)`. -/
def TrimRight (s cutset : String) : String := ⟨trimRightChars cutset.data s.data⟩

/-- Go's `strings.TrimSuffix(s, suffix)`. -/
def TrimSuffix (s suffix : String) : String :=
  if HasSuffix s suffix then ⟨s.data.take (s.data.length - suffix.data.length)⟩ else s

/-- The scan of `filepath.Ext`, from the last character backwards: `rev` is what
is still to be scanned (reversed) and `acc` the characters already passed. -/
def extScan : List Char → List Char → List Char
  | [], _ => []
  | c :: rev, acc =>
    if isPathSeparator c then []
    else if c = '.' then c :: acc
    else extScan rev (c :: acc)

/-- Go's `filepath.Ext(path)`: the suffix beginning at the final dot of the final
element of `path`, empty when there is no dot. -/
def Ext (path : String) : String := ⟨extScan path.data.reverse []⟩

/-- Go's `filepath.Base(path)`: the last element of `path`, trailing separators
removed first; `"."` for the empty path and `"/"` for a path of separators only. -/
def Base (path : String) : String :=
  if path = "" then "."
  else
    let stripped := path.data.reverse.dropWhile isPathSeparator
    let last := (stripped.takeWhile (fun c => !isPathSeparator c)).reverse
    if last = [] then "/" else ⟨last⟩

/-- The backwards scan of the `..` case of `filepath.Clean`: from write index `w`
down to the last separator, never below `dotdot`. -/
def cleanBacktrack (out : List Char) (dotdot : Nat) : Nat → Nat
  | 0 => 0
  | w + 1 =>
    if w + 1 > dotdot ∧ !isPathSeparator (out.getD (w + 1) ' ') then cleanBacktrack out dotdot w
    else w + 1

/-- One path element of `filepath.Clean`; the state is the output buffer and the
index `dotdot` below which `..` must not backtrack. -/
def cleanStep (rooted : Bool) (st : List Char × Nat) (elem : List Char) : List Char × Nat :=
  if elem = [] then st
  else if elem = ['.'] then st
  else if elem = ['.', '.'] then
    if st.1.length > st.2 then
      (st.1.take (cleanBacktrack st.1 st.2 (st.1.length - 1)), st.2)
    else if !rooted then
      let out := (if st.1.length > 0 then st.1 ++ ['/'] else st.1) ++ ['.', '.']
      (out, out.length)
    else st
  else
    let out := if (rooted && st.1.length != 1) || (!rooted && st.1.length != 0)
      then st.1 ++ ['/'] else st.1
    (out ++ elem, st.2)

/-- Go's `filepath.Clean(path)` on Unix. -/
def Clean (path : String) : String :=
  if path = "" then "."
  else
    let rooted := path.data.head?.any isPathSeparator
    let init : List Char × Nat := if rooted then (['/'], 1) else ([], 0)
    let out := ((path.data.splitOn '/').foldl (cleanStep rooted) init).1
    if out.length = 0 then "." else ⟨out⟩

/-- Go's `filepath.Dir(path)` on Unix: everything up to the last separator, cleaned. -/
def Dir (path : String) : String :=
  Clean ⟨(path.data.reverse.dropWhile (fun c => !isPathSeparator c)).reverse⟩

/-! ## `pkg/fileUploader`: data model and folder derivation -/

/-- Raw file content. -/
abbrev Bytes := List Nat

/-- Go's `multipart.FileHeader`, as far as the repository reads it. -/
structure FileHeader where
  Filename : String
  Size : Int
  ContentType : String
  Content : Bytes
deriving DecidableEq, Repr

/-- The upload intent carried by a queue message (`fileUploader.QueueUploadFile`);
pointer fields are options. -/
structure QueueUploadFile where
  FilePath : String
  IsCompressToWebp : Option Bool
  File : Option FileHeader
  FilePathTmp : Option String
  OldFile : Option String
deriving DecidableEq, Repr

/-- Options of one pipeline call (`fileUploader.FileUploadOptions`). -/
structure FileUploadOptions where
  Folder : String
  NameFile : String
  MaxSizeMB : Option Int
  AllowedMimeTypes : List String
  IsCompressToWebp : Option Bool
deriving DecidableEq, Repr

/-- The index computed by the search loop of `ExtractFolderFromFilePath`: one past
the first part containing `is3`, or `-1`. -/
def bucketIndexOf (parts : List String) : Int :=
  match parts.findIdx? (fun part => Contains part "is3") with
  | some i => (i : Int) + 1
  | none => -1

/-- The function `fileUploader.ExtractFolderFromFilePath`. -/
def ExtractFolderFromFilePath (filePath : String) : String :=
  if HasPrefix (ToLower filePath) "http://" || HasPrefix (ToLower filePath) "https://" then
    let parts := Split filePath '/'
    let bucketIndex := bucketIndexOf parts
    if bucketIndex ≠ -1 ∧ bucketIndex + 1 < (parts.length : Int) - 1 then
      parts.getD (bucketIndex + 1).toNat ""
    else ""
  else Dir filePath

/-! ### The upload pipeline -/

/-- A decoded raster image. -/
structure Image where
  pixels : Bytes
deriving DecidableEq, Repr

/-- The request of `s3.PutObject`. -/
structure PutObjectInput where
  Bucket : String
  Key : String
  Body : Bytes
  ContentType : String
  ACL : String
deriving DecidableEq, Repr

/-- The surroundings of one pipeline call: configuration, wall clock, disk, codecs
and object store. -/
structure PipelineEnv where
  initS3 : GoError
  bucket : String
  endpoint : String
  now : Nat
  openFile : String → Except String Bytes
  statErr : GoError
  seekErr : GoError
  readErr : GoError
  detectContentType : Bytes → String
  imageDecode : Bytes → Except String Image
  webpEncode : Image → Nat → Except String Bytes
  pngDecode : Bytes → Except String Image
  pngEncode : Image → Bytes
  jpegDecode : Bytes → Except String Image
  jpegEncode : Image → Nat → Bytes
  putObject : PutObjectInput → GoError

/-- What a pipeline call did: the error it returned, the `PutObject` request it
issued, if any, and the public URL it logged on success. -/
structure PipelineResult where
  err : GoError
  put : Option PutObjectInput
  url : Option String
deriving DecidableEq, Repr

/-- A pipeline call that returns an error before reaching the object store. -/
def PipelineResult.fail (e : String) : PipelineResult :=
  { err := some e, put := none, url := none }

/-- Two's-complement wrap-around of `int64` arithmetic. -/
def wrapInt64 (x : Int) : Int := (x + 2 ^ 63) % 2 ^ 64 - 2 ^ 63

/-- The size check `opts.MaxSizeMB != nil && fileSize > *opts.MaxSizeMB*1024*1024`. -/
def exceedsMaxSize (opts : FileUploadOptions) (fileSize : Int) : Bool :=
  match opts.MaxSizeMB with
  | some mb => decide (fileSize > wrapInt64 (wrapInt64 (mb * 1024) * 1024))
  | none => false

/-- The MIME check: a non-empty list of allowed types that lacks `contentType`. -/
def mimeRejected (opts : FileUploadOptions) (contentType : String) : Bool :=
  decide (opts.AllowedMimeTypes.length > 0) && !opts.AllowedMimeTypes.contains contentType

/-- The first part of `UploadFileFromPath` (lines 281-338): the content of the file
and its sniffed content type. -/
def readStagedFile (env : PipelineEnv) (filePath : String) (opts : FileUploadOptions) :
    Except String (Bytes × String) :=
  match env.initS3 with
  | some e => Except.error e
  | none =>
    if filePath = "" then Except.error "filePath cannot be empty"
    else if opts.NameFile = "" then Except.error "NameFile cannot be empty"
    else
      match env.openFile filePath with
      | Except.error e => Except.error ("failed to open file: " ++ e)
      | Except.ok content =>
        match env.statErr with
        | some e => Except.error ("failed to stat file: " ++ e)
        | none =>
          if exceedsMaxSize opts (content.length : Int) then
            Except.error ("file exceeds maximum size of " ++
              toString (opts.MaxSizeMB.getD 0) ++ " MB")
          else
            let contentType := env.detectContentType (content.take 512)
            match env.seekErr with
            | some e => Except.error ("failed to rewind file: " ++ e)
            | none =>
              if mimeRejected opts contentType then
                Except.error ("file type " ++ contentType ++ " is not allowed")
              else
                match env.readErr with
                | some e => Except.error ("failed to read file: " ++ e)
                | none => Except.ok (content, contentType)

/-- The re-encoding step of `UploadFileFromPath` (lines 342-377): the bytes, the
content type and the file name to upload. -/
def reencode (env : PipelineEnv) (opts : FileUploadOptions) (data : Bytes)
    (contentType filename : String) : Except String (Bytes × String × String) :=
  if opts.IsCompressToWebp = some true then
    match env.imageDecode data with
    | Except.error e => Except.error ("failed to decode image: " ++ e)
    | Except.ok img =>
      match env.webpEncode img 10 with
      | Except.error e => Except.error ("failed to encode webp: " ++ e)
      | Except.ok buf =>
        Except.ok (buf, "image/webp", TrimSuffix filename (Ext filename) ++ ".webp")
  else if contentType = "image/png" then
    match env.pngDecode data with
    | Except.ok img => Except.ok (env.pngEncode img, contentType, filename)
    | Except.error _ => Except.ok (data, contentType, filename)
  else if contentType = "image/jpeg" then
    match env.jpegDecode data with
    | Except.ok img => Except.ok (env.jpegEncode img 90, contentType, filename)
    | Except.error _ => Except.ok (data, contentType, filename)
  else Except.ok (data, contentType, filename)

/-- The public URL built at the end of the pipeline (lines 396-400). -/
def publicURL (env : PipelineEnv) (key : String) : String :=
  let endpoint := TrimRight env.endpoint "/"
  let endpoint :=
    if !HasPrefix endpoint "http://" && !HasPrefix endpoint "https://" then "https://" ++ endpoint
    else endpoint
  endpoint ++ "/" ++ env.bucket ++ "/" ++ key

/-- The function `fileUploader.UploadFileFromPath`. -/
def UploadFileFromPath (env : PipelineEnv) (filePath : String) (opts : FileUploadOptions) :
    PipelineResult :=
  match readStagedFile env filePath opts with
  | Except.error e => PipelineResult.fail e
  | Except.ok (data, contentType) =>
    let filename := Base opts.NameFile
    match reencode env opts data contentType filename with
    | Except.error e => PipelineResult.fail e
    | Except.ok (data, contentType, filename) =>
      let key := Trim opts.Folder "/" ++ "/" ++ filename
      let input : PutObjectInput :=
        { Bucket := env.bucket, Key := key, Body := data, ContentType := contentType,
          ACL := "public-read" }
      match env.putObject input with
      | some e => { err := some ("failed to upload file: " ++ e), put := some input, url := none }
      | none => { err := none, put := some input, url := some (publicURL env key) }

/-! ## `pkg/redisx`: jobs -/

/-- A dynamically typed value of a stream message field. -/
inductive FieldValue where
  | null
  | str (s : String)
  | num (n : Int)
  | bool (b : Bool)
deriving DecidableEq, Repr

/-- The `interface{}` payload of a `redisx.Job`: the field map that `ConsumeJob`
builds, the struct a producer hands to `EnqueueJobFile`, or any other value. -/
inductive JobPayload where
  | fields (m : List (String × FieldValue))
  | uploadFile (q : QueueUploadFile)
  | other (v : FieldValue)
deriving DecidableEq, Repr

/-- A message of the stream (`redisx.Job`). -/
structure Job where
  ID : String
  Payload : JobPayload
deriving DecidableEq, Repr

/-! ## `cmd/worker.go`: the consumer loop -/

/-- Log levels used by the worker. -/
inductive Level where
  | info
  | warn
  | error
deriving DecidableEq, Repr

/-- What the worker does to the outside world, in order. Calls carry their
arguments and the answer they got; a log line carries its Go format string and
its rendered arguments. -/
inductive Event where
  | uploadFileFromPath (filePath : String) (opts : FileUploadOptions) (result : GoError)
  | deleteFile (fileURL : String) (result : GoError)
  | sleep (seconds : Nat)
  | ackJob (stream group msgID : String) (result : GoError)
  | remove (path : String) (result : GoError)
  | log (level : Level) (format : String) (args : List String)
deriving DecidableEq, Repr

/-- The answers of the outside world while one message is processed. `upload` and
`deleteFile` are indexed by the attempt number of the retry loop. -/
structure Responses where
  upload : Nat → String → FileUploadOptions → GoError
  deleteFile : Nat → String → GoError
  ackJob : String → GoError
  remove : String → GoError

/-- The answers of the outside world when the pipeline calls of a job are real
calls of `UploadFileFromPath`, attempt `k` running in the surroundings `envs k`. -/
def pipelineResponses (envs : Nat → PipelineEnv) (deleteFile : Nat → String → GoError)
    (ackJob remove : String → GoError) : Responses :=
  { upload := fun k filePath opts => (UploadFileFromPath (envs k) filePath opts).err
    deleteFile := deleteFile
    ackJob := ackJob
    remove := remove }

/-- The result of processing: the staged files on disk, the events, and whether
the goroutine panicked. -/
structure Outcome where
  files : List String
  trace : List Event
  panicked : Bool
deriving DecidableEq, Repr

/-- The state of the retry loop when it is left. -/
structure RetryResult where
  success : Bool
  lastErr : GoError
  trace : List Event
deriving DecidableEq, Repr

/-- The options the worker passes to the pipeline (worker.go, lines 102-106). -/
def pipelineOptions (folder : String) (payload : QueueUploadFile) (compress : Bool) :
    FileUploadOptions :=
  { Folder := folder
    NameFile := payload.FilePath
    MaxSizeMB := none
    AllowedMimeTypes := []
    IsCompressToWebp := some compress }

/-- The block `if payload.OldFile != nil` of a failed attempt: the value of `err`
afterwards (the assignment `err = DeleteFile(..)` overwrites it) and the events. -/
def deleteOldFile (r : Responses) (jobID : String) (payload : QueueUploadFile) (attempt : Nat)
    (err : GoError) : GoError × List Event :=
  match payload.OldFile with
  | some old =>
    let err := r.deleteFile attempt old
    match err with
    | some e =>
      (err, [Event.deleteFile old err,
        Event.log Level.error "job %s: failed to delete old file %s: %v" [jobID, old, e]])
    | none =>
      (err, [Event.deleteFile old err,
        Event.log Level.info "job %s: old file %s deleted" [jobID, old]])
  | none => (err, [])

/-- The loop `for attempt := 1; attempt <= 5; attempt++` over the attempt numbers
still to run; `lastErr` is the variable of that name. -/
def retryLoop (r : Responses) (jobID tmp folder : String) (payload : QueueUploadFile)
    (compress : Bool) : List Nat → GoError → RetryResult
  | [], lastErr => { success := false, lastErr := lastErr, trace := [] }
  | attempt :: rest, lastErr =>
    let opts := pipelineOptions folder payload compress
    let err := r.upload attempt tmp opts
    match err with
    | none =>
      { success := true, lastErr := lastErr, trace := [Event.uploadFileFromPath tmp opts err] }
    | some _ =>
      let del := deleteOldFile r jobID payload attempt err
      let err := del.1
      let lastErr := err
      let warn := Event.log Level.warn "job %s: upload attempt %d failed: %v"
        [jobID, toString attempt, fmtErr err]
      let pause := if attempt < 5 then [Event.sleep attempt] else []
      let next := retryLoop r jobID tmp folder payload compress rest lastErr
      { next with
        trace := Event.uploadFileFromPath tmp opts (r.upload attempt tmp opts)
          :: (del.2 ++ warn :: pause ++ next.trace) }

/-- The attempt numbers of the retry loop. -/
def attempts : List Nat := [1, 2, 3, 4, 5]

/-- Whether `os.Stat(path)` succeeds. -/
def statOk (files : List String) (path : String) : Bool := files.contains path

/-- Go's `os.Remove(path)`: the error and the files left. A file that is not there
cannot be removed; one that is there is removed unless the system refuses. -/
def osRemove (r : Responses) (files : List String) (path : String) : GoError × List String :=
  if files.contains path then
    match r.remove path with
    | some e => (some e, files)
    | none => (none, files.filter (fun f => f ≠ path))
  else (some "remove: no such file or directory", files)

/-- A message that is logged and skipped. -/
def skip (files : List String) (format : String) (args : List String) : Outcome :=
  { files := files, trace := [Event.log Level.error format args], panicked := false }

/-- Acknowledgement and cleanup (worker.go, lines 133-145). -/
def ackAndCleanup (r : Responses) (files : List String) (jobID tmp : String) : Outcome :=
  let ackErr := r.ackJob jobID
  match ackErr with
  | some e =>
    { files := files
      trace := [Event.ackJob "upload_jobs" "worker" jobID ackErr,
        Event.log Level.error "job %s: ack error: %v" [jobID, e]]
      panicked := false }
  | none =>
    let rm := osRemove r files tmp
    { files := rm.2
      trace := [Event.ackJob "upload_jobs" "worker" jobID ackErr,
        Event.log Level.info "Job done:" [jobID],
        Event.remove tmp rm.1,
        match rm.1 with
        | some e => Event.log Level.warn "job %s: failed to remove tmp file %s: %v" [jobID, tmp, e]
        | none => Event.log Level.info "job %s: tmp file %s removed" [jobID, tmp]]
      panicked := false }

/-- The part of the loop body that runs once the payload is validated
(worker.go, lines 92-145). -/
def runJob (r : Responses) (files : List String) (jobID tmp : String) (payload : QueueUploadFile)
    (compress : Bool) : Outcome :=
  let start := Event.log Level.info "job %s: start processing filePath=%s tmp=%s compress=%v"
    [jobID, payload.FilePath, tmp, fmtBool compress]
  let folder := ExtractFolderFromFilePath payload.FilePath
  let res := retryLoop r jobID tmp folder payload compress attempts none
  if !res.success then
    { files := files
      trace := start :: (res.trace ++
        [Event.log Level.error "job %s: failed to upload file after 5 attempts: %v"
          [jobID, fmtErr res.lastErr]])
      panicked := false }
  else
    let fin := ackAndCleanup r files jobID tmp
    { fin with trace := start :: (res.trace ++ fin.trace) }

/-- The body of `for _, msg := range msgs` (worker.go, lines 54-146). `unmarshal`
is `json.Unmarshal` into a `QueueUploadFile`. -/
def processMessage (unmarshal : String → Except String QueueUploadFile) (r : Responses)
    (files : List String) (msg : Job) : Outcome :=
  let jobID := msg.ID
  match msg.Payload with
  | JobPayload.fields m =>
    match m.lookup "payload" with
    | none => skip files "job %s: payload field missing" [jobID]
    | some (FieldValue.str jsonStr) =>
      match unmarshal jsonStr with
      | Except.error e =>
        skip files "job %s: failed to unmarshal payload into QueueUploadFile: %v" [jobID, e]
      | Except.ok payload =>
        match payload.FilePathTmp with
        | none => skip files "job %s: FilePathTmp field missing" [jobID]
        | some tmp =>
          match payload.IsCompressToWebp with
          | none => skip files "job %s: IsCompressToWebp field missing" [jobID]
          | some compress =>
            if !statOk files tmp then
              skip files "job %s: tmp file not found (%s): %v"
                [jobID, tmp, "stat: no such file or directory"]
            else runJob r files jobID tmp payload compress
    | some _ => skip files "job %s: payload is not a string" [jobID]
  | _ => { files := files, trace := [], panicked := true }

/-- The loop `for _, msg := range msgs`: the messages of one batch in order, each
with the answers the outside world gives while it is processed. A panic ends the
process. -/
def processBatch (unmarshal : String → Except String QueueUploadFile) :
    List String → List (Job × Responses) → Outcome
  | files, [] => { files := files, trace := [], panicked := false }
  | files, (msg, r) :: rest =>
    let first := processMessage unmarshal r files msg
    if first.panicked then first
    else
      let next := processBatch unmarshal first.files rest
      { next with trace := first.trace ++ next.trace }

/-- One turn of the outer `for` loop, given what `ConsumeJob` returned. -/
def pollOnce (unmarshal : String → Except String QueueUploadFile) (files : List String)
    (consumed : Except String (List (Job × Responses))) : Outcome :=
  match consumed with
  | Except.error e =>
    { files := files, trace := [Event.log Level.error "failed to consume job: %v" [e]],
      panicked := false }
  | Except.ok [] =>
    { files := files, trace := [Event.log Level.info "no jobs found" []], panicked := false }
  | Except.ok msgs => processBatch unmarshal files msgs

/-- The outer `for` loop, run over the results of finitely many `ConsumeJob` calls,
in order. A panic ends the process. -/
def workerLoop (unmarshal : String → Except String QueueUploadFile) :
    List String → List (Except String (List (Job × Responses))) → Outcome
  | files, [] => { files := files, trace := [], panicked := false }
  | files, consumed :: later =>
    let first := pollOnce unmarshal files consumed
    if first.panicked then first
    else
      let next := workerLoop unmarshal first.files later
      { next with trace := first.trace ++ next.trace }

/-! ### Observations on a trace -/

/-- The result of a pipeline call, for an event that is one. -/
def Event.uploadResult : Event → Option GoError
  | Event.uploadFileFromPath _ _ res => some res
  | _ => none

/-- The URL of a `DeleteFile` call, for an event that is one. -/
def Event.deletedURL : Event → Option String
  | Event.deleteFile url _ => some url
  | _ => none

/-- The seconds of a sleep, for an event that is one. -/
def Event.sleepSeconds : Event → Option Nat
  | Event.sleep s => some s
  | _ => none

/-- Message id and result of an `AckJob` call, for an event that is one. -/
def Event.acked : Event → Option (String × GoError)
  | Event.ackJob _ _ id res => some (id, res)
  | _ => none

/-- Path and result of an `os.Remove` call, for an event that is one. -/
def Event.removed : Event → Option (String × GoError)
  | Event.remove path res => some (path, res)
  | _ => none

/-- The pipeline calls of a trace, by their results. -/
def pipelineCalls (t : List Event) : List GoError := t.filterMap Event.uploadResult

/-- The `DeleteFile` calls of a trace, by their URLs. -/
def deleteCalls (t : List Event) : List String := t.filterMap Event.deletedURL

/-- The sleeps of a trace, in seconds. -/
def sleeps (t : List Event) : List Nat := t.filterMap Event.sleepSeconds

/-- The `AckJob` calls of a trace: message id and result. -/
def ackCalls (t : List Event) : List (String × GoError) := t.filterMap Event.acked

/-- The `os.Remove` calls of a trace: path and result. -/
def removeCalls (t : List Event) : List (String × GoError) := t.filterMap Event.removed

/-- Marks a pipeline call by `true` and a `DeleteFile` call by `false`. -/
def Event.uploadOrDelete : Event → Option Bool
  | Event.uploadFileFromPath _ _ _ => some true
  | Event.deleteFile _ _ => some false
  | _ => none

/-- The pipeline calls (`true`) and `DeleteFile` calls (`false`) of a trace, in order. -/
def callOrder (t : List Event) : List Bool := t.filterMap Event.uploadOrDelete

/-- What the retry loop does to the outside world, log lines apart: a pipeline call,
a `DeleteFile` call, or a sleep of some seconds. -/
inductive RetryStep where
  | upload
  | delete
  | sleep (seconds : Nat)
deriving DecidableEq, Repr

/-- The step of the retry loop that an event is, if it is one. -/
def Event.retryStep : Event → Option RetryStep
  | Event.uploadFileFromPath _ _ _ => some RetryStep.upload
  | Event.deleteFile _ _ => some RetryStep.delete
  | Event.sleep s => some (RetryStep.sleep s)
  | _ => none

/-- The pipeline calls, `DeleteFile` calls and sleeps of a trace, in order. -/
def retrySteps (t : List Event) : List RetryStep := t.filterMap Event.retryStep

/-- The message passes every check of the loop body: its `payload` field is a string
that decodes to `payload`, both required fields are set and the staged file is on disk. -/
def ValidMessage (unmarshal : String → Except String QueueUploadFile) (files : List String)
    (msg : Job) (payload : QueueUploadFile) (tmp : String) (compress : Bool) : Prop :=
  ∃ m jsonStr, msg.Payload = JobPayload.fields m ∧
    m.lookup "payload" = some (FieldValue.str jsonStr) ∧
    unmarshal jsonStr = Except.ok payload ∧
    payload.FilePathTmp = some tmp ∧
    payload.IsCompressToWebp = some compress ∧
    statOk files tmp = true

/-- The `payload` field of the message is a string that decodes to `payload`. -/
def DecodesTo (unmarshal : String → Except String QueueUploadFile) (msg : Job)
    (payload : QueueUploadFile) : Prop :=
  ∃ m jsonStr, msg.Payload = JobPayload.fields m ∧
    m.lookup "payload" = some (FieldValue.str jsonStr) ∧
    unmarshal jsonStr = Except.ok payload

/-- The options of every pipeline call made for `payload`. -/
def jobOptions (payload : QueueUploadFile) (compress : Bool) : FileUploadOptions :=
  pipelineOptions (ExtractFolderFromFilePath payload.FilePath) payload compress

/-- The message is rejected by one of the checks of the loop body: the `payload`
field is missing, is not a string, does not decode, decodes to an intent without
`FilePathTmp` or without `IsCompressToWebp`, or names a staged file that is not on disk. -/
def InvalidMessage (unmarshal : String → Except String QueueUploadFile) (files : List String)
    (m : List (String × FieldValue)) : Prop :=
  m.lookup "payload" = none ∨
  (∃ v, m.lookup "payload" = some v ∧ ∀ s, v ≠ FieldValue.str s) ∨
  (∃ s e, m.lookup "payload" = some (FieldValue.str s) ∧ unmarshal s = Except.error e) ∨
  (∃ s p, m.lookup "payload" = some (FieldValue.str s) ∧ unmarshal s = Except.ok p ∧
    (p.FilePathTmp = none ∨ p.IsCompressToWebp = none ∨
      ∃ tmp, p.FilePathTmp = some tmp ∧ statOk files tmp = false))

/-! ### A sample job -/

/-- The intent of the sample job: an avatar to be re-encoded, replacing an older one. -/
def sampleIntent : QueueUploadFile :=
  { FilePath := "users/avatar.png"
    IsCompressToWebp := some true
    File := none
    FilePathTmp := some "tmp/job1_1700000000000000000.png"
    OldFile := some "https://is3.cloudhost.id/uts/users/old.png" }

/-- The `payload` field of the sample message. -/
def sampleJSON : String :=
  "\x7b\"FilePath\":\"users/avatar.png\",\"IsCompressToWebp\":true,\"File\":null," ++
  "\"FilePathTmp\":\"tmp/job1_1700000000000000000.png\"," ++
  "\"OldFile\":\"https://is3.cloudhost.id/uts/users/old.png\"\x7d"

/-- A decoder that knows the sample payload. -/
def sampleUnmarshal (s : String) : Except String QueueUploadFile :=
  if s = sampleJSON then Except.ok sampleIntent else Except.error "invalid character"

/-- The sample message as `ConsumeJob` delivers it. -/
def sampleJob : Job :=
  { ID := "1700000000000-0"
    Payload := JobPayload.fields [("id", FieldValue.str "job1"),
      ("payload", FieldValue.str sampleJSON)] }

/-- The disk with the staged file of the sample job. -/
def sampleFiles : List String := ["tmp/job1_1700000000000000000.png"]

/-- An outside world in which the pipeline fails on its first `n` calls and then
succeeds, deletions succeed, and `AckJob` and `os.Remove` answer `ack` and `rm`. -/
def failingFirst (n : Nat) (ack rm : GoError) : Responses :=
  { upload := fun k _ _ => if k ≤ n then some "failed to upload file" else none
    deleteFile := fun _ _ => none
    ackJob := fun _ => ack
    remove := fun _ => rm }

/-- An outside world in which the pipeline never succeeds; `DeleteFile` answers `del`. -/
def alwaysFailing (del : GoError) : Responses :=
  { upload := fun _ _ _ => some "failed to upload file"
    deleteFile := fun _ _ => del
    ackJob := fun _ => none
    remove := fun _ => none }

/-- Path and options of a pipeline call, for an event that is one. -/
def Event.uploadArgs : Event → Option (String × FileUploadOptions)
  | Event.uploadFileFromPath filePath opts _ => some (filePath, opts)
  | _ => none

/-- A key of the form `folder/<timestamp>.webp`, the timestamp being a non-empty
string of decimal digits. -/
def IsTimestampKey (folder key : String) : Prop :=
  ∃ ds : List Char, ds ≠ [] ∧ (∀ c ∈ ds, c.isDigit = true) ∧
    key = folder ++ "/" ++ String.mk ds ++ ".webp"

/-- Surroundings in which the staged file of the sample job is a decodable image and
the object store accepts the upload, at wall-clock time `now`. -/
def sampleEnv (now : Nat) : PipelineEnv :=
  { initS3 := none
    bucket := "uts"
    endpoint := "is3.cloudhost.id"
    now := now
    openFile := fun path =>
      if path = "tmp/job1_1700000000000000000.png" then Except.ok [137, 80, 78, 71]
      else Except.error "no such file or directory"
    statErr := none
    seekErr := none
    readErr := none
    detectContentType := fun _ => "image/png"
    imageDecode := fun data => Except.ok { pixels := data }
    webpEncode := fun img _ => Except.ok (82 :: 73 :: 70 :: 70 :: img.pixels)
    pngDecode := fun data => Except.ok { pixels := data }
    pngEncode := fun img => img.pixels
    jpegDecode := fun _ => Except.error "invalid JPEG format"
    jpegEncode := fun img _ => img.pixels
    putObject := fun _ => none }

/-! ## `pkg/fileUploader`: `UploadFile` and `DeleteFile` -/

/-- The endpoint as it appears in a public URL (lines 270-273 and 396-399): the
configured endpoint without trailing separators, with `https://` put in front when
it has no scheme. -/
def endpointURL (env : PipelineEnv) : String :=
  let endpoint := TrimRight env.endpoint "/"
  if !HasPrefix endpoint "http://" && !HasPrefix endpoint "https://" then "https://" ++ endpoint
  else endpoint

/-- The re-encoding step of `UploadFile` (lines 216-251): as in the path variant,
with WebP quality 80. -/
def reencodeUpload (env : PipelineEnv) (opts : FileUploadOptions) (data : Bytes)
    (contentType filename : String) : Except String (Bytes × String × String) :=
  if opts.IsCompressToWebp = some true then
    match env.imageDecode data with
    | Except.error e => Except.error ("failed to decode image: " ++ e)
    | Except.ok img =>
      match env.webpEncode img 80 with
      | Except.error e => Except.error ("failed to encode webp: " ++ e)
      | Except.ok buf =>
        Except.ok (buf, "image/webp", TrimSuffix filename (Ext filename) ++ ".webp")
  else if contentType = "image/png" then
    match env.pngDecode data with
    | Except.ok img => Except.ok (env.pngEncode img, contentType, filename)
    | Except.error _ => Except.ok (data, contentType, filename)
  else if contentType = "image/jpeg" then
    match env.jpegDecode data with
    | Except.ok img => Except.ok (env.jpegEncode img 90, contentType, filename)
    | Except.error _ => Except.ok (data, contentType, filename)
  else Except.ok (data, contentType, filename)

/-- The function `fileUploader.UploadFile`; `openErr` is the answer of `file.Open()`.
The URL of the result is the returned string, absent when an error is returned. -/
def UploadFile (env : PipelineEnv) (openErr : GoError) (file : Option FileHeader)
    (opts : FileUploadOptions) : PipelineResult :=
  match env.initS3 with
  | some e => PipelineResult.fail e
  | none =>
    match file with
    | none => PipelineResult.fail "file cannot be nil"
    | some file =>
      if opts.NameFile = "" then PipelineResult.fail "NameFile cannot be empty"
      else if exceedsMaxSize opts file.Size then
        PipelineResult.fail ("file exceeds maximum size of " ++
          toString (opts.MaxSizeMB.getD 0) ++ " MB")
      else if mimeRejected opts file.ContentType then
        PipelineResult.fail ("file type " ++ file.ContentType ++ " is not allowed")
      else
        match openErr with
        | some e => PipelineResult.fail ("failed to open file: " ++ e)
        | none =>
          match env.readErr with
          | some e => PipelineResult.fail ("failed to read file: " ++ e)
          | none =>
            match reencodeUpload env opts file.Content file.ContentType (Base opts.NameFile) with
            | Except.error e => PipelineResult.fail e
            | Except.ok (data, contentType, filename) =>
              let key := Trim opts.Folder "/" ++ "/" ++ filename
              let input : PutObjectInput :=
                { Bucket := env.bucket, Key := key, Body := data, ContentType := contentType,
                  ACL := "public-read" }
              match env.putObject input with
              | some e =>
                { err := some ("failed to upload file: " ++ e), put := some input, url := none }
              | none =>
                { err := none, put := some input
                  url := some (endpointURL env ++ "/" ++ env.bucket ++ "/" ++ key) }

/-- The request of `s3.DeleteObject`. -/
structure DeleteObjectInput where
  Bucket : String
  Key : String
deriving DecidableEq, Repr

/-- What a `DeleteFile` call did: the error it returned and the `DeleteObject`
request it issued, if any. -/
structure DeleteResult where
  err : GoError
  call : Option DeleteObjectInput
deriving DecidableEq, Repr

/-- The index computed by the search loop of `DeleteFile`: the first part equal to
the bucket name, or `-1`. -/
def urlBucketIndexOf (parts : List String) (bucketName : String) : Int :=
  match parts.findIdx? (fun part => part = bucketName) with
  | some i => (i : Int)
  | none => -1

/-- The function `fileUploader.DeleteFile`; `deleteObject` is the answer of the
object store to a `DeleteObject` request. -/
def DeleteFile (env : PipelineEnv) (deleteObject : DeleteObjectInput → GoError)
    (fileURL : String) : DeleteResult :=
  match env.initS3 with
  | some e => { err := some e, call := none }
  | none =>
    let folder := ExtractFolderFromFilePath fileURL
    if folder = "example" then { err := none, call := none }
    else if fileURL = "" then { err := some "file URL cannot be empty", call := none }
    else
      let parts := Split fileURL '/'
      if parts.length < 2 then { err := some "invalid file URL format", call := none }
      else
        let bucketName := env.bucket
        let urlBucketIndex := urlBucketIndexOf parts bucketName
        if urlBucketIndex = -1 ∨ urlBucketIndex ≥ (parts.length : Int) - 1 then
          { err := some "could not find valid key in URL", call := none }
        else
          let key := Join (parts.drop (urlBucketIndex + 1).toNat) "/"
          let input : DeleteObjectInput := { Bucket := bucketName, Key := key }
          match deleteObject input with
          | some e => { err := some ("failed to delete file: " ++ e), call := some input }
          | none => { err := none, call := some input }

/-! ### The seeded example files (`internal/seeders/seeder.go`) -/

/-- The constant `EXAMPLE_PDF`. -/
def EXAMPLE_PDF : String := "https://is3.cloudhost.id/uts/brochures/1758074703488556600.pdf"

/-- The constant `EXAMPLE_ALUMNI`. -/
def EXAMPLE_ALUMNI : String := "https://is3.cloudhost.id/uts/example/alumni.jpg"

/-- The constant `EXAMPLE_THUMBNAIL`. -/
def EXAMPLE_THUMBNAIL : String := "https://is3.cloudhost.id/uts/example/thumbnail.jpg"

/-- The constant `EXAMPLE_FACILITIES`. -/
def EXAMPLE_FACILITIES : String := "https://is3.cloudhost.id/uts/example/facilities.jpg"

/-- The constant `EXAMPLE_LOGO`. -/
def EXAMPLE_LOGO : String := "https://is3.cloudhost.id/uts/example/logo.png"

/-! ## `pkg/apperror` and `pkg/redisx`: the queue client -/

/-- The error type `apperror.AppError`; `Detail` holds the message of the wrapped
error, if any. `Error()` returns `Message`. -/
structure AppError where
  Code : String
  Message : String
  StatusCode : Int
  Detail : Option String
  Stack : String
deriving DecidableEq, Repr

/-- The constructor `apperror.New(code, message, status, detail, stack)`. -/
def apperror.New (code message : String) (status : Int) (detail : Option String)
    (stack : String) : AppError :=
  { Code := code, Message := message, StatusCode := status, Detail := detail, Stack := stack }

/-- An error returned by the Redis client: the sentinel `redis.Nil`, or any other
error with its message. -/
inductive RedisError where
  | Nil
  | other (msg : String)
deriving DecidableEq, Repr

/-- The method `Error()` of a Redis client error. -/
def RedisError.Error : RedisError → String
  | RedisError.Nil => "redis: nil"
  | RedisError.other msg => msg

/-- A stream entry as the client returns it (`redis.XMessage`). -/
structure XMessage where
  ID : String
  Values : List (String × FieldValue)
deriving DecidableEq, Repr

/-- The entries read from one stream (`redis.XStream`). -/
structure XStream where
  Stream : String
  Messages : List XMessage
deriving DecidableEq, Repr

/-- The method `Client.InitConsumerGroup`, given the answer of
`XGroupCreateMkStream(ctx, stream, group, "0").Err()`. -/
def InitConsumerGroup (err : Option RedisError) : Option AppError :=
  match err with
  | some e =>
    if !Contains e.Error "BUSYGROUP" then
      some (apperror.New "redisx" "InitConsumerGroup" 500 (some e.Error)
        "failed to create consumer group")
    else none
  | none => none

/-- The method `Client.ConsumeJob`, given the answer `(res, err)` of
`XReadGroup(..).Result()`. -/
def ConsumeJob (res : List XStream) (err : Option RedisError) : List Job × Option AppError :=
  if err = some RedisError.Nil ∨ res.length = 0 then ([], none)
  else
    match err with
    | some e =>
      ([], some (apperror.New "redisx" "ConsumeJob" 500 (some e.Error) "failed to consume job"))
    | none =>
      match res with
      | first :: _ =>
        (first.Messages.map (fun msg => { ID := msg.ID, Payload := JobPayload.fields msg.Values }),
          none)
      | [] => ([], none)

/-- The method `Client.AckJob`, given the answer of `XAck(ctx, stream, group, msgID).Err()`. -/
def AckJob (err : Option RedisError) : Option AppError :=
  match err with
  | some e => some (apperror.New "redisx" "AckJob" 500 (some e.Error) "failed to ack job")
  | none => none

/-- What the outer loop of the worker makes of a `ConsumeJob` result (worker.go,
lines 43-47), `answers` giving the outside world's answers for each job; the error
is rendered by `%v`, that is by `Error()`. -/
def consumed (result : List Job × Option AppError) (answers : Job → Responses) :
    Except String (List (Job × Responses)) :=
  match result.2 with
  | some e => Except.error e.Message
  | none => Except.ok (result.1.map (fun job => (job, answers job)))

/-! ### The Redis server

The behaviour of the server, as Redis documents it, for the commands the client
issues on one stream and one consumer group of it: `XGROUP CREATE .. MKSTREAM` with
start ID `0`, `XADD`, `XREADGROUP` with the ID `>`, and `XACK`. The connection is
taken to work; what the client makes of a failed command is in `InitConsumerGroup`,
`ConsumeJob` and `AckJob` above, which take the answer of the command. -/

/-- The state of a stream and of one consumer group of it on the server: the log
of entries in append order, whether the group exists, how many entries of the log
have been delivered to the group so far (its last-delivered ID), and the pending
entries list: IDs delivered and not acknowledged, with the consumer they went to. -/
structure StreamGroup where
  entries : List XMessage
  created : Bool
  delivered : Nat
  pending : List (String × String)
deriving DecidableEq, Repr

/-- The command `XGROUP CREATE stream group 0 MKSTREAM`: an existing group is left as
it is and the server answers with a `BUSYGROUP` error. -/
def xGroupCreateMkStream (s : StreamGroup) : StreamGroup × Option RedisError :=
  if s.created then (s, some (RedisError.other "BUSYGROUP Consumer Group name already exists"))
  else ({ s with created := true, delivered := 0, pending := [] }, none)

/-- The command `XADD stream * field value ..`, `id` being the ID the server gives
the entry. -/
def xAdd (s : StreamGroup) (id : String) (values : List (String × FieldValue)) : StreamGroup :=
  { s with entries := s.entries ++ [{ ID := id, Values := values }] }

/-- The command `XREADGROUP GROUP group consumer COUNT count BLOCK .. STREAMS stream >`:
the entries never delivered to the group so far, at most `count` of them when
`count` is positive; they become pending for `consumer`. With nothing to deliver
the call times out and the client returns `redis.Nil`. -/
def xReadGroup (s : StreamGroup) (stream consumer : String) (count : Int) :
    StreamGroup × List XStream × Option RedisError :=
  if !s.created then
    (s, [], some (RedisError.other
      "NOGROUP No such key or consumer group in XREADGROUP with GROUP option"))
  else
    let fresh := s.entries.drop s.delivered
    let batch := if count > 0 then fresh.take count.toNat else fresh
    if batch = [] then (s, [], some RedisError.Nil)
    else
      ({ s with
          delivered := s.delivered + batch.length
          pending := s.pending ++ batch.map (fun msg => (msg.ID, consumer)) },
        [{ Stream := stream, Messages := batch }], none)

/-- The command `XACK stream group id`: the ID leaves the pending entries list, if
it is there; the answer is the number of IDs acknowledged, never an error. -/
def xAck (s : StreamGroup) (id : String) : StreamGroup × Nat :=
  ({ s with pending := s.pending.filter (fun p => p.1 ≠ id) },
    (s.pending.filter (fun p => p.1 = id)).length)

/-- The call `InitConsumerGroup` against the server. -/
def initConsumerGroupOn (s : StreamGroup) : Option AppError × StreamGroup :=
  ((InitConsumerGroup (xGroupCreateMkStream s).2), (xGroupCreateMkStream s).1)

/-- The call `ConsumeJob` against the server. -/
def consumeJobOn (s : StreamGroup) (stream consumer : String) (count : Int) :
    (List Job × Option AppError) × StreamGroup :=
  (ConsumeJob (xReadGroup s stream consumer count).2.1 (xReadGroup s stream consumer count).2.2,
    (xReadGroup s stream consumer count).1)

/-- The call `AckJob` against the server. -/
def ackJobOn (s : StreamGroup) (msgID : String) : Option AppError × StreamGroup :=
  (AckJob none, (xAck s msgID).1)

/-- A call the repository makes on the stream and the group. -/
inductive QueueCall where
  | init
  | add (id : String) (values : List (String × FieldValue))
  | consume (consumer : String) (count : Int)
  | ack (msgID : String)
deriving DecidableEq, Repr

/-- The state of the server after a call. -/
def QueueCall.apply (stream : String) (s : StreamGroup) : QueueCall → StreamGroup
  | QueueCall.init => (initConsumerGroupOn s).2
  | QueueCall.add id values => xAdd s id values
  | QueueCall.consume consumer count => (consumeJobOn s stream consumer count).2
  | QueueCall.ack msgID => (ackJobOn s msgID).2

/-- The state of the server after a sequence of calls. -/
def runCalls (stream : String) (s : StreamGroup) (calls : List QueueCall) : StreamGroup :=
  calls.foldl (QueueCall.apply stream) s

/-! ### The producer -/

/-- The surroundings of one `EnqueueJobFile` call: disk, wall clock
(`time.Now().UnixNano()`), JSON encoder and stream. -/
structure EnqueueEnv where
  mkdirErr : GoError
  openErr : GoError
  readErr : GoError
  now : Int
  writeErr : GoError
  marshal : QueueUploadFile → Except String String
  xaddErr : Option RedisError

/-- What an `EnqueueJobFile` call did: the error it returned, the staged file it
wrote (name and content), and the message it added to the stream (stream name and
fields). -/
structure EnqueueResult where
  err : Option AppError
  staged : Option (String × Bytes)
  added : Option (String × List (String × FieldValue))
deriving DecidableEq, Repr

/-- The name of the staged file (redisx.go, line 174):
`fmt.Sprintf("tmp/%s_%d%s", payload.ID, time.Now().UnixNano(), ext)`. -/
def stagedFileName (jobID : String) (now : Int) (ext : String) : String :=
  "tmp/" ++ jobID ++ "_" ++ toString now ++ ext

/-- The method `Client.EnqueueJobFile`. -/
def EnqueueJobFile (env : EnqueueEnv) (payload : Job) : EnqueueResult :=
  match env.mkdirErr with
  | some e =>
    { err := some (apperror.New "redisx" "EnqueueJobFile" 500 (some e) "failed to create tmp dir")
      staged := none, added := none }
  | none =>
    match payload.Payload with
    | JobPayload.uploadFile qf =>
      match qf.File with
      | none =>
        { err := some (apperror.New "redisx" "EnqueueJobFile" 400 none
            "QueueUploadFile.File cannot be nil")
          staged := none, added := none }
      | some file =>
        let ext := Ext file.Filename
        match env.openErr with
        | some e =>
          { err := some (apperror.New "redisx" "EnqueueJobFile" 500 (some e)
              "failed to open multipart file")
            staged := none, added := none }
        | none =>
          match env.readErr with
          | some e =>
            { err := some (apperror.New "redisx" "EnqueueJobFile" 500 (some e)
                "failed to read multipart file")
              staged := none, added := none }
          | none =>
            let data := file.Content
            let fileName := stagedFileName payload.ID env.now ext
            let qf := { qf with FilePathTmp := some fileName }
            match env.writeErr with
            | some e =>
              { err := some (apperror.New "redisx" "EnqueueJobFile" 500 (some e)
                  "failed to write image file to tmp")
                staged := none, added := none }
            | none =>
              match env.marshal qf with
              | Except.error e =>
                { err := some (apperror.New "redisx" "EnqueueJobFile" 500 (some e)
                    "failed to marshal job payload")
                  staged := some (fileName, data), added := none }
              | Except.ok jsonPayload =>
                match env.xaddErr with
                | some e =>
                  { err := some (apperror.New "redisx" "EnqueueJobFile" 500 (some e.Error)
                      "failed to enqueue job with file")
                    staged := some (fileName, data), added := none }
                | none =>
                  { err := none
                    staged := some (fileName, data)
                    added := some ("upload_jobs", [("id", FieldValue.str payload.ID),
                      ("payload", FieldValue.str jsonPayload)]) }
    | _ =>
      { err := some (apperror.New "redisx" "EnqueueJobFile" 500 none
          "payload is not of type QueueUploadFile")
        staged := none, added := none }

/-! ### Sample surroundings of the queue and of the producer -/

/-- Surroundings in which the disk, the encoder and the stream all work, at
wall-clock time `now`; the encoder writes the staged file name only. -/
def sampleEnqueueEnv (now : Int) : EnqueueEnv :=
  { mkdirErr := none
    openErr := none
    readErr := none
    now := now
    writeErr := none
    marshal := fun qf => Except.ok (qf.FilePathTmp.getD "")
    xaddErr := none }

/-- An upload of the file `name` with content `content`. -/
def sampleUpload (name : String) (content : Bytes) : QueueUploadFile :=
  { FilePath := "users/avatar.png"
    IsCompressToWebp := some true
    File := some
      { Filename := name, Size := content.length, ContentType := "image/png",
        Content := content }
    FilePathTmp := none
    OldFile := none }

/-- A stream holding the sample message, with the group created and nothing
delivered yet. -/
def sampleStream : StreamGroup :=
  { entries :=
      [{ ID := "1700000000000-0",
         Values := [("id", FieldValue.str "job1"), ("payload", FieldValue.str sampleJSON)] }]
    created := true
    delivered := 0
    pending := [] }

/-- A small PNG picture as an uploaded form file. -/
def samplePicture : FileHeader :=
  { Filename := "a.png", Size := 4, ContentType := "image/png", Content := [137, 80, 78, 71] }

/-- Options of an `UploadFile` call that keeps the format of the picture. -/
def uploadOptions (folder name : String) : FileUploadOptions :=
  { Folder := folder
    NameFile := name
    MaxSizeMB := none
    AllowedMimeTypes := []
    IsCompressToWebp := none }

/-- Surroundings with an endpoint that lacks the marker `is3` and a bucket whose
name contains it. -/
def markedBucketEnv : PipelineEnv :=
  { sampleEnv 0 with endpoint := "s3.amazonaws.com", bucket := "is3-media" }

/-- Surroundings with a bucket name that contains a separator. -/
def nestedBucketEnv : PipelineEnv :=
  { sampleEnv 0 with bucket := "media/public" }

/-! ## JSON documents (`github.com/goccy/go-json`, `encoding/json`)

The JSON library is not repository code. It is modelled by the mapping between Go
values and JSON documents that its documentation gives: a struct is an object
with one member per exported field, named by the field's `json` tag or else by the
field itself; a nil pointer is `null`; members tagged `omitempty` are left out when
empty. The text of a document is left to a codec. -/

/-- A JSON document. -/
inductive JSONValue where
  | null
  | bool (b : Bool)
  | number (n : Int)
  | string (s : String)
  | array (items : List JSONValue)
  | object (members : List (String × JSONValue))

/-- The text form of documents: the encoder behind `json.Marshal` and the parser
behind `json.Unmarshal`. -/
structure JSONText where
  encode : JSONValue → String
  decode : String → Except String JSONValue

/-- The document of a `*string`. -/
def JSONValue.ofStringPtr : Option String → JSONValue
  | none => JSONValue.null
  | some s => JSONValue.string s

/-- The document of a `*bool`. -/
def JSONValue.ofBoolPtr : Option Bool → JSONValue
  | none => JSONValue.null
  | some b => JSONValue.bool b

/-- The member of an object under a key, if any. -/
def JSONValue.member (key : String) : JSONValue → Option JSONValue
  | JSONValue.object members => members.lookup key
  | _ => none

/-- The document of a `multipart.FileHeader`: its exported fields `Filename`, `Header`
and `Size`. The content of the file sits in unexported fields and is not part of it. -/
def FileHeader.toJSON (f : FileHeader) : JSONValue :=
  JSONValue.object
    [("Filename", JSONValue.string f.Filename),
     ("Header", JSONValue.object
        [("Content-Type", JSONValue.array [JSONValue.string f.ContentType])]),
     ("Size", JSONValue.number f.Size)]

/-- The document of a `QueueUploadFile`: the struct has no `json` tags, so the members
carry the field names, in the order of the fields. -/
def QueueUploadFile.toJSON (q : QueueUploadFile) : JSONValue :=
  JSONValue.object
    [("FilePath", JSONValue.string q.FilePath),
     ("IsCompressToWebp", JSONValue.ofBoolPtr q.IsCompressToWebp),
     ("File", match q.File with
        | none => JSONValue.null
        | some f => f.toJSON),
     ("FilePathTmp", JSONValue.ofStringPtr q.FilePathTmp),
     ("OldFile", JSONValue.ofStringPtr q.OldFile)]

/-- The content type held by the document of a MIME header. -/
def decodeContentType : JSONValue → String
  | JSONValue.object members =>
    match members.lookup "Content-Type" with
    | some (JSONValue.array (JSONValue.string ct :: _)) => ct
    | _ => ""
  | _ => ""

/-- Decoding of a document into a field of type `string`, named `field` for the
error: `null` leaves the field as it is, a document of another type is an error. -/
def decodeString (field old : String) : JSONValue → Except String String
  | JSONValue.string s => Except.ok s
  | JSONValue.null => Except.ok old
  | _ => Except.error ("json: cannot unmarshal into Go struct field " ++ field)

/-- Decoding of a document into a field of type `int64`. -/
def decodeInt64 (field : String) (old : Int) : JSONValue → Except String Int
  | JSONValue.number n => Except.ok n
  | JSONValue.null => Except.ok old
  | _ => Except.error ("json: cannot unmarshal into Go struct field " ++ field)

/-- Decoding of a document into a field of type `*string`: `null` gives the nil
pointer. -/
def decodeStringPtr (field : String) : JSONValue → Except String (Option String)
  | JSONValue.string s => Except.ok (some s)
  | JSONValue.null => Except.ok none
  | _ => Except.error ("json: cannot unmarshal into Go struct field " ++ field)

/-- Decoding of a document into a field of type `*bool`. -/
def decodeBoolPtr (field : String) : JSONValue → Except String (Option Bool)
  | JSONValue.bool b => Except.ok (some b)
  | JSONValue.null => Except.ok none
  | _ => Except.error ("json: cannot unmarshal into Go struct field " ++ field)

/-- Decoding of a document into a MIME header, of which the content type is kept. -/
def decodeHeader (field old : String) : JSONValue → Except String String
  | JSONValue.object members => Except.ok (decodeContentType (JSONValue.object members))
  | JSONValue.null => Except.ok old
  | _ => Except.error ("json: cannot unmarshal into Go struct field " ++ field)

/-- Decoding of one member of an object into a `multipart.FileHeader`. Keys match
field names without regard to (ASCII) case; unknown members are skipped. -/
def decodeFileHeaderMember (f : FileHeader) (key : String) (v : JSONValue) :
    Except String FileHeader :=
  if ToLower key = "filename" then
    (decodeString "FileHeader.Filename" f.Filename v).map (fun s => { f with Filename := s })
  else if ToLower key = "header" then
    (decodeHeader "FileHeader.Header" f.ContentType v).map (fun ct => { f with ContentType := ct })
  else if ToLower key = "size" then
    (decodeInt64 "FileHeader.Size" f.Size v).map (fun n => { f with Size := n })
  else Except.ok f

/-- Decoding of the members of an object, in order, into a struct value. -/
def decodeMembers {α : Type} (step : α → String → JSONValue → Except String α) :
    α → List (String × JSONValue) → Except String α
  | a, [] => Except.ok a
  | a, (key, v) :: rest =>
    match step a key v with
    | Except.error e => Except.error e
    | Except.ok b => decodeMembers step b rest

/-- Decoding of a document into a field of type `*multipart.FileHeader`. -/
def decodeFileHeaderPtr (field : String) : JSONValue → Except String (Option FileHeader)
  | JSONValue.object members =>
    (decodeMembers decodeFileHeaderMember
      { Filename := "", Size := 0, ContentType := "", Content := [] } members).map some
  | JSONValue.null => Except.ok none
  | _ => Except.error ("json: cannot unmarshal into Go struct field " ++ field)

/-- Decoding of one member of an object into a `QueueUploadFile`. -/
def decodeUploadMember (q : QueueUploadFile) (key : String) (v : JSONValue) :
    Except String QueueUploadFile :=
  if ToLower key = "filepath" then
    (decodeString "QueueUploadFile.FilePath" q.FilePath v).map
      (fun s => { q with FilePath := s })
  else if ToLower key = "iscompresstowebp" then
    (decodeBoolPtr "QueueUploadFile.IsCompressToWebp" v).map
      (fun b => { q with IsCompressToWebp := b })
  else if ToLower key = "file" then
    (decodeFileHeaderPtr "QueueUploadFile.File" v).map (fun f => { q with File := f })
  else if ToLower key = "filepathtmp" then
    (decodeStringPtr "QueueUploadFile.FilePathTmp" v).map (fun s => { q with FilePathTmp := s })
  else if ToLower key = "oldfile" then
    (decodeStringPtr "QueueUploadFile.OldFile" v).map (fun s => { q with OldFile := s })
  else Except.ok q

/-- Decoding of a document into the zero value of `QueueUploadFile`
(`var payload fileUploader.QueueUploadFile`, worker.go line 70). -/
def QueueUploadFile.ofJSON : JSONValue → Except String QueueUploadFile
  | JSONValue.object members =>
    decodeMembers decodeUploadMember
      { FilePath := "", IsCompressToWebp := none, File := none, FilePathTmp := none,
        OldFile := none } members
  | JSONValue.null =>
    Except.ok
      { FilePath := "", IsCompressToWebp := none, File := none, FilePathTmp := none,
        OldFile := none }
  | _ => Except.error "json: cannot unmarshal into Go value of type fileUploader.QueueUploadFile"

/-- The call `json.Marshal(payload.Payload)` of the producer (redisx.go, line 184),
the payload being a `QueueUploadFile`. -/
def json.Marshal (text : JSONText) (q : QueueUploadFile) : Except String String :=
  Except.ok (text.encode q.toJSON)

/-- The call `json.Unmarshal([]byte(jsonStr), &payload)` of the worker (worker.go,
line 71). -/
def json.Unmarshal (text : JSONText) (jsonStr : String) : Except String QueueUploadFile :=
  match text.decode jsonStr with
  | Except.error e => Except.error e
  | Except.ok v => QueueUploadFile.ofJSON v

/-- The upload intent of the sample job before it is staged. -/
def sampleRequest (compress : Option Bool) : QueueUploadFile :=
  { FilePath := "users/avatar.png"
    IsCompressToWebp := compress
    File := some samplePicture
    FilePathTmp := none
    OldFile := some "https://is3.cloudhost.id/uts/users/old.png" }

/-- The text of the document of the staged sample intent. -/
def sampleText (compress : Option Bool) : String :=
  "\x7b\"FilePath\":\"users/avatar.png\",\"IsCompressToWebp\":" ++
  (match compress with
    | none => "null"
    | some b => fmtBool b) ++
  ",\"File\":\x7b\"Filename\":\"a.png\",\"Header\":\x7b\"Content-Type\":[\"image/png\"]\x7d," ++
  "\"Size\":4\x7d,\"FilePathTmp\":\"tmp/job1_1700000000000000000.png\"," ++
  "\"OldFile\":\"https://is3.cloudhost.id/uts/users/old.png\"\x7d"

/-- A codec that knows the document of the staged sample intent. -/
def sampleCodec (compress : Option Bool) : JSONText :=
  { encode := fun _ => sampleText compress
    decode := fun s =>
      if s = sampleText compress then
        Except.ok
          ({ sampleRequest compress with
              FilePathTmp := some "tmp/job1_1700000000000000000.png" }).toJSON
      else Except.error "invalid character" }

/-- Surroundings of the producer in which everything works, with the encoder of
the codec `text`. -/
def codecEnqueueEnv (text : JSONText) (now : Int) : EnqueueEnv :=
  { mkdirErr := none
    openErr := none
    readErr := none
    now := now
    writeErr := none
    marshal := json.Marshal text
    xaddErr := none }

/-! ## The HTTP side: users, helpers, middleware, validation -/

/-- Go's `strings.TrimPrefix`. -/
def TrimPrefix (s pre : String) : String :=
  if HasPrefix s pre then ⟨s.data.drop pre.length⟩ else s

/-- The position of the first occurrence of `sep` in a list of characters. -/
def indexOf (sep : List Char) : List Char → Option Nat
  | [] => if sep = [] then some 0 else none
  | c :: t => if sep.isPrefixOf (c :: t) then some 0 else (indexOf sep t).map (· + 1)

/-- Go's `strings.Index`: the position of the first occurrence of `substr` in `s`,
or -1. Positions count characters. -/
def Index (s substr : String) : Int :=
  match indexOf substr.data s.data with
  | some i => i
  | none => -1

/-- The pieces of `s` between the first `k - 1` occurrences of `sep`, the last piece
being the unsplit rest. -/
def splitUpTo (sep : List Char) : Nat → List Char → List (List Char)
  | 0, _ => []
  | 1, s => [s]
  | k + 2, s =>
    match indexOf sep s with
    | none => [s]
    | some i => s.take i :: splitUpTo sep (k + 1) (s.drop (i + sep.length))

/-- Go's `strings.SplitN`, for a separator that is not empty: at most `n` pieces
when `n > 0`, none when `n = 0`, all of them when `n < 0`. -/
def SplitN (s sep : String) (n : Int) : List String :=
  (splitUpTo sep.data (if n < 0 then s.length + 1 else n.toNat) s.data).map String.mk

/-! ### Go strings as bytes: `unicode/utf8`, `unicode`, `strings.ToUpper`, `strings.ToLower`

A Go string is a sequence of bytes; the strings of this development hold text, in
UTF-8. A slice such as `word[:1]` cuts bytes and may cut a character in two. The
library reads a byte that does not begin a well-formed encoding as the rune U+FFFD,
of width 1. The case tables of the package `unicode` for the runes beyond ASCII are
not repository code; they are a parameter. -/

/-- The rune `utf8.RuneError`, U+FFFD. -/
def RuneError : Char := Char.ofNat 0xFFFD

/-- The bytes of a rune in UTF-8 (`utf8.AppendRune`). -/
def encodeRune (c : Char) : List Nat :=
  if c.toNat < 0x80 then [c.toNat]
  else if c.toNat < 0x800 then [0xC0 + c.toNat / 0x40, 0x80 + c.toNat % 0x40]
  else if c.toNat < 0x10000 then
    [0xE0 + c.toNat / 0x1000, 0x80 + c.toNat / 0x40 % 0x40, 0x80 + c.toNat % 0x40]
  else
    [0xF0 + c.toNat / 0x40000, 0x80 + c.toNat / 0x1000 % 0x40, 0x80 + c.toNat / 0x40 % 0x40,
      0x80 + c.toNat % 0x40]

/-- The bytes of the Go string that holds the text `s`. -/
def stringBytes (s : String) : List Nat := s.data.flatMap encodeRune

/-- For a first byte from `0x80` on: the size of the encoding it begins and the range
accepted for the second byte (the tables `first` and `acceptRanges` of
`unicode/utf8`); size 1 for a byte that begins no encoding. -/
def leadByte (b : Nat) : Nat × Nat × Nat :=
  if 0xC2 ≤ b ∧ b ≤ 0xDF then (2, 0x80, 0xBF)
  else if b = 0xE0 then (3, 0xA0, 0xBF)
  else if b = 0xED then (3, 0x80, 0x9F)
  else if 0xE1 ≤ b ∧ b ≤ 0xEF then (3, 0x80, 0xBF)
  else if b = 0xF0 then (4, 0x90, 0xBF)
  else if 0xF1 ≤ b ∧ b ≤ 0xF3 then (4, 0x80, 0xBF)
  else if b = 0xF4 then (4, 0x80, 0x8F)
  else (1, 0, 0)

/-- The function `utf8.DecodeRuneInString` on a string that begins with the byte `s0`
from `0x80` on and goes on with `rest`: the rune and its width. -/
def decodeMultiByte (s0 : Nat) (rest : List Nat) : Char × Nat :=
  if (leadByte s0).1 = 1 then (RuneError, 1)
  else if rest.length + 1 < (leadByte s0).1 then (RuneError, 1)
  else if rest.getD 0 0 < (leadByte s0).2.1 ∨ (leadByte s0).2.2 < rest.getD 0 0 then
    (RuneError, 1)
  else if (leadByte s0).1 ≤ 2 then (Char.ofNat (s0 % 0x20 * 0x40 + rest.getD 0 0 % 0x40), 2)
  else if rest.getD 1 0 < 0x80 ∨ 0xBF < rest.getD 1 0 then (RuneError, 1)
  else if (leadByte s0).1 ≤ 3 then
    (Char.ofNat (s0 % 0x10 * 0x1000 + rest.getD 0 0 % 0x40 * 0x40 + rest.getD 1 0 % 0x40), 3)
  else if rest.getD 2 0 < 0x80 ∨ 0xBF < rest.getD 2 0 then (RuneError, 1)
  else
    (Char.ofNat (s0 % 8 * 0x40000 + rest.getD 0 0 % 0x40 * 0x1000 + rest.getD 1 0 % 0x40 * 0x40 +
      rest.getD 2 0 % 0x40), 4)

/-- The function `utf8.DecodeRuneInString`: the first rune of a string and its width
in bytes. -/
def DecodeRuneInString : List Nat → Char × Nat
  | [] => (RuneError, 0)
  | s0 :: rest => if s0 < 0x80 then (Char.ofNat s0, 1) else decodeMultiByte s0 rest

/-- The runes that `for _, c := range s` reads, `skip` bytes of the rune read last
still to be passed over. -/
def rangeRunes : Nat → List Nat → List Char
  | _, [] => []
  | 0, s0 :: rest =>
    (DecodeRuneInString (s0 :: rest)).1 ::
      rangeRunes ((DecodeRuneInString (s0 :: rest)).2 - 1) rest
  | skip + 1, _ :: rest => rangeRunes skip rest

/-- The function `strings.Map(mapping, s)` for a mapping that drops no rune: every
rune read from `s` is replaced by its image, U+FFFD standing for a byte that begins
no encoding. -/
def strings.Map (mapping : Char → Char) (s : List Nat) : String :=
  ⟨(rangeRunes 0 s).map mapping⟩

/-- The case mappings of the package `unicode` on the runes beyond ASCII (the table
`unicode.CaseRanges`). -/
structure CaseTables where
  upper : Char → Char
  lower : Char → Char

/-- The function `unicode.ToUpper`. -/
def unicode.ToUpper (t : CaseTables) (r : Char) : Char :=
  if r.toNat ≤ 0x7F then
    if 0x61 ≤ r.toNat ∧ r.toNat ≤ 0x7A then Char.ofNat (r.toNat - 0x20) else r
  else t.upper r

/-- The function `unicode.ToLower`. -/
def unicode.ToLower (t : CaseTables) (r : Char) : Char :=
  if r.toNat ≤ 0x7F then
    if 0x41 ≤ r.toNat ∧ r.toNat ≤ 0x5A then Char.ofNat (r.toNat + 0x20) else r
  else t.lower r

/-- The function `strings.ToUpper`: a string of ASCII bytes is mapped byte by byte,
any other string by `strings.Map(unicode.ToUpper, s)`. -/
def strings.ToUpper (t : CaseTables) (s : List Nat) : String :=
  if s.all (fun c => decide (c < 0x80)) then
    ⟨s.map (fun c => Char.ofNat (if 0x61 ≤ c ∧ c ≤ 0x7A then c - 0x20 else c))⟩
  else strings.Map (unicode.ToUpper t) s

/-- The function `strings.ToLower`: a string of ASCII bytes is mapped byte by byte,
any other string by `strings.Map(unicode.ToLower, s)`. -/
def strings.ToLower (t : CaseTables) (s : List Nat) : String :=
  if s.all (fun c => decide (c < 0x80)) then
    ⟨s.map (fun c => Char.ofNat (if 0x41 ≤ c ∧ c ≤ 0x5A then c + 0x20 else c))⟩
  else strings.Map (unicode.ToLower t) s

/-- The function `helper.FormatWord`:
`strings.ToUpper(word[:1]) + strings.ToLower(word[1:])`, the slices cutting bytes.
The slice `word[:1]` of an empty word is out of range and panics: `none`. -/
def FormatWord (t : CaseTables) (word : String) : Option String :=
  if (stringBytes word).length < 1 then none
  else
    some (strings.ToUpper t ((stringBytes word).take 1) ++
      strings.ToLower t ((stringBytes word).drop 1))

/-- The method `AppError.Error`. -/
def AppError.Error (e : AppError) : String := e.Message

/-- The document of an `AppError` by its `json` tags: `code`, `message`, and, unless
empty, `detail` and `stack`; `StatusCode` is tagged `-`. The detail is shown by its
rendering. -/
def AppError.toJSON (e : AppError) : JSONValue :=
  JSONValue.object
    ([("code", JSONValue.string e.Code), ("message", JSONValue.string e.Message)] ++
      (match e.Detail with
        | some d => [("detail", JSONValue.string d)]
        | none => []) ++
      (if e.Stack = "" then [] else [("stack", JSONValue.string e.Stack)]))

/-- The body that `response.Json` writes, with the status code of the response:
`status` tells whether the code is in 200..299. -/
structure BaseResponse where
  StatusCode : Int
  Status : Bool
  Message : String
  Data : JSONValue

/-- The function `response.Json(c.Status(statusCode), data, message)`. -/
def response.Json (statusCode : Int) (data : JSONValue) (message : String) : BaseResponse :=
  { StatusCode := statusCode
    Status := decide (200 ≤ statusCode ∧ statusCode ≤ 299)
    Message := message
    Data := data }

/-! ### `pkg/middleware/error.go` -/

/-- The errors that `ErrorHandlerFunc` tells apart, in the order of its tests: the
value `fiber.ErrRequestEntityTooLarge`, another `*fiber.Error`, an `*apperror.AppError`,
`sql.ErrNoRows`, `gorm.ErrRecordNotFound`, a `*pgconn.PgError`, any other error with
its message. -/
inductive HandledError where
  | requestEntityTooLarge
  | fiberError (code : Int) (message : String)
  | appError (e : AppError)
  | sqlNoRows
  | recordNotFound
  | pgError (code detail message : String)
  | other (message : String)

/-- What the handler reads besides the error: the package variable `Env`
(`SERVER_ENV`), the request id in the locals of the request, if it is a string, the
stack trace that `debug.Stack()` returns, and the case tables of the package
`unicode`, which `helper.FormatWord` consults. -/
structure HandlerCtx where
  Env : String
  requestID : Option String
  stack : String
  caseTables : CaseTables

/-- Column and value taken from the detail of a unique violation (error.go, lines
74-88); the column has lost its prefix `uk_`. -/
def uniqueViolationParts (detail : String) : String × String :=
  if HasPrefix detail "Key (" then
    let after := TrimPrefix detail "Key ("
    let parts := SplitN after ")=(" 2
    if parts.length = 2 then
      let column := parts.getD 0 ""
      let remain := parts.getD 1 ""
      let finish := Index remain ") already exists."
      let value := if finish ≠ -1 then String.mk (remain.data.take finish.toNat) else ""
      (TrimPrefix column "uk_", value)
    else ("", "")
  else ("", "")

/-- The message for a unique violation (error.go, lines 89-93); `none` is a panic
in `FormatWord`. -/
def uniqueViolationMessage (t : CaseTables) (detail : String) : Option String :=
  let column := (uniqueViolationParts detail).1
  let value := (uniqueViolationParts detail).2
  if column ≠ "" ∧ value ≠ "" then
    (FormatWord t column).map (fun word => word ++ " '" ++ value ++ "' already exists")
  else some detail

/-- The last step of the handler (error.go, lines 108-157), as far as the client
sees it: the response with the request id, and with the stack trace in `dev` mode. -/
def respondLogged (ctx : HandlerCtx) (statusCode : Int) (message : String) : BaseResponse :=
  let requestID :=
    match ctx.requestID with
    | some id => if id = "" then "unknown" else id
    | none => "unknown"
  if ctx.Env = "dev" then
    response.Json statusCode
      (JSONValue.object [("request_id", JSONValue.string requestID),
        ("stack", JSONValue.string ctx.stack)]) message
  else
    response.Json statusCode
      (JSONValue.object [("request_id", JSONValue.string requestID)]) message

/-- The function `ErrorHandlerFunc`: the response sent to the client; `none` is a
panic. -/
def ErrorHandlerFunc (ctx : HandlerCtx) : HandledError → Option BaseResponse
  | HandledError.requestEntityTooLarge =>
    some (response.Json 400 JSONValue.null "File size exceeds maximum limit")
  | HandledError.appError appErr =>
    if appErr.StatusCode = 422 then
      some (response.Json appErr.StatusCode (JSONValue.ofStringPtr appErr.Detail) appErr.Message)
    else some (response.Json appErr.StatusCode appErr.toJSON appErr.Message)
  | HandledError.sqlNoRows => some (response.Json 404 JSONValue.null "Resource not found")
  | HandledError.recordNotFound => some (response.Json 404 JSONValue.null "Resource not found")
  | HandledError.pgError code detail message =>
    if code = "23505" then
      (uniqueViolationMessage ctx.caseTables detail).map
        (fun m => response.Json 409 JSONValue.null m)
    else some (response.Json 400 JSONValue.null message)
  | HandledError.fiberError code message =>
    if message = "Request Entity Too Large" then
      some (response.Json 413 JSONValue.null "File size exceeds maximum limit")
    else some (respondLogged ctx code message)
  | HandledError.other message =>
    if message = "Request Entity Too Large" then
      some (response.Json 413 JSONValue.null "File size exceeds maximum limit")
    else some (respondLogged ctx 500 "Internal Server Error")

/-! ### `pkg/validator` -/

/-- The validation `strong_password` (validator.go, lines 32-48). `len(p)` is the
number of bytes of the UTF-8 encoding of `p`; the loop runs over its characters. -/
def strong_password (p : String) : Bool :=
  if p.utf8ByteSize < 8 then false
  else
    let flags := p.data.foldl
      (fun (st : Bool × Bool) ch =>
        if '0' ≤ ch ∧ ch ≤ '9' then (st.1, true)
        else if ('a' ≤ ch ∧ ch ≤ 'z') ∨ ('A' ≤ ch ∧ ch ≤ 'Z') then (true, st.2)
        else st)
      (false, false)
    flags.1 && flags.2

/-! ### `internal/db/model`, tokens and `pkg/middleware/auth.go` -/

/-- The user role `model.RoleAdmin`. -/
def RoleAdmin : String := "admin"

/-- The user role `model.RoleSuperAdmin`. -/
def RoleSuperAdmin : String := "superadmin"

/-- A row of the table `users` (`model.User` with its `BaseModel`), time stamps left
out. -/
structure User where
  ID : String
  LearningPointID : Option String
  Name : String
  Email : String
  Password : String
  Role : String
deriving DecidableEq, Repr

/-- The document of a `model.User` by its `json` tags. -/
def User.toJSON (u : User) : JSONValue :=
  JSONValue.object
    [("id", JSONValue.string u.ID),
     ("learning_point_id", JSONValue.ofStringPtr u.LearningPointID),
     ("name", JSONValue.string u.Name),
     ("email", JSONValue.string u.Email),
     ("password", JSONValue.string u.Password),
     ("role", JSONValue.string u.Role)]

/-- A Go value held in an `interface{}`, with its dynamic type: what a claim of a
token can be before it is signed (`string`, `model.User`, `model.UserRole`, `int64`)
and after it is parsed from JSON (`nil`, `bool`, `float64`, `string`,
`[]interface{}`, `map[string]interface{}`; the members of the last two are kept as
documents). -/
inductive GoValue where
  | nil
  | bool (b : Bool)
  | float64 (n : Int)
  | string (s : String)
  | slice (items : List JSONValue)
  | map (members : List (String × JSONValue))
  | user (u : User)
  | userRole (r : String)
  | int64 (n : Int)

/-- The document that `encoding/json` writes for a value. -/
def GoValue.toJSON : GoValue → JSONValue
  | GoValue.nil => JSONValue.null
  | GoValue.bool b => JSONValue.bool b
  | GoValue.float64 n => JSONValue.number n
  | GoValue.string s => JSONValue.string s
  | GoValue.slice items => JSONValue.array items
  | GoValue.map members => JSONValue.object members
  | GoValue.user u => u.toJSON
  | GoValue.userRole r => JSONValue.string r
  | GoValue.int64 n => JSONValue.number n

/-- The value that `encoding/json` stores in an `interface{}` for a document. -/
def GoValue.ofJSON : JSONValue → GoValue
  | JSONValue.null => GoValue.nil
  | JSONValue.bool b => GoValue.bool b
  | JSONValue.number n => GoValue.float64 n
  | JSONValue.string s => GoValue.string s
  | JSONValue.array items => GoValue.slice items
  | JSONValue.object members => GoValue.map members

/-- The type assertion `v.(string)`; `none` when it fails. -/
def GoValue.assertString : GoValue → Option String
  | GoValue.string s => some s
  | _ => none

/-- The type assertion `v.(model.User)`; `none` when it fails. -/
def GoValue.assertUser : GoValue → Option User
  | GoValue.user u => some u
  | _ => none

/-- The claims of a token (`jwt.MapClaims`). -/
abbrev MapClaims := List (String × GoValue)

/-- The value of `claims[key]`: the nil interface for a key that is not there. -/
def MapClaims.get (claims : MapClaims) (key : String) : GoValue :=
  (claims.lookup key).getD GoValue.nil

/-- The claims that `GenerateJwtToken` sets (helper.go, lines 74-77), `now` being
`time.Now().Unix()`. -/
def tokenClaims (user : User) (now : Int) : MapClaims :=
  [("user_id", GoValue.string user.ID),
   ("user", GoValue.user user),
   ("role", GoValue.userRole user.Role),
   ("exp", GoValue.int64 (now + 24 * 3600))]

/-- The token library (`github.com/golang-jwt/jwt/v5`), which is not repository code:
`sign` is `SignedString` on the document of the claims, with the secret of the
configuration; `parse` is `jwt.Parse` with that secret at the time of the request,
which checks signature and expiry and returns the document of the claims. -/
structure JwtLib where
  sign : JSONValue → Except String String
  parse : String → Except String (List (String × JSONValue))

/-- The function `helper.GenerateJwtToken`. -/
def GenerateJwtToken (jwt : JwtLib) (stack : String) (now : Int) (user : User) :
    Except AppError String :=
  match jwt.sign (JSONValue.object ((tokenClaims user now).map (fun c => (c.1, c.2.toJSON)))) with
  | Except.error e =>
    Except.error (apperror.New "helper" "failed to generate jwt token" 500 (some e) stack)
  | Except.ok tokenString => Except.ok tokenString

/-- The function `helper.ParseJwtToken`: the claims are a map of values parsed from
JSON. -/
def ParseJwtToken (jwt : JwtLib) (stack : String) (tokenString : String) :
    Except AppError MapClaims :=
  match jwt.parse tokenString with
  | Except.error e =>
    Except.error (apperror.New "helper" "failed to parse jwt token" 400 (some e) stack)
  | Except.ok members => Except.ok (members.map (fun m => (m.1, GoValue.ofJSON m.2)))

/-- The function `helper.VerifyJwtToken`. -/
def VerifyJwtToken (jwt : JwtLib) (stack : String) (tokenString : String) :
    Except AppError MapClaims :=
  ParseJwtToken jwt stack tokenString

/-- The function `helper.GetTokenFromHeader`, given the value of the header
`Authorization` (empty when the header is missing). -/
def GetTokenFromHeader (stack : String) (authorization : String) : Except AppError String :=
  if authorization = "" then
    Except.error (apperror.New "helper" "missing authorization header" 400 none stack)
  else if HasPrefix authorization "Bearer " then
    let token := TrimPrefix authorization "Bearer "
    if token = "" then Except.error (apperror.New "helper" "missing token" 400 none stack)
    else Except.ok token
  else Except.error (apperror.New "helper" "invalid authorization format" 400 none stack)

/-- The function `containsRole`. -/
def containsRole (roles : List String) (role : String) : Bool :=
  roles.any (fun v => v = role)

/-- What a request meets in `AuthMiddleware`: a response, the next handler with the
values stored in the locals of the request, or a panic in the type assertion on the
claim named. -/
inductive AuthResult where
  | response (r : BaseResponse)
  | next (userID : String) (user : User) (token : String) (role : String)
  | panic (claim : String)

/-- The handler that `AuthMiddleware(roles)` returns, on a request with the given
`Authorization` header. -/
def AuthMiddleware (jwt : JwtLib) (stack : String) (roles : List String)
    (authorization : String) : AuthResult :=
  match GetTokenFromHeader stack authorization with
  | Except.error err =>
    AuthResult.response (response.Json 401 (JSONValue.string err.Error) "Unauthorized")
  | Except.ok tokenString =>
    match VerifyJwtToken jwt stack tokenString with
    | Except.error err =>
      AuthResult.response (response.Json 401 (JSONValue.string err.Error) "Unauthorized")
    | Except.ok claims =>
      match (claims.get "user_id").assertString with
      | none => AuthResult.panic "user_id"
      | some userID =>
        match (claims.get "user").assertUser with
        | none => AuthResult.panic "user"
        | some user =>
          match (claims.get "role").assertString with
          | none => AuthResult.panic "role"
          | some role =>
            if roles.length > 0 ∧ !containsRole roles role then
              AuthResult.response (response.Json 403 JSONValue.null "Forbidden")
            else AuthResult.next userID user tokenString role

/-! ### `internal/features/users/service` -/

/-- The request `dto.CreateUserRequest`. -/
structure CreateUserRequest where
  Name : String
  Email : String
  Password : String
  LearningPointId : String
deriving DecidableEq, Repr

/-- The request `dto.LoginRequest`. -/
structure LoginRequest where
  Email : String
  Password : String
deriving DecidableEq, Repr

/-- The response `dto.LoginResponse`, time stamp left out. -/
structure LoginResponse where
  ID : String
  Name : String
  Email : String
  Role : String
  Token : String
deriving DecidableEq, Repr

/-- The surroundings of a service call: the answers of the database to `Begin` and
`Commit`, the id that `cuid2.Generate()` returns, the procedure of `bcrypt` that tells
whether a well-formed hash is the hash of a password, the token library, the clock
and the stack trace. -/
structure ServiceEnv where
  beginErr : GoError
  commitErr : GoError
  newID : String
  bcryptMatches : String → String → Bool
  jwt : JwtLib
  now : Int
  stack : String

/-- The call `tx.Create(&user)` on the table `users`: the hook `BeforeCreate` gives a
user without id a fresh one; the primary key and the unique index on `email` refuse
a row that repeats an id or an email. The result is the table and the user as
stored. -/
def Create (table : List User) (newID : String) (user : User) :
    Except String (List User × User) :=
  let user := if user.ID = "" then { user with ID := newID } else user
  if table.any (fun u => u.ID = user.ID) then
    Except.error "duplicate key value violates unique constraint \"users_pkey\""
  else if table.any (fun u => u.Email = user.Email) then
    Except.error "duplicate key value violates unique constraint \"idx_users_email\""
  else Except.ok (table ++ [user], user)

/-- The call `s.DB().First(&user, "email = ?", email)`. -/
def First (table : List User) (email : String) : Except String User :=
  match table.find? (fun u => u.Email = email) with
  | some user => Except.ok user
  | none => Except.error "record not found"

/-- The method `BaseService.InTx`: result or error, and the table afterwards; a
failed transaction leaves the table as it was. -/
def InTx {α : Type} (env : ServiceEnv) (table : List User)
    (fn : List User → Except String (List User × α)) : Except AppError α × List User :=
  match env.beginErr with
  | some e =>
    (Except.error (apperror.New "base_service" "in_tx" 500 (some e)
      "failed to begin transaction"), table)
  | none =>
    match fn table with
    | Except.error e =>
      (Except.error (apperror.New "base_service" "in_tx" 500 (some e)
        "failed to execute transaction"), table)
    | Except.ok (table2, result) =>
      match env.commitErr with
      | some e =>
        (Except.error (apperror.New "base_service" "in_tx" 500 (some e)
          "failed to commit transaction"), table)
      | none => (Except.ok result, table2)

/-- The method `Service.HandleRegister`: what it returns and the table afterwards. -/
def HandleRegister (env : ServiceEnv) (table : List User) (req : CreateUserRequest) :
    Except AppError User × List User :=
  let res := InTx env table (fun tx =>
    let user : User :=
      { ID := ""
        LearningPointID := none
        Name := req.Name
        Email := req.Email
        Password := ""
        Role := RoleAdmin }
    Create tx env.newID user)
  match res.1 with
  | Except.error err =>
    (Except.error (apperror.New "users" "failed to register user" 400 (some err.Error) req.Name),
      res.2)
  | Except.ok user => (Except.ok user, res.2)

/-- The function `helper.CompareHashAndPassword`, that is
`bcrypt.CompareHashAndPassword`: a hash shorter than 59 bytes is refused before
anything is compared. -/
def CompareHashAndPassword (env : ServiceEnv) (hash password : String) : GoError :=
  if hash.utf8ByteSize < 59 then
    some "crypto/bcrypt: hashedSecret too short to be a bcrypted password"
  else if env.bcryptMatches hash password then none
  else some "crypto/bcrypt: hashedPassword is not the hash of the given password"

/-- The method `Service.HandleLogin`. -/
def HandleLogin (env : ServiceEnv) (table : List User) (req : LoginRequest) :
    Except String LoginResponse :=
  match First table req.Email with
  | Except.error err => Except.error err
  | Except.ok user =>
    match CompareHashAndPassword env user.Password req.Password with
    | some err => Except.error err
    | none =>
      match GenerateJwtToken env.jwt env.stack env.now user with
      | Except.error err => Except.error err.Error
      | Except.ok tokenString =>
        Except.ok
          { ID := user.ID
            Name := user.Name
            Email := user.Email
            Role := user.Role
            Token := tokenString }

/-! ### Sample surroundings of the HTTP side -/

/-- Case tables that know the letter `é` and leave every other rune alone. -/
def sampleCaseTables : CaseTables :=
  { upper := fun c => if c = 'é' then 'É' else c
    lower := fun c => if c = 'É' then 'é' else c }

/-- A production context of the error handler. -/
def prodCtx : HandlerCtx :=
  { Env := "prod", requestID := some "req-1", stack := "goroutine 1 [running]:",
    caseTables := sampleCaseTables }

/-- The error that `validator.StringToInt` returns for a malformed number, with the
stack trace taken where it was made. -/
def invalidIntError : AppError :=
  apperror.New "INVALID_INT" "Invalid integer value" 400 none
    "goroutine 7 [running]: template-golang/pkg/validator.StringToInt"

/-- A user of the table. -/
def sampleUser : User :=
  { ID := "u1"
    LearningPointID := none
    Name := "Ana"
    Email := "ana@example.com"
    Password := "$2a$10$N9qo8uLOickgx2ZMRZoMyeIjZAgcfl7p92ldGxad68LJZdL17lhWy"
    Role := "admin" }

/-- A token library that knows one token, `tok`, issued to the sample user. -/
def sampleJwt : JwtLib :=
  { sign := fun _ => Except.ok "tok"
    parse := fun s =>
      if s = "tok" then
        Except.ok ((tokenClaims sampleUser 1700000000).map (fun c => (c.1, c.2.toJSON)))
      else Except.error "token is malformed" }

/-- Surroundings of the service in which the database works and `bcrypt` accepts
every well-formed hash. -/
def sampleServiceEnv : ServiceEnv :=
  { beginErr := none
    commitErr := none
    newID := "u2"
    bcryptMatches := fun _ _ => true
    jwt := sampleJwt
    now := 1700000000
    stack := "" }

/-- A request to register a user. -/
def sampleRegistration : CreateUserRequest :=
  { Name := "Budi", Email := "budi@example.com", Password := "secret123", LearningPointId := "1" }

/-! ## `pkg/pagination`

The type `int` is the 64-bit integer of the platforms the service is built for;
arguments are taken to be in its range, and every operation wraps. The last page
is computed in `float64`: conversion and division round to the nearest value of 53
significant bits, ties to even. The numbers that occur are far from the limits of
the exponent, which is left unbounded. -/

/-- Go's `strconv.Itoa`. -/
def Itoa (i : Int) : String := toString i

/-- The integer nearest to `n / d`, a tie going to the even one. -/
def roundHalfEven (n d : Nat) : Nat :=
  if 2 * (n % d) < d then n / d
  else if d < 2 * (n % d) then n / d + 1
  else if (n / d) % 2 = 0 then n / d
  else n / d + 1

/-- The binary logarithm of `n`, rounded down, by halving at most `fuel` times. -/
def log2Fuel : Nat → Nat → Nat
  | 0, _ => 0
  | fuel + 1, n => if n < 2 then 0 else log2Fuel fuel (n / 2) + 1

/-- The binary logarithm of `n`, rounded down (0 for 0): the position of the
leading bit. -/
def ilog2 (n : Nat) : Nat := log2Fuel n n

/-- The exponent `e` with `2 ^ e ≤ n / d < 2 ^ (e + 1)`, for positive `n` and `d`:
the difference of the binary logarithms, or one less. -/
def floorLog2 (n d : Nat) : Int :=
  if d * 2 ^ ((ilog2 n : Int) - (ilog2 d : Int)).toNat ≤
      n * 2 ^ ((ilog2 d : Int) - (ilog2 n : Int)).toNat then
    (ilog2 n : Int) - (ilog2 d : Int)
  else (ilog2 n : Int) - (ilog2 d : Int) - 1

/-- A value of the type `float64`: a finite number `± mant * 2 ^ exp` (zero when
`mant = 0`), an infinity, or not a number. -/
inductive Float64 where
  | finite (neg : Bool) (mant : Nat) (exp : Int)
  | inf (neg : Bool)
  | nan
deriving DecidableEq, Repr

/-- The `float64` nearest to `± n / d`, for positive `n` and `d`: the quotient is
scaled into the range of 53-bit integers and rounded there. -/
def Float64.nearest (neg : Bool) (n d : Nat) : Float64 :=
  Float64.finite neg
    (roundHalfEven (n * 2 ^ (52 - floorLog2 n d).toNat) (d * 2 ^ (floorLog2 n d - 52).toNat))
    (floorLog2 n d - 52)

/-- The conversion `float64(x)` of an integer. -/
def Float64.ofInt (x : Int) : Float64 :=
  if x = 0 then Float64.finite false 0 0
  else Float64.nearest (decide (x < 0)) x.natAbs 1

/-- The division of two `float64` values. -/
def Float64.div : Float64 → Float64 → Float64
  | Float64.finite s a ea, Float64.finite t b eb =>
    if b = 0 then (if a = 0 then Float64.nan else Float64.inf (s != t))
    else if a = 0 then Float64.finite (s != t) 0 0
    else Float64.nearest (s != t) (a * 2 ^ (ea - eb).toNat) (b * 2 ^ (eb - ea).toNat)
  | Float64.finite s _ _, Float64.inf t => Float64.finite (s != t) 0 0
  | Float64.inf s, Float64.finite t _ _ => Float64.inf (s != t)
  | Float64.inf _, Float64.inf _ => Float64.nan
  | Float64.nan, _ => Float64.nan
  | _, Float64.nan => Float64.nan

/-- Go's `math.Ceil`: the least integer value not below the argument. -/
def math.Ceil : Float64 → Float64
  | Float64.finite neg mant exp =>
    if 0 ≤ exp then Float64.finite neg mant exp
    else if neg then Float64.finite true (mant / 2 ^ (-exp).toNat) 0
    else Float64.finite false ((mant + 2 ^ (-exp).toNat - 1) / 2 ^ (-exp).toNat) 0
  | Float64.inf neg => Float64.inf neg
  | Float64.nan => Float64.nan

/-- The conversion `int(f)`: the fraction is dropped. For a value out of the range
of `int`, an infinity or not a number the result depends on the platform; it is
the one of amd64, the least integer. -/
def Float64.toInt : Float64 → Int
  | Float64.finite neg mant exp =>
    if -(2 : Int) ^ 63 ≤
          (if neg then -1 else 1) *
            ((if 0 ≤ exp then mant * 2 ^ exp.toNat else mant / 2 ^ (-exp).toNat : Nat) : Int) ∧
        (if neg then -1 else 1) *
            ((if 0 ≤ exp then mant * 2 ^ exp.toNat else mant / 2 ^ (-exp).toNat : Nat) : Int) <
          (2 : Int) ^ 63 then
      (if neg then -1 else 1) *
        ((if 0 ≤ exp then mant * 2 ^ exp.toNat else mant / 2 ^ (-exp).toNat : Nat) : Int)
    else -(2 : Int) ^ 63
  | _ => -(2 : Int) ^ 63

/-- The structure `PaginationResponse[T]`. -/
structure PaginationResponse (T : Type) where
  CurrentPage : Int
  Data : List T
  FirstPageURL : String
  From : Int
  LastPage : Int
  LastPageURL : String
  NextPageURL : String
  Path : String
  PerPage : Int
  PrevPageURL : String
  To : Int
  Total : Int

/-- The value of `lastPage` (pagination.go, line 26):
`int(math.Ceil(float64(total) / float64(perPage)))`. -/
def lastPageOf (total perPage : Int) : Int :=
  (math.Ceil ((Float64.ofInt total).div (Float64.ofInt perPage))).toInt

/-- The function `Paginate`; `first` and `last` are its variables `from` and `to`. -/
def Paginate {T : Type} (data : List T) (total page perPage : Int) (path : String) :
    PaginationResponse T :=
  let lastPage := lastPageOf total perPage
  let first := wrapInt64 (wrapInt64 (wrapInt64 (page - 1) * perPage) + 1)
  let last := wrapInt64 (wrapInt64 (first + perPage) - 1)
  let last := if last > total then total else last
  let prevPageURL := if page > 1 then path ++ "?page=" ++ Itoa (wrapInt64 (page - 1)) else ""
  let nextPageURL :=
    if page < lastPage then path ++ "?page=" ++ Itoa (wrapInt64 (page + 1)) else ""
  { CurrentPage := page
    Data := data
    FirstPageURL := path ++ "?page=1"
    From := first
    LastPage := lastPage
    LastPageURL := path ++ "?page=" ++ Itoa lastPage
    NextPageURL := nextPageURL
    Path := path
    PerPage := perPage
    PrevPageURL := prevPageURL
    To := last
    Total := total }

/-! ## Properties of the retry loop -/

section Observations

variable (a b : List Event) (e : Event)

theorem pipelineCalls_append : pipelineCalls (a ++ b) = pipelineCalls a ++ pipelineCalls b := by
  simp [pipelineCalls]

theorem deleteCalls_append : deleteCalls (a ++ b) = deleteCalls a ++ deleteCalls b := by
  simp [deleteCalls]

theorem sleeps_append : sleeps (a ++ b) = sleeps a ++ sleeps b := by
  simp [sleeps]

theorem ackCalls_append : ackCalls (a ++ b) = ackCalls a ++ ackCalls b := by
  simp [ackCalls]

theorem removeCalls_append : removeCalls (a ++ b) = removeCalls a ++ removeCalls b := by
  simp [removeCalls]

end Observations

/-- A valid message is handed to `runJob`. -/
theorem processMessage_valid (unmarshal : String → Except String QueueUploadFile) (r : Responses)
    (files : List String) (msg : Job) (payload : QueueUploadFile) (tmp : String) (compress : Bool)
    (h : ValidMessage unmarshal files msg payload tmp compress) :
    processMessage unmarshal r files msg = runJob r files msg.ID tmp payload compress := by
  obtain ⟨m, jsonStr, h1, h2, h3, h4, h5, h6⟩ := h
  simp [processMessage, h1, h2, h3, h4, h5, h6]

/-- The events of the `OldFile` block: deletions and log lines only. -/
theorem deleteOldFile_trace (r : Responses) (jobID : String) (payload : QueueUploadFile)
    (attempt : Nat) (err : GoError) :
    pipelineCalls (deleteOldFile r jobID payload attempt err).2 = [] ∧
    sleeps (deleteOldFile r jobID payload attempt err).2 = [] ∧
    ackCalls (deleteOldFile r jobID payload attempt err).2 = [] ∧
    removeCalls (deleteOldFile r jobID payload attempt err).2 = [] ∧
    deleteCalls (deleteOldFile r jobID payload attempt err).2 = payload.OldFile.toList := by
  unfold deleteOldFile
  cases payload.OldFile with
  | none => simp [pipelineCalls, sleeps, ackCalls, removeCalls, deleteCalls]
  | some old =>
    cases hd : r.deleteFile attempt old <;>
      simp [hd, pipelineCalls, sleeps, ackCalls, removeCalls, deleteCalls, Event.uploadResult,
        Event.sleepSeconds, Event.acked, Event.removed, Event.deletedURL]

/-- The loop on a successful attempt. -/
theorem retryLoop_cons_ok (r : Responses) (jobID tmp folder : String)
    (payload : QueueUploadFile) (compress : Bool) (k : Nat) (rest : List Nat) (lastErr : GoError)
    (h : r.upload k tmp (pipelineOptions folder payload compress) = none) :
    retryLoop r jobID tmp folder payload compress (k :: rest) lastErr =
      { success := true, lastErr := lastErr,
        trace := [Event.uploadFileFromPath tmp (pipelineOptions folder payload compress) none] } := by
  simp [retryLoop, h]

/-- The loop on a failed attempt. -/
theorem retryLoop_cons_fail (r : Responses) (jobID tmp folder : String)
    (payload : QueueUploadFile) (compress : Bool) (k : Nat) (rest : List Nat) (lastErr : GoError)
    (e : String) (h : r.upload k tmp (pipelineOptions folder payload compress) = some e) :
    retryLoop r jobID tmp folder payload compress (k :: rest) lastErr =
      { retryLoop r jobID tmp folder payload compress rest
          (deleteOldFile r jobID payload k (some e)).1 with
        trace := Event.uploadFileFromPath tmp (pipelineOptions folder payload compress) (some e)
          :: ((deleteOldFile r jobID payload k (some e)).2 ++
            Event.log Level.warn "job %s: upload attempt %d failed: %v"
              [jobID, toString k, fmtErr (deleteOldFile r jobID payload k (some e)).1]
            :: (if k < 5 then [Event.sleep k] else []) ++
            (retryLoop r jobID tmp folder payload compress rest
              (deleteOldFile r jobID payload k (some e)).1).trace) } := by
  simp [retryLoop, h]

/-- The retry loop neither acknowledges nor removes anything. -/
theorem retryLoop_no_ack_remove (r : Responses) (jobID tmp folder : String)
    (payload : QueueUploadFile) (compress : Bool) (as : List Nat) (lastErr : GoError) :
    ackCalls (retryLoop r jobID tmp folder payload compress as lastErr).trace = [] ∧
    removeCalls (retryLoop r jobID tmp folder payload compress as lastErr).trace = [] := by
  induction as generalizing lastErr with
  | nil => simp [retryLoop, ackCalls, removeCalls]
  | cons k rest ih =>
    cases hk : r.upload k tmp (pipelineOptions folder payload compress) with
    | none =>
      rw [retryLoop_cons_ok _ _ _ _ _ _ _ _ _ hk]
      simp [ackCalls, removeCalls, Event.acked, Event.removed]
    | some e =>
      rw [retryLoop_cons_fail _ _ _ _ _ _ _ _ _ e hk]
      have hd := deleteOldFile_trace r jobID payload k (some e)
      have hi := ih (deleteOldFile r jobID payload k (some e)).1
      simp only [ackCalls, removeCalls] at hd hi ⊢
      by_cases h5 : k < 5 <;>
        simp [Event.acked, Event.removed, hd.2.2.1, hd.2.2.2.1, hi.1, hi.2, List.filterMap_append,
          h5]

/-- While every attempt fails the loop runs through all of them: one pipeline call
per attempt, one deletion per attempt when `OldFile` is set, a sleep after each
attempt below five. -/
theorem retryLoop_all_fail (r : Responses) (jobID tmp folder : String)
    (payload : QueueUploadFile) (compress : Bool) (as : List Nat) (lastErr : GoError)
    (hfail : ∀ k ∈ as, r.upload k tmp (pipelineOptions folder payload compress) ≠ none) :
    (retryLoop r jobID tmp folder payload compress as lastErr).success = false ∧
    pipelineCalls (retryLoop r jobID tmp folder payload compress as lastErr).trace
      = as.map (fun k => r.upload k tmp (pipelineOptions folder payload compress)) ∧
    sleeps (retryLoop r jobID tmp folder payload compress as lastErr).trace
      = as.filter (fun k => k < 5) ∧
    deleteCalls (retryLoop r jobID tmp folder payload compress as lastErr).trace
      = (as.map (fun _ => payload.OldFile.toList)).flatten := by
  induction as generalizing lastErr with
  | nil => simp [retryLoop, pipelineCalls, sleeps, deleteCalls]
  | cons k rest ih =>
    have hk := hfail k (List.mem_cons_self _ _)
    have hrest : ∀ j ∈ rest, r.upload j tmp (pipelineOptions folder payload compress) ≠ none :=
      fun j hj => hfail j (List.mem_cons_of_mem _ hj)
    cases hu : r.upload k tmp (pipelineOptions folder payload compress) with
    | none => exact absurd hu hk
    | some e =>
      rw [retryLoop_cons_fail _ _ _ _ _ _ _ _ _ e hu]
      have hd := deleteOldFile_trace r jobID payload k (some e)
      have hi := ih (deleteOldFile r jobID payload k (some e)).1 hrest
      simp only [pipelineCalls, sleeps, deleteCalls] at hd hi ⊢
      refine ⟨hi.1, ?_, ?_, ?_⟩
      · by_cases h5 : k < 5 <;>
          simp [Event.uploadResult, hd.1, hi.2.1, List.filterMap_append, h5, hu]
      · by_cases h5 : k < 5 <;>
          simp [Event.sleepSeconds, hd.2.1, hi.2.2.1, List.filterMap_append, h5, List.filter_cons]
      · by_cases h5 : k < 5 <;>
          simp [Event.deletedURL, hd.2.2.2.2, hi.2.2.2, List.filterMap_append, h5]

/-- Failing attempts in front of the list are run through and the loop goes on with
the rest. -/
theorem retryLoop_append (r : Responses) (jobID tmp folder : String)
    (payload : QueueUploadFile) (compress : Bool) (as rest : List Nat) (lastErr : GoError)
    (hfail : ∀ k ∈ as, r.upload k tmp (pipelineOptions folder payload compress) ≠ none) :
    retryLoop r jobID tmp folder payload compress (as ++ rest) lastErr =
      { retryLoop r jobID tmp folder payload compress rest
          (retryLoop r jobID tmp folder payload compress as lastErr).lastErr with
        trace := (retryLoop r jobID tmp folder payload compress as lastErr).trace ++
          (retryLoop r jobID tmp folder payload compress rest
            (retryLoop r jobID tmp folder payload compress as lastErr).lastErr).trace } := by
  induction as generalizing lastErr with
  | nil => simp [retryLoop]
  | cons k as ih =>
    have hk := hfail k (List.mem_cons_self _ _)
    have has : ∀ j ∈ as, r.upload j tmp (pipelineOptions folder payload compress) ≠ none :=
      fun j hj => hfail j (List.mem_cons_of_mem _ hj)
    cases hu : r.upload k tmp (pipelineOptions folder payload compress) with
    | none => exact absurd hu hk
    | some e =>
      rw [List.cons_append, retryLoop_cons_fail _ _ _ _ _ _ _ _ _ e hu,
        retryLoop_cons_fail _ _ _ _ _ _ _ _ _ e hu, ih _ has]
      simp

/-- Acknowledgement and cleanup make one `AckJob` call and no pipeline call,
deletion or sleep. -/
theorem ackAndCleanup_trace (r : Responses) (files : List String) (jobID tmp : String) :
    pipelineCalls (ackAndCleanup r files jobID tmp).trace = [] ∧
    sleeps (ackAndCleanup r files jobID tmp).trace = [] ∧
    deleteCalls (ackAndCleanup r files jobID tmp).trace = [] ∧
    ackCalls (ackAndCleanup r files jobID tmp).trace = [(jobID, r.ackJob jobID)] := by
  unfold ackAndCleanup
  cases h : r.ackJob jobID <;> cases h2 : (osRemove r files tmp).1 <;>
    simp [h, h2, pipelineCalls, sleeps, deleteCalls, ackCalls, Event.uploadResult,
      Event.sleepSeconds, Event.deletedURL, Event.acked]

/-- A job whose retry loop ends without success: logged, nothing else. -/
theorem runJob_of_failure (r : Responses) (files : List String) (jobID tmp : String)
    (payload : QueueUploadFile) (compress : Bool)
    (h : (retryLoop r jobID tmp (ExtractFolderFromFilePath payload.FilePath) payload compress
      attempts none).success = false) :
    runJob r files jobID tmp payload compress =
      { files := files
        trace := Event.log Level.info "job %s: start processing filePath=%s tmp=%s compress=%v"
            [jobID, payload.FilePath, tmp, fmtBool compress] ::
          ((retryLoop r jobID tmp (ExtractFolderFromFilePath payload.FilePath) payload compress
            attempts none).trace ++
          [Event.log Level.error "job %s: failed to upload file after 5 attempts: %v"
            [jobID, fmtErr (retryLoop r jobID tmp (ExtractFolderFromFilePath payload.FilePath)
              payload compress attempts none).lastErr]])
        panicked := false } := by
  simp [runJob, h]

/-- A job whose retry loop ends with success goes on to acknowledgement and cleanup. -/
theorem runJob_of_success (r : Responses) (files : List String) (jobID tmp : String)
    (payload : QueueUploadFile) (compress : Bool)
    (h : (retryLoop r jobID tmp (ExtractFolderFromFilePath payload.FilePath) payload compress
      attempts none).success = true) :
    runJob r files jobID tmp payload compress =
      { ackAndCleanup r files jobID tmp with
        trace := Event.log Level.info "job %s: start processing filePath=%s tmp=%s compress=%v"
            [jobID, payload.FilePath, tmp, fmtBool compress] ::
          ((retryLoop r jobID tmp (ExtractFolderFromFilePath payload.FilePath) payload compress
            attempts none).trace ++ (ackAndCleanup r files jobID tmp).trace) } := by
  simp [runJob, h]

/-- The five attempts, split at attempt `N + 1`. -/
theorem attempts_split (N : Nat) (hN : N < 5) :
    attempts = List.range' 1 N ++ (N + 1) :: List.range' (N + 2) (4 - N) := by
  interval_cases N <;> rfl

/-- After `N` failures followed by a success the loop leaves with success, after the
`N` failing rounds and the successful call. -/
theorem retryLoop_fail_then_ok (r : Responses) (jobID tmp folder : String)
    (payload : QueueUploadFile) (compress : Bool) (N : Nat) (hN : N < 5)
    (hfail : ∀ k, 1 ≤ k → k ≤ N → r.upload k tmp (pipelineOptions folder payload compress) ≠ none)
    (hok : r.upload (N + 1) tmp (pipelineOptions folder payload compress) = none) :
    (retryLoop r jobID tmp folder payload compress attempts none).success = true ∧
    (retryLoop r jobID tmp folder payload compress attempts none).trace =
      (retryLoop r jobID tmp folder payload compress (List.range' 1 N) none).trace ++
        [Event.uploadFileFromPath tmp (pipelineOptions folder payload compress) none] := by
  have hf : ∀ k ∈ List.range' 1 N,
      r.upload k tmp (pipelineOptions folder payload compress) ≠ none := by
    intro k hk
    rw [List.mem_range'_1] at hk
    exact hfail k hk.1 (by omega)
  rw [attempts_split N hN, retryLoop_append _ _ _ _ _ _ _ _ _ hf,
    retryLoop_cons_ok _ _ _ _ _ _ _ _ _ hok]
  simp

/-- The fixed-rate sleeps before attempt `N + 1` add up to `1 + 2 + ... + N`. -/
theorem backoff_sum (N : Nat) (hN : N < 5) :
    (List.range' 1 N).filter (fun k => k < 5) = List.range' 1 N ∧
    (List.range' 1 N).sum = N * (N + 1) / 2 := by
  interval_cases N <;> decide

/-! ## The claims on the worker loop -/

/-- C1: in the retry loop, for every `N` with `0 <= N < 5`, if the pipeline fails on
its first `N` calls for a job and succeeds on call `N + 1`, the worker makes exactly
`N + 1` pipeline calls for that job (the `N` failures, then the success) and sleeps
`1, 2, ..., N` seconds, `N * (N + 1) / 2` in total, all of it before the successful
call; this holds whether or not `OldFile` is set and whatever `DeleteFile` returns. -/
theorem retry_calls_and_backoff (unmarshal : String → Except String QueueUploadFile)
    (r : Responses) (files : List String) (msg : Job) (payload : QueueUploadFile) (tmp : String)
    (compress : Bool) (N : Nat)
    (hvalid : ValidMessage unmarshal files msg payload tmp compress) (hN : N < 5)
    (hfail : ∀ k, 1 ≤ k → k ≤ N → r.upload k tmp (jobOptions payload compress) ≠ none)
    (hok : r.upload (N + 1) tmp (jobOptions payload compress) = none) :
    ∃ pre post,
      (processMessage unmarshal r files msg).trace =
        pre ++ Event.uploadFileFromPath tmp (jobOptions payload compress) none :: post ∧
      pipelineCalls pre =
        (List.range' 1 N).map (fun k => r.upload k tmp (jobOptions payload compress)) ∧
      (pipelineCalls pre).length = N ∧
      sleeps pre = List.range' 1 N ∧
      (sleeps pre).sum = N * (N + 1) / 2 ∧
      pipelineCalls post = [] ∧ sleeps post = [] ∧
      (pipelineCalls (processMessage unmarshal r files msg).trace).length = N + 1 ∧
      (sleeps (processMessage unmarshal r files msg).trace).sum = N * (N + 1) / 2 := by
  simp only [jobOptions] at hfail hok ⊢
  have hf : ∀ k ∈ List.range' 1 N, r.upload k tmp
      (pipelineOptions (ExtractFolderFromFilePath payload.FilePath) payload compress) ≠ none := by
    intro k hk
    rw [List.mem_range'_1] at hk
    exact hfail k hk.1 (by omega)
  obtain ⟨hs, ht⟩ := retryLoop_fail_then_ok r msg.ID tmp
    (ExtractFolderFromFilePath payload.FilePath) payload compress N hN hfail hok
  obtain ⟨-, hp, hsl, -⟩ := retryLoop_all_fail r msg.ID tmp
    (ExtractFolderFromFilePath payload.FilePath) payload compress (List.range' 1 N) none hf
  obtain ⟨ha1, ha2, -, -⟩ := ackAndCleanup_trace r files msg.ID tmp
  obtain ⟨hb1, hb2⟩ := backoff_sum N hN
  rw [hb1] at hsl
  have hpre : pipelineCalls (Event.log Level.info
      "job %s: start processing filePath=%s tmp=%s compress=%v"
      [msg.ID, payload.FilePath, tmp, fmtBool compress] ::
      (retryLoop r msg.ID tmp (ExtractFolderFromFilePath payload.FilePath) payload compress
        (List.range' 1 N) none).trace) =
      (List.range' 1 N).map (fun k => r.upload k tmp
        (pipelineOptions (ExtractFolderFromFilePath payload.FilePath) payload compress)) := by
    simpa [pipelineCalls, Event.uploadResult] using hp
  have hsleep : sleeps (Event.log Level.info
      "job %s: start processing filePath=%s tmp=%s compress=%v"
      [msg.ID, payload.FilePath, tmp, fmtBool compress] ::
      (retryLoop r msg.ID tmp (ExtractFolderFromFilePath payload.FilePath) payload compress
        (List.range' 1 N) none).trace) = List.range' 1 N := by
    simpa [sleeps, Event.sleepSeconds] using hsl
  have htrace : (processMessage unmarshal r files msg).trace =
      (Event.log Level.info "job %s: start processing filePath=%s tmp=%s compress=%v"
        [msg.ID, payload.FilePath, tmp, fmtBool compress] ::
        (retryLoop r msg.ID tmp (ExtractFolderFromFilePath payload.FilePath) payload compress
          (List.range' 1 N) none).trace) ++
      Event.uploadFileFromPath tmp
        (pipelineOptions (ExtractFolderFromFilePath payload.FilePath) payload compress) none ::
        (ackAndCleanup r files msg.ID tmp).trace := by
    rw [processMessage_valid unmarshal r files msg payload tmp compress hvalid,
      runJob_of_success r files msg.ID tmp payload compress hs, ht]
    simp
  refine ⟨_, _, htrace, hpre, ?_, hsleep, ?_, ha1, ha2, ?_, ?_⟩
  · rw [hpre]; simp
  · rw [hsleep]; exact hb2
  · have hcons : pipelineCalls (Event.uploadFileFromPath tmp
        (pipelineOptions (ExtractFolderFromFilePath payload.FilePath) payload compress) none ::
        (ackAndCleanup r files msg.ID tmp).trace) = [none] := by
      simpa [pipelineCalls, Event.uploadResult] using ha1
    rw [htrace, pipelineCalls_append, hpre, hcons]
    simp
  · have hcons : sleeps (Event.uploadFileFromPath tmp
        (pipelineOptions (ExtractFolderFromFilePath payload.FilePath) payload compress) none ::
        (ackAndCleanup r files msg.ID tmp).trace) = [] := by
      simpa [sleeps, Event.sleepSeconds] using ha2
    rw [htrace, sleeps_append, hsleep, hcons]
    simpa using hb2

/-- The sample message is valid. -/
theorem sample_valid : ValidMessage sampleUnmarshal sampleFiles sampleJob sampleIntent
    "tmp/job1_1700000000000000000.png" true :=
  ⟨_, sampleJSON, rfl, by decide, by simp [sampleUnmarshal], rfl, rfl, by decide⟩

/-- Witness of C1: two failures, then success, on the sample job. -/
theorem retry_calls_and_backoff_witness :
    (pipelineCalls (processMessage sampleUnmarshal (failingFirst 2 none none) sampleFiles
      sampleJob).trace).length = 3 ∧
    (sleeps (processMessage sampleUnmarshal (failingFirst 2 none none) sampleFiles
      sampleJob).trace).sum = 3 := by
  obtain ⟨pre, post, h⟩ := retry_calls_and_backoff sampleUnmarshal (failingFirst 2 none none)
    sampleFiles sampleJob sampleIntent "tmp/job1_1700000000000000000.png" true 2 sample_valid
    (by decide) (fun k _ hk => by simp [failingFirst, hk]) (by simp [failingFirst])
  exact ⟨h.2.2.2.2.2.2.2.1, h.2.2.2.2.2.2.2.2⟩

/-- When a message does not make the goroutine panic, the batch goes on with the
next message, on the disk the message left. -/
theorem processBatch_cons (unmarshal : String → Except String QueueUploadFile) (r : Responses)
    (files : List String) (msg : Job) (rest : List (Job × Responses))
    (h : (processMessage unmarshal r files msg).panicked = false) :
    processBatch unmarshal files ((msg, r) :: rest) =
      { processBatch unmarshal (processMessage unmarshal r files msg).files rest with
        trace := (processMessage unmarshal r files msg).trace ++
          (processBatch unmarshal (processMessage unmarshal r files msg).files rest).trace } := by
  simp [processBatch, h]

/-- C2: for every valid message, if the pipeline fails on every call, the worker
makes exactly 5 pipeline calls for it, never calls `AckJob`, never removes the staged
file (no `os.Remove` call, the disk is unchanged), and goes on with the next message
of the batch. -/
theorem exhaustion_no_ack_no_remove (unmarshal : String → Except String QueueUploadFile)
    (r : Responses) (files : List String) (msg : Job) (payload : QueueUploadFile) (tmp : String)
    (compress : Bool) (rest : List (Job × Responses))
    (hvalid : ValidMessage unmarshal files msg payload tmp compress)
    (hfail : ∀ k, r.upload k tmp (jobOptions payload compress) ≠ none) :
    (pipelineCalls (processMessage unmarshal r files msg).trace).length = 5 ∧
    ackCalls (processMessage unmarshal r files msg).trace = [] ∧
    removeCalls (processMessage unmarshal r files msg).trace = [] ∧
    (processMessage unmarshal r files msg).files = files ∧
    processBatch unmarshal files ((msg, r) :: rest) =
      { processBatch unmarshal files rest with
        trace := (processMessage unmarshal r files msg).trace ++
          (processBatch unmarshal files rest).trace } := by
  simp only [jobOptions] at hfail
  obtain ⟨hs, hp, -, -⟩ := retryLoop_all_fail r msg.ID tmp
    (ExtractFolderFromFilePath payload.FilePath) payload compress attempts none
    (fun k _ => hfail k)
  obtain ⟨ha, hr⟩ := retryLoop_no_ack_remove r msg.ID tmp
    (ExtractFolderFromFilePath payload.FilePath) payload compress attempts none
  have hrun := runJob_of_failure r files msg.ID tmp payload compress hs
  have hpm := processMessage_valid unmarshal r files msg payload tmp compress hvalid
  have hfiles : (processMessage unmarshal r files msg).files = files := by rw [hpm, hrun]
  have hpanic : (processMessage unmarshal r files msg).panicked = false := by rw [hpm, hrun]
  refine ⟨?_, ?_, ?_, hfiles, ?_⟩
  · rw [hpm, hrun]
    simp only [pipelineCalls] at hp ⊢
    simp only [List.filterMap_cons, List.filterMap_append, Event.uploadResult, hp]
    simp [attempts]
  · rw [hpm, hrun]
    simp only [ackCalls] at ha ⊢
    simp [List.filterMap_append, Event.acked, ha]
  · rw [hpm, hrun]
    simp only [removeCalls] at hr ⊢
    simp [List.filterMap_append, Event.removed, hr]
  · rw [processBatch_cons unmarshal r files msg rest hpanic, hfiles]

/-- Witness of C2: the sample job with a pipeline that never succeeds. -/
theorem exhaustion_no_ack_no_remove_witness :
    (pipelineCalls (processMessage sampleUnmarshal (alwaysFailing none) sampleFiles
      sampleJob).trace).length = 5 ∧
    ackCalls (processMessage sampleUnmarshal (alwaysFailing none) sampleFiles
      sampleJob).trace = [] ∧
    removeCalls (processMessage sampleUnmarshal (alwaysFailing none) sampleFiles
      sampleJob).trace = [] ∧
    (processMessage sampleUnmarshal (alwaysFailing none) sampleFiles sampleJob).files
      = sampleFiles :=
  have h := exhaustion_no_ack_no_remove sampleUnmarshal (alwaysFailing none)
    sampleFiles sampleJob sampleIntent "tmp/job1_1700000000000000000.png" true [] sample_valid
    (fun k => by simp [alwaysFailing])
  ⟨h.1, h.2.1, h.2.2.1, h.2.2.2.1⟩

/-- A successful attempt among those to run makes the loop leave with success. -/
theorem retryLoop_success (r : Responses) (jobID tmp folder : String)
    (payload : QueueUploadFile) (compress : Bool) (as : List Nat) (lastErr : GoError)
    (hok : ∃ k ∈ as, r.upload k tmp (pipelineOptions folder payload compress) = none) :
    (retryLoop r jobID tmp folder payload compress as lastErr).success = true := by
  induction as generalizing lastErr with
  | nil => simp at hok
  | cons k rest ih =>
    cases hu : r.upload k tmp (pipelineOptions folder payload compress) with
    | none => rw [retryLoop_cons_ok _ _ _ _ _ _ _ _ _ hu]
    | some e =>
      rw [retryLoop_cons_fail _ _ _ _ _ _ _ _ _ e hu]
      obtain ⟨j, hj, hjok⟩ := hok
      rcases List.mem_cons.mp hj with rfl | hj
      · rw [hu] at hjok; cases hjok
      · exact ih _ ⟨j, hj, hjok⟩

/-- The disk after acknowledgement and cleanup: a staged file that was there is gone
exactly when both `AckJob` and `os.Remove` succeeded. -/
theorem ackAndCleanup_files (r : Responses) (files : List String) (jobID tmp : String)
    (hfile : statOk files tmp = true) :
    tmp ∉ (ackAndCleanup r files jobID tmp).files ↔ r.ackJob jobID = none ∧ r.remove tmp = none := by
  have hmem : tmp ∈ files := by simpa [statOk] using hfile
  have hc : files.contains tmp = true := by simpa [statOk] using hfile
  unfold ackAndCleanup
  cases ha : r.ackJob jobID with
  | some e => simp [hmem]
  | none =>
    unfold osRemove
    cases hr : r.remove tmp with
    | some e => simp [hc, hmem]
    | none => simp [hmem, List.mem_filter]

/-- C3, as the code has it: for every message whose payload decodes to a valid
upload intent with an existing staged file, if the upload pipeline succeeds on some
attempt among the first 5, processing of that message results in exactly one
`AckJob` call, for that message, and the staged file no longer exists afterwards
exactly when that `AckJob` call and the `os.Remove` that follows it both succeed. -/
theorem success_acks_once_and_removes_if_acked
    (unmarshal : String → Except String QueueUploadFile)
    (r : Responses) (files : List String) (msg : Job) (payload : QueueUploadFile) (tmp : String)
    (compress : Bool)
    (hvalid : ValidMessage unmarshal files msg payload tmp compress)
    (hok : ∃ k, 1 ≤ k ∧ k ≤ 5 ∧ r.upload k tmp (jobOptions payload compress) = none) :
    ackCalls (processMessage unmarshal r files msg).trace = [(msg.ID, r.ackJob msg.ID)] ∧
    (tmp ∉ (processMessage unmarshal r files msg).files ↔
      r.ackJob msg.ID = none ∧ r.remove tmp = none) := by
  simp only [jobOptions] at hok
  obtain ⟨k, h1, h5, hk⟩ := hok
  have hmem : k ∈ attempts := by
    unfold attempts
    interval_cases k <;> simp
  have hs := retryLoop_success r msg.ID tmp (ExtractFolderFromFilePath payload.FilePath) payload
    compress attempts none ⟨k, hmem, hk⟩
  obtain ⟨ha, -⟩ := retryLoop_no_ack_remove r msg.ID tmp
    (ExtractFolderFromFilePath payload.FilePath) payload compress attempts none
  obtain ⟨-, -, -, hack⟩ := ackAndCleanup_trace r files msg.ID tmp
  have hfile : statOk files tmp = true := by
    obtain ⟨_, _, _, _, _, _, _, h⟩ := hvalid
    exact h
  rw [processMessage_valid unmarshal r files msg payload tmp compress hvalid,
    runJob_of_success r files msg.ID tmp payload compress hs]
  refine ⟨?_, ackAndCleanup_files r files msg.ID tmp hfile⟩
  simp only [ackCalls] at ha hack ⊢
  simp [List.filterMap_append, Event.acked, ha, hack]

/-- Witness of C3 as amended: the sample job, success on the third attempt. -/
theorem success_acks_once_and_removes_if_acked_witness :
    ackCalls (processMessage sampleUnmarshal (failingFirst 2 none none) sampleFiles
      sampleJob).trace = [("1700000000000-0", none)] ∧
    ("tmp/job1_1700000000000000000.png" ∉
      (processMessage sampleUnmarshal (failingFirst 2 none none) sampleFiles sampleJob).files ↔
      (failingFirst 2 none none).ackJob sampleJob.ID = none ∧
      (failingFirst 2 none none).remove "tmp/job1_1700000000000000000.png" = none) :=
  success_acks_once_and_removes_if_acked sampleUnmarshal (failingFirst 2 none none) sampleFiles
    sampleJob sampleIntent "tmp/job1_1700000000000000000.png" true sample_valid
    ⟨3, by decide, by decide, by simp [failingFirst]⟩

/-- C3 as stated fails: the sample job is valid, its pipeline succeeds on the first
attempt, but `AckJob` returns an error, and the staged file is still on disk after
the message has been processed. -/
theorem staged_file_left_when_ack_fails :
    ValidMessage sampleUnmarshal sampleFiles sampleJob sampleIntent
      "tmp/job1_1700000000000000000.png" true ∧
    (failingFirst 0 (some "failed to ack job") none).upload 1
      "tmp/job1_1700000000000000000.png" (jobOptions sampleIntent true) = none ∧
    (ackCalls (processMessage sampleUnmarshal (failingFirst 0 (some "failed to ack job") none)
      sampleFiles sampleJob).trace).length = 1 ∧
    "tmp/job1_1700000000000000000.png" ∈
      (processMessage sampleUnmarshal (failingFirst 0 (some "failed to ack job") none)
        sampleFiles sampleJob).files := by
  refine ⟨sample_valid, ?_, ?_, ?_⟩ <;> decide

/-- A message is skipped with one log line, makes the goroutine panic, or is valid
and handed to `runJob`. -/
theorem processMessage_cases (unmarshal : String → Except String QueueUploadFile) (r : Responses)
    (files : List String) (msg : Job) :
    (∃ format args, processMessage unmarshal r files msg = skip files format args) ∨
    processMessage unmarshal r files msg = { files := files, trace := [], panicked := true } ∨
    ∃ payload tmp compress, ValidMessage unmarshal files msg payload tmp compress ∧
      processMessage unmarshal r files msg = runJob r files msg.ID tmp payload compress := by
  cases hp : msg.Payload with
  | uploadFile q => right; left; simp [processMessage, hp]
  | other v => right; left; simp [processMessage, hp]
  | fields m =>
    cases hl : m.lookup "payload" with
    | none => left; exact ⟨_, _, by simp [processMessage, hp, hl]; rfl⟩
    | some v =>
      cases v with
      | null => left; exact ⟨_, _, by simp [processMessage, hp, hl]; rfl⟩
      | num n => left; exact ⟨_, _, by simp [processMessage, hp, hl]; rfl⟩
      | bool b => left; exact ⟨_, _, by simp [processMessage, hp, hl]; rfl⟩
      | str jsonStr =>
        cases hu : unmarshal jsonStr with
        | error e => left; exact ⟨_, _, by simp [processMessage, hp, hl, hu]; rfl⟩
        | ok payload =>
          cases ht : payload.FilePathTmp with
          | none => left; exact ⟨_, _, by simp [processMessage, hp, hl, hu, ht]; rfl⟩
          | some tmp =>
            cases hc : payload.IsCompressToWebp with
            | none => left; exact ⟨_, _, by simp [processMessage, hp, hl, hu, ht, hc]; rfl⟩
            | some compress =>
              cases hs : statOk files tmp with
              | false => left; exact ⟨_, _, by simp [processMessage, hp, hl, hu, ht, hc, hs]; rfl⟩
              | true =>
                right; right
                exact ⟨payload, tmp, compress, ⟨m, jsonStr, hp, hl, hu, ht, hc, hs⟩,
                  by simp [processMessage, hp, hl, hu, ht, hc, hs]⟩

/-- An invalid message is skipped with one log line. -/
theorem processMessage_invalid (unmarshal : String → Except String QueueUploadFile)
    (r : Responses) (files : List String) (msg : Job) (m : List (String × FieldValue))
    (hmap : msg.Payload = JobPayload.fields m) (hinv : InvalidMessage unmarshal files m) :
    ∃ format args, processMessage unmarshal r files msg = skip files format args := by
  rcases hinv with hl | ⟨v, hl, hv⟩ | ⟨s, e, hl, hu⟩ | ⟨s, p, hl, hu, hbad⟩
  · exact ⟨_, _, by simp [processMessage, hmap, hl]; rfl⟩
  · cases v with
    | str s => exact absurd rfl (hv s)
    | null => exact ⟨_, _, by simp [processMessage, hmap, hl]; rfl⟩
    | num n => exact ⟨_, _, by simp [processMessage, hmap, hl]; rfl⟩
    | bool b => exact ⟨_, _, by simp [processMessage, hmap, hl]; rfl⟩
  · exact ⟨_, _, by simp [processMessage, hmap, hl, hu]; rfl⟩
  · cases ht : p.FilePathTmp with
    | none => exact ⟨_, _, by simp [processMessage, hmap, hl, hu, ht]; rfl⟩
    | some tmp =>
      cases hc : p.IsCompressToWebp with
      | none => exact ⟨_, _, by simp [processMessage, hmap, hl, hu, ht, hc]; rfl⟩
      | some compress =>
        rcases hbad with h | h | ⟨tmp2, h2, hs⟩
        · rw [ht] at h; cases h
        · rw [hc] at h; cases h
        · rw [ht] at h2
          cases h2
          exact ⟨_, _, by simp [processMessage, hmap, hl, hu, ht, hc, hs]; rfl⟩

/-- C4: for every consumed message whose `payload` field is missing, is not a
string, is not valid JSON for `QueueUploadFile`, lacks `FilePathTmp`, lacks
`IsCompressToWebp`, or names a staged file that does not exist, the worker makes zero
`UploadFileFromPath` calls, zero `DeleteFile` calls, zero `AckJob` calls and removes
no file (it only writes one error log line); it continues with the next message. -/
theorem invalid_message_skipped (unmarshal : String → Except String QueueUploadFile)
    (r : Responses) (files : List String) (msg : Job) (m : List (String × FieldValue))
    (rest : List (Job × Responses))
    (hmap : msg.Payload = JobPayload.fields m) (hinv : InvalidMessage unmarshal files m) :
    pipelineCalls (processMessage unmarshal r files msg).trace = [] ∧
    deleteCalls (processMessage unmarshal r files msg).trace = [] ∧
    ackCalls (processMessage unmarshal r files msg).trace = [] ∧
    removeCalls (processMessage unmarshal r files msg).trace = [] ∧
    (processMessage unmarshal r files msg).files = files ∧
    (∃ format args,
      (processMessage unmarshal r files msg).trace = [Event.log Level.error format args]) ∧
    processBatch unmarshal files ((msg, r) :: rest) =
      { processBatch unmarshal files rest with
        trace := (processMessage unmarshal r files msg).trace ++
          (processBatch unmarshal files rest).trace } := by
  obtain ⟨format, args, h⟩ := processMessage_invalid unmarshal r files msg m hmap hinv
  have hpanic : (processMessage unmarshal r files msg).panicked = false := by rw [h]; rfl
  have hfiles : (processMessage unmarshal r files msg).files = files := by rw [h]; rfl
  refine ⟨?_, ?_, ?_, ?_, hfiles, ⟨format, args, by rw [h]; rfl⟩, ?_⟩
  · rw [h]; rfl
  · rw [h]; rfl
  · rw [h]; rfl
  · rw [h]; rfl
  · rw [processBatch_cons unmarshal r files msg rest hpanic, hfiles]

/-- Witness of C4: the sample message when its staged file is not on disk. -/
theorem invalid_message_skipped_witness :
    pipelineCalls (processMessage sampleUnmarshal (failingFirst 0 none none) [] sampleJob).trace
      = [] ∧
    ackCalls (processMessage sampleUnmarshal (failingFirst 0 none none) [] sampleJob).trace
      = [] ∧
    removeCalls (processMessage sampleUnmarshal (failingFirst 0 none none) [] sampleJob).trace
      = [] :=
  have h := invalid_message_skipped sampleUnmarshal (failingFirst 0 none none) [] sampleJob
    [("id", FieldValue.str "job1"), ("payload", FieldValue.str sampleJSON)] [] rfl
    (Or.inr (Or.inr (Or.inr ⟨sampleJSON, sampleIntent, by decide, by simp [sampleUnmarshal],
      Or.inr (Or.inr ⟨"tmp/job1_1700000000000000000.png", rfl, by decide⟩)⟩)))
  ⟨h.1, h.2.2.1, h.2.2.2.1⟩

/-- A trace without `os.Remove` calls cannot be split at one. -/
theorem no_remove_of_removeCalls_nil (t pre post : List Event) (path : String) (res : GoError)
    (hnil : removeCalls t = []) : t ≠ pre ++ Event.remove path res :: post := by
  intro h
  rw [h] at hnil
  simp [removeCalls, Event.removed] at hnil

/-- A trace with a single `os.Remove` call splits at it in one way only. -/
theorem split_at_remove (A B pre post : List Event) (p path : String) (rm res : GoError)
    (hA : removeCalls A = []) (hB : removeCalls B = [])
    (h : A ++ Event.remove p rm :: B = pre ++ Event.remove path res :: post) :
    pre = A ∧ p = path ∧ rm = res ∧ post = B := by
  induction A generalizing pre with
  | nil =>
    cases pre with
    | nil =>
      simp only [List.nil_append, List.cons.injEq, Event.remove.injEq] at h
      exact ⟨rfl, h.1.1, h.1.2, h.2.symm⟩
    | cons x pre =>
      simp only [List.nil_append, List.cons_append, List.cons.injEq] at h
      exact absurd h.2 (no_remove_of_removeCalls_nil B pre post path res hB)
  | cons a A ih =>
    cases pre with
    | nil =>
      simp only [List.nil_append, List.cons_append, List.cons.injEq] at h
      rw [h.1] at hA
      simp [removeCalls, Event.removed] at hA
    | cons x pre =>
      simp only [List.cons_append, List.cons.injEq] at h
      have hA2 : removeCalls A = [] := by
        cases a <;> simp_all [removeCalls, Event.removed]
      obtain ⟨h1, h2, h3, h4⟩ := ih pre hA2 h.2
      exact ⟨by rw [h.1, h1], h2, h3, h4⟩

/-- The trace of acknowledgement and cleanup when `AckJob` succeeds. -/
theorem ackAndCleanup_of_ack (r : Responses) (files : List String) (jobID tmp : String)
    (h : r.ackJob jobID = none) :
    ∃ last, removeCalls [last] = [] ∧ (ackAndCleanup r files jobID tmp).trace =
      [Event.ackJob "upload_jobs" "worker" jobID none, Event.log Level.info "Job done:" [jobID],
        Event.remove tmp (osRemove r files tmp).1, last] := by
  unfold ackAndCleanup
  cases h2 : (osRemove r files tmp).1 with
  | none =>
    exact ⟨Event.log Level.info "job %s: tmp file %s removed" [jobID, tmp],
      by simp [removeCalls, Event.removed], by simp only [h, h2]⟩
  | some e =>
    exact ⟨Event.log Level.warn "job %s: failed to remove tmp file %s: %v" [jobID, tmp, e],
      by simp [removeCalls, Event.removed], by simp only [h, h2]⟩

/-- The outcome of acknowledgement and cleanup when `AckJob` fails: the error is
logged, nothing is removed. -/
theorem ackAndCleanup_of_ack_error (r : Responses) (files : List String) (jobID tmp e : String)
    (h : r.ackJob jobID = some e) :
    ackAndCleanup r files jobID tmp =
      { files := files
        trace := [Event.ackJob "upload_jobs" "worker" jobID (some e),
          Event.log Level.error "job %s: ack error: %v" [jobID, e]]
        panicked := false } := by
  simp [ackAndCleanup, h]

/-- Within one message, an `os.Remove` call comes right after the successful
`AckJob` of that message and its log line, and is for the staged file of a message
that decoded, passed the field checks and was uploaded. -/
theorem processMessage_remove (unmarshal : String → Except String QueueUploadFile)
    (r : Responses) (files : List String) (msg : Job) (pre post : List Event) (path : String)
    (res : GoError)
    (h : (processMessage unmarshal r files msg).trace = pre ++ Event.remove path res :: post) :
    ∃ pre' payload compress,
      pre = pre' ++ [Event.ackJob "upload_jobs" "worker" msg.ID none,
        Event.log Level.info "Job done:" [msg.ID]] ∧
      r.ackJob msg.ID = none ∧
      DecodesTo unmarshal msg payload ∧
      payload.FilePathTmp = some path ∧
      payload.IsCompressToWebp = some compress ∧
      (retryLoop r msg.ID path (ExtractFolderFromFilePath payload.FilePath) payload compress
        attempts none).success = true := by
  rcases processMessage_cases unmarshal r files msg with
    ⟨format, args, hskip⟩ | hpanic | ⟨payload, tmp, compress, hvalid, hrun⟩
  · rw [hskip] at h
    exact absurd h (no_remove_of_removeCalls_nil _ _ _ _ _ (by simp [skip, removeCalls, Event.removed]))
  · rw [hpanic] at h
    exact absurd h (no_remove_of_removeCalls_nil _ _ _ _ _ (by simp [removeCalls]))
  · obtain ⟨-, hr⟩ := retryLoop_no_ack_remove r msg.ID tmp
      (ExtractFolderFromFilePath payload.FilePath) payload compress attempts none
    simp only [removeCalls] at hr
    cases hs : (retryLoop r msg.ID tmp (ExtractFolderFromFilePath payload.FilePath) payload
        compress attempts none).success with
    | false =>
      rw [hrun, runJob_of_failure r files msg.ID tmp payload compress hs] at h
      exact absurd h (no_remove_of_removeCalls_nil _ _ _ _ _
        (by simp [removeCalls, Event.removed, List.filterMap_append, hr]))
    | true =>
      rw [hrun, runJob_of_success r files msg.ID tmp payload compress hs] at h
      cases ha : r.ackJob msg.ID with
      | some e =>
        rw [ackAndCleanup_of_ack_error r files msg.ID tmp e ha] at h
        exact absurd h (no_remove_of_removeCalls_nil _ _ _ _ _
          (by simp [removeCalls, Event.removed, List.filterMap_append, hr]))
      | none =>
        obtain ⟨last, hlast, htr⟩ := ackAndCleanup_of_ack r files msg.ID tmp ha
        rw [htr] at h
        have h2 : (Event.log Level.info "job %s: start processing filePath=%s tmp=%s compress=%v"
              [msg.ID, payload.FilePath, tmp, fmtBool compress] ::
            (retryLoop r msg.ID tmp (ExtractFolderFromFilePath payload.FilePath) payload compress
              attempts none).trace ++
            [Event.ackJob "upload_jobs" "worker" msg.ID none,
              Event.log Level.info "Job done:" [msg.ID]]) ++
            Event.remove tmp (osRemove r files tmp).1 :: [last] =
            pre ++ Event.remove path res :: post := by
          rw [← h]; simp
        obtain ⟨hpre, hpath, -, -⟩ := split_at_remove _ _ _ _ _ _ _ _
          (by simp [removeCalls, Event.removed, List.filterMap_append, hr]) hlast h2
        obtain ⟨m, jsonStr, v1, v2, v3, v4, v5, -⟩ := hvalid
        subst hpath
        exact ⟨_, payload, compress, hpre, rfl, ⟨m, jsonStr, v1, v2, v3⟩, v4, v5, hs⟩

/-- Within one message, a file that was on disk and is gone afterwards was removed
by a successful `os.Remove` call of the worker. -/
theorem processMessage_files (unmarshal : String → Except String QueueUploadFile)
    (r : Responses) (files : List String) (msg : Job) (f : String) (hf : f ∈ files)
    (hgone : f ∉ (processMessage unmarshal r files msg).files) :
    ∃ pre post, (processMessage unmarshal r files msg).trace =
      pre ++ Event.remove f none :: post := by
  rcases processMessage_cases unmarshal r files msg with
    ⟨format, args, hskip⟩ | hpanic | ⟨payload, tmp, compress, hvalid, hrun⟩
  · rw [hskip] at hgone; exact absurd hf hgone
  · rw [hpanic] at hgone; exact absurd hf hgone
  · cases hs : (retryLoop r msg.ID tmp (ExtractFolderFromFilePath payload.FilePath) payload
        compress attempts none).success with
    | false =>
      rw [hrun, runJob_of_failure r files msg.ID tmp payload compress hs] at hgone
      exact absurd hf hgone
    | true =>
      rw [hrun, runJob_of_success r files msg.ID tmp payload compress hs] at hgone ⊢
      cases ha : r.ackJob msg.ID with
      | some e =>
        rw [ackAndCleanup_of_ack_error r files msg.ID tmp e ha] at hgone
        exact absurd hf hgone
      | none =>
        have hrm : (osRemove r files tmp).1 = none ∧ f = tmp := by
          have hg : f ∉ (osRemove r files tmp).2 := by
            simpa [ackAndCleanup, ha] using hgone
          unfold osRemove at hg ⊢
          by_cases hc : files.contains tmp = true
          · rw [if_pos hc] at hg ⊢
            cases hr : r.remove tmp with
            | some e =>
              simp only [hr] at hg
              exact absurd hf hg
            | none =>
              simp only [hr] at hg ⊢
              refine ⟨trivial, ?_⟩
              by_contra hne
              exact hg (List.mem_filter.mpr ⟨hf, by simpa using hne⟩)
          · rw [if_neg hc] at hg
            exact absurd hf hg
        obtain ⟨last, -, htr⟩ := ackAndCleanup_of_ack r files msg.ID tmp ha
        rw [hrm.1] at htr
        rw [hrm.2]
        refine ⟨Event.log Level.info "job %s: start processing filePath=%s tmp=%s compress=%v"
            [msg.ID, payload.FilePath, tmp, fmtBool compress] ::
          ((retryLoop r msg.ID tmp (ExtractFolderFromFilePath payload.FilePath) payload compress
            attempts none).trace ++ [Event.ackJob "upload_jobs" "worker" msg.ID none,
              Event.log Level.info "Job done:" [msg.ID]]), [last], ?_⟩
        show _ :: (_ ++ (ackAndCleanup r files msg.ID tmp).trace) = _
        rw [htr]
        simp

/-- Over a batch, a file that was on disk and is gone afterwards was removed by a
successful `os.Remove` call of the worker. -/
theorem processBatch_files (unmarshal : String → Except String QueueUploadFile)
    (files : List String) (batch : List (Job × Responses)) (f : String) (hf : f ∈ files)
    (hgone : f ∉ (processBatch unmarshal files batch).files) :
    ∃ pre post, (processBatch unmarshal files batch).trace =
      pre ++ Event.remove f none :: post := by
  induction batch generalizing files with
  | nil => exact absurd hf (by simpa [processBatch] using hgone)
  | cons head rest ih =>
    obtain ⟨msg, r⟩ := head
    cases hp : (processMessage unmarshal r files msg).panicked with
    | true =>
      have hb : processBatch unmarshal files ((msg, r) :: rest) =
          processMessage unmarshal r files msg := by simp [processBatch, hp]
      rw [hb] at hgone ⊢
      exact processMessage_files unmarshal r files msg f hf hgone
    | false =>
      rw [processBatch_cons unmarshal r files msg rest hp] at hgone ⊢
      by_cases hmid : f ∈ (processMessage unmarshal r files msg).files
      · obtain ⟨pre, post, h⟩ := ih _ hmid hgone
        exact ⟨(processMessage unmarshal r files msg).trace ++ pre, post, by
          show _ ++ _ = _
          rw [h, List.append_assoc]⟩
      · obtain ⟨pre, post, h⟩ := processMessage_files unmarshal r files msg f hf hmid
        exact ⟨pre, post ++ (processBatch unmarshal
          (processMessage unmarshal r files msg).files rest).trace, by
          show _ ++ _ = _
          rw [h]; simp⟩

/-- Within one batch, each `os.Remove` call comes right after a successful `AckJob`
(and its log line) for a message of the batch and removes the staged file of that
message, which decoded, passed the field checks and was uploaded. -/
theorem processBatch_remove (unmarshal : String → Except String QueueUploadFile)
    (files : List String) (batch : List (Job × Responses)) (pre post : List Event)
    (path : String) (res : GoError)
    (h : (processBatch unmarshal files batch).trace = pre ++ Event.remove path res :: post) :
    ∃ pre' msg r payload compress,
      (msg, r) ∈ batch ∧
      pre = pre' ++ [Event.ackJob "upload_jobs" "worker" msg.ID none,
        Event.log Level.info "Job done:" [msg.ID]] ∧
      r.ackJob msg.ID = none ∧
      DecodesTo unmarshal msg payload ∧
      payload.FilePathTmp = some path ∧
      payload.IsCompressToWebp = some compress ∧
      (retryLoop r msg.ID path (ExtractFolderFromFilePath payload.FilePath) payload compress
        attempts none).success = true := by
  induction batch generalizing files pre with
  | nil =>
    exact absurd h (no_remove_of_removeCalls_nil _ _ _ _ _ (by simp [processBatch, removeCalls]))
  | cons head rest ih =>
    obtain ⟨msg, r⟩ := head
    have hfirst : ∀ pre0 post0, (processMessage unmarshal r files msg).trace =
        pre0 ++ Event.remove path res :: post0 → ∃ pre' payload compress,
          pre0 = pre' ++ [Event.ackJob "upload_jobs" "worker" msg.ID none,
            Event.log Level.info "Job done:" [msg.ID]] ∧
          r.ackJob msg.ID = none ∧ DecodesTo unmarshal msg payload ∧
          payload.FilePathTmp = some path ∧ payload.IsCompressToWebp = some compress ∧
          (retryLoop r msg.ID path (ExtractFolderFromFilePath payload.FilePath) payload compress
            attempts none).success = true :=
      fun pre0 post0 h0 => processMessage_remove unmarshal r files msg pre0 post0 path res h0
    cases hp : (processMessage unmarshal r files msg).panicked with
    | true =>
      have hb : processBatch unmarshal files ((msg, r) :: rest) =
          processMessage unmarshal r files msg := by simp [processBatch, hp]
      rw [hb] at h
      obtain ⟨pre', payload, compress, h1, h2, h3, h4, h5, h6⟩ := hfirst pre post h
      exact ⟨pre', msg, r, payload, compress, List.mem_cons_self _ _, h1, h2, h3, h4, h5, h6⟩
    | false =>
      rw [processBatch_cons unmarshal r files msg rest hp] at h
      simp only at h
      rcases List.append_eq_append_iff.mp h with ⟨a', ha1, ha2⟩ | ⟨c', hc1, hc2⟩
      · -- the removal lies in the rest of the batch
        obtain ⟨pre', msg2, r2, payload, compress, hm, h1, h2, h3, h4, h5, h6⟩ :=
          ih _ a' ha2
        exact ⟨(processMessage unmarshal r files msg).trace ++ pre', msg2, r2, payload, compress,
          List.mem_cons_of_mem _ hm, by rw [ha1, h1, List.append_assoc], h2, h3, h4, h5, h6⟩
      · -- the removal lies in the first message, or opens the rest of the batch
        cases c' with
        | nil =>
          simp only [List.nil_append, List.append_nil] at hc1 hc2
          obtain ⟨pre', msg2, r2, payload, compress, hm, h1, h2, h3, h4, h5, h6⟩ :=
            ih _ [] (by simpa using hc2.symm)
          exact absurd h1 (by simp)
        | cons x c' =>
          simp only [List.cons_append, List.cons.injEq] at hc2
          obtain ⟨hx, hpost⟩ := hc2
          subst hx
          obtain ⟨pre', payload, compress, h1, h2, h3, h4, h5, h6⟩ := hfirst pre c' hc1
          exact ⟨pre', msg, r, payload, compress, List.mem_cons_self _ _, h1, h2, h3, h4, h5, h6⟩

/-- A turn of the outer loop either writes one log line or processes a batch. -/
theorem pollOnce_cases (unmarshal : String → Except String QueueUploadFile)
    (files : List String) (consumed : Except String (List (Job × Responses))) :
    (∃ level format args, pollOnce unmarshal files consumed =
      { files := files, trace := [Event.log level format args], panicked := false }) ∨
    ∃ batch, consumed = Except.ok batch ∧
      pollOnce unmarshal files consumed = processBatch unmarshal files batch := by
  cases consumed with
  | error e => left; exact ⟨_, _, _, rfl⟩
  | ok msgs =>
    cases msgs with
    | nil => left; exact ⟨_, _, _, rfl⟩
    | cons m ms => right; exact ⟨_, rfl, rfl⟩

/-- When a turn does not end in a panic, the loop goes on with the next turn, on
the disk the turn left. -/
theorem workerLoop_cons (unmarshal : String → Except String QueueUploadFile)
    (files : List String) (consumed : Except String (List (Job × Responses)))
    (later : List (Except String (List (Job × Responses))))
    (h : (pollOnce unmarshal files consumed).panicked = false) :
    workerLoop unmarshal files (consumed :: later) =
      { workerLoop unmarshal (pollOnce unmarshal files consumed).files later with
        trace := (pollOnce unmarshal files consumed).trace ++
          (workerLoop unmarshal (pollOnce unmarshal files consumed).files later).trace } := by
  simp [workerLoop, h]

/-- Within one turn of the outer loop, each `os.Remove` call comes right after the
successful `AckJob` of a message of the consumed batch. -/
theorem pollOnce_remove (unmarshal : String → Except String QueueUploadFile)
    (files : List String) (consumed : Except String (List (Job × Responses)))
    (pre post : List Event) (path : String) (res : GoError)
    (h : (pollOnce unmarshal files consumed).trace = pre ++ Event.remove path res :: post) :
    ∃ pre' batch msg r payload compress,
      consumed = Except.ok batch ∧ (msg, r) ∈ batch ∧
      pre = pre' ++ [Event.ackJob "upload_jobs" "worker" msg.ID none,
        Event.log Level.info "Job done:" [msg.ID]] ∧
      r.ackJob msg.ID = none ∧
      DecodesTo unmarshal msg payload ∧
      payload.FilePathTmp = some path ∧
      payload.IsCompressToWebp = some compress ∧
      (retryLoop r msg.ID path (ExtractFolderFromFilePath payload.FilePath) payload compress
        attempts none).success = true := by
  rcases pollOnce_cases unmarshal files consumed with ⟨level, format, args, hlog⟩ | ⟨batch, hc, hb⟩
  · rw [hlog] at h
    exact absurd h (no_remove_of_removeCalls_nil _ _ _ _ _ (by simp [removeCalls, Event.removed]))
  · rw [hb] at h
    obtain ⟨pre', msg, r, payload, compress, h0, h1, h2, h3, h4, h5, h6⟩ :=
      processBatch_remove unmarshal files batch pre post path res h
    exact ⟨pre', batch, msg, r, payload, compress, hc, h0, h1, h2, h3, h4, h5, h6⟩

/-- Within one turn of the outer loop, a file that was on disk and is gone
afterwards was removed by a successful `os.Remove` call of the worker. -/
theorem pollOnce_files (unmarshal : String → Except String QueueUploadFile)
    (files : List String) (consumed : Except String (List (Job × Responses)))
    (f : String) (hf : f ∈ files) (hgone : f ∉ (pollOnce unmarshal files consumed).files) :
    ∃ pre post, (pollOnce unmarshal files consumed).trace =
      pre ++ Event.remove f none :: post := by
  rcases pollOnce_cases unmarshal files consumed with ⟨level, format, args, hlog⟩ | ⟨batch, -, hb⟩
  · rw [hlog] at hgone; exact absurd hf hgone
  · rw [hb] at hgone ⊢
    exact processBatch_files unmarshal files batch f hf hgone

/-- Over the turns of the outer loop, a file that was on disk and is gone afterwards
was removed by a successful `os.Remove` call of the worker. -/
theorem workerLoop_files (unmarshal : String → Except String QueueUploadFile)
    (files : List String) (polls : List (Except String (List (Job × Responses))))
    (f : String) (hf : f ∈ files) (hgone : f ∉ (workerLoop unmarshal files polls).files) :
    ∃ pre post, (workerLoop unmarshal files polls).trace =
      pre ++ Event.remove f none :: post := by
  induction polls generalizing files with
  | nil => exact absurd hf (by simpa [workerLoop] using hgone)
  | cons consumed later ih =>
    cases hp : (pollOnce unmarshal files consumed).panicked with
    | true =>
      have hb : workerLoop unmarshal files (consumed :: later) =
          pollOnce unmarshal files consumed := by simp [workerLoop, hp]
      rw [hb] at hgone ⊢
      exact pollOnce_files unmarshal files consumed f hf hgone
    | false =>
      rw [workerLoop_cons unmarshal files consumed later hp] at hgone ⊢
      by_cases hmid : f ∈ (pollOnce unmarshal files consumed).files
      · obtain ⟨pre, post, h⟩ := ih _ hmid hgone
        exact ⟨(pollOnce unmarshal files consumed).trace ++ pre, post, by
          show _ ++ _ = _
          rw [h, List.append_assoc]⟩
      · obtain ⟨pre, post, h⟩ := pollOnce_files unmarshal files consumed f hf hmid
        exact ⟨pre, post ++ (workerLoop unmarshal
          (pollOnce unmarshal files consumed).files later).trace, by
          show _ ++ _ = _
          rw [h]; simp⟩

/-- C5: in every execution of the worker loop, over any number of turns, each
`os.Remove` call comes right after a successful `AckJob` (and its log line) for a
message of a consumed batch, and removes the staged file of that message; that
message decoded, passed the field checks and its upload succeeded. So no removal
happens on a skipped message, after retry exhaustion, or after a failed ack. And a
file leaves the disk only through such an `os.Remove` call. -/
theorem remove_only_after_ack (unmarshal : String → Except String QueueUploadFile)
    (files : List String) (polls : List (Except String (List (Job × Responses))))
    (pre post : List Event) (path : String) (res : GoError)
    (h : (workerLoop unmarshal files polls).trace = pre ++ Event.remove path res :: post) :
    (∃ pre' batch msg r payload compress,
      Except.ok batch ∈ polls ∧ (msg, r) ∈ batch ∧
      pre = pre' ++ [Event.ackJob "upload_jobs" "worker" msg.ID none,
        Event.log Level.info "Job done:" [msg.ID]] ∧
      r.ackJob msg.ID = none ∧
      DecodesTo unmarshal msg payload ∧
      payload.FilePathTmp = some path ∧
      payload.IsCompressToWebp = some compress ∧
      (retryLoop r msg.ID path (ExtractFolderFromFilePath payload.FilePath) payload compress
        attempts none).success = true) ∧
    (∀ f ∈ files, f ∉ (workerLoop unmarshal files polls).files →
      ∃ pre2 post2, (workerLoop unmarshal files polls).trace =
        pre2 ++ Event.remove f none :: post2) := by
  refine ⟨?_, fun f hf hgone => workerLoop_files unmarshal files polls f hf hgone⟩
  induction polls generalizing files pre with
  | nil =>
    exact absurd h (no_remove_of_removeCalls_nil _ _ _ _ _ (by simp [workerLoop, removeCalls]))
  | cons consumed later ih =>
    cases hp : (pollOnce unmarshal files consumed).panicked with
    | true =>
      have hb : workerLoop unmarshal files (consumed :: later) =
          pollOnce unmarshal files consumed := by simp [workerLoop, hp]
      rw [hb] at h
      obtain ⟨pre', batch, msg, r, payload, compress, hc, h0, h1, h2, h3, h4, h5, h6⟩ :=
        pollOnce_remove unmarshal files consumed pre post path res h
      exact ⟨pre', batch, msg, r, payload, compress, by rw [hc]; exact List.mem_cons_self _ _,
        h0, h1, h2, h3, h4, h5, h6⟩
    | false =>
      rw [workerLoop_cons unmarshal files consumed later hp] at h
      simp only at h
      rcases List.append_eq_append_iff.mp h with ⟨a', ha1, ha2⟩ | ⟨c', hc1, hc2⟩
      · -- the removal lies in a later turn
        obtain ⟨pre', batch, msg, r, payload, compress, hb, h0, h1, h2, h3, h4, h5, h6⟩ :=
          ih _ a' ha2
        exact ⟨(pollOnce unmarshal files consumed).trace ++ pre', batch, msg, r, payload,
          compress, List.mem_cons_of_mem _ hb, h0, by rw [ha1, h1, List.append_assoc],
          h2, h3, h4, h5, h6⟩
      · -- the removal lies in this turn, or opens the later ones
        cases c' with
        | nil =>
          simp only [List.nil_append, List.append_nil] at hc1 hc2
          obtain ⟨pre', batch, msg, r, payload, compress, hb, h0, h1, h2, h3, h4, h5, h6⟩ :=
            ih _ [] (by simpa using hc2.symm)
          exact absurd h1 (by simp)
        | cons x c' =>
          simp only [List.cons_append, List.cons.injEq] at hc2
          obtain ⟨hx, hpost⟩ := hc2
          subst hx
          obtain ⟨pre', batch, msg, r, payload, compress, hc, h0, h1, h2, h3, h4, h5, h6⟩ :=
            pollOnce_remove unmarshal files consumed pre c' path res hc1
          exact ⟨pre', batch, msg, r, payload, compress,
            by rw [hc]; exact List.mem_cons_self _ _, h0, h1, h2, h3, h4, h5, h6⟩

/-- Witness of C5: a failed poll, an empty poll, and then the sample job, uploaded
at once, acknowledged and cleaned up. -/
theorem remove_only_after_ack_witness :
    ∃ pre' batch msg r payload compress,
      Except.ok batch ∈ [Except.error "i/o timeout", Except.ok [],
        Except.ok [(sampleJob, failingFirst 0 none none)]] ∧
      (msg, r) ∈ batch ∧
      [Event.log Level.error "failed to consume job: %v" ["i/o timeout"],
        Event.log Level.info "no jobs found" [],
        Event.log Level.info "job %s: start processing filePath=%s tmp=%s compress=%v"
          ["1700000000000-0", "users/avatar.png", "tmp/job1_1700000000000000000.png", "true"],
        Event.uploadFileFromPath "tmp/job1_1700000000000000000.png"
          (jobOptions sampleIntent true) none,
        Event.ackJob "upload_jobs" "worker" "1700000000000-0" none,
        Event.log Level.info "Job done:" ["1700000000000-0"]] =
        pre' ++ [Event.ackJob "upload_jobs" "worker" msg.ID none,
          Event.log Level.info "Job done:" [msg.ID]] ∧
      r.ackJob msg.ID = none ∧
      DecodesTo sampleUnmarshal msg payload ∧
      payload.FilePathTmp = some "tmp/job1_1700000000000000000.png" ∧
      payload.IsCompressToWebp = some compress ∧
      (retryLoop r msg.ID "tmp/job1_1700000000000000000.png"
        (ExtractFolderFromFilePath payload.FilePath) payload compress attempts none).success
        = true :=
  (remove_only_after_ack sampleUnmarshal sampleFiles
    [Except.error "i/o timeout", Except.ok [], Except.ok [(sampleJob, failingFirst 0 none none)]]
    _ [Event.log Level.info "job %s: tmp file %s removed"
      ["1700000000000-0", "tmp/job1_1700000000000000000.png"]]
    "tmp/job1_1700000000000000000.png" none (by decide)).1

/-- C6, as the code has it: when the upload pipeline succeeds for a message but
`AckJob` returns an error, the worker logs the error and ends the processing of that
message there: it makes no `os.Remove` call, the staged file stays on disk, and the
batch goes on with the next message. -/
theorem ack_error_logged_file_kept (unmarshal : String → Except String QueueUploadFile)
    (r : Responses) (files : List String) (msg : Job) (payload : QueueUploadFile) (tmp : String)
    (compress : Bool) (e : String) (rest : List (Job × Responses))
    (hvalid : ValidMessage unmarshal files msg payload tmp compress)
    (hok : ∃ k, 1 ≤ k ∧ k ≤ 5 ∧ r.upload k tmp (jobOptions payload compress) = none)
    (hack : r.ackJob msg.ID = some e) :
    (∃ pre, (processMessage unmarshal r files msg).trace =
      pre ++ [Event.ackJob "upload_jobs" "worker" msg.ID (some e),
        Event.log Level.error "job %s: ack error: %v" [msg.ID, e]]) ∧
    removeCalls (processMessage unmarshal r files msg).trace = [] ∧
    (processMessage unmarshal r files msg).files = files ∧
    tmp ∈ (processMessage unmarshal r files msg).files ∧
    processBatch unmarshal files ((msg, r) :: rest) =
      { processBatch unmarshal files rest with
        trace := (processMessage unmarshal r files msg).trace ++
          (processBatch unmarshal files rest).trace } := by
  simp only [jobOptions] at hok
  obtain ⟨k, h1, h5, hk⟩ := hok
  have hmem : k ∈ attempts := by
    unfold attempts
    interval_cases k <;> simp
  have hs := retryLoop_success r msg.ID tmp (ExtractFolderFromFilePath payload.FilePath) payload
    compress attempts none ⟨k, hmem, hk⟩
  obtain ⟨-, hr⟩ := retryLoop_no_ack_remove r msg.ID tmp
    (ExtractFolderFromFilePath payload.FilePath) payload compress attempts none
  have hfile : tmp ∈ files := by
    obtain ⟨_, _, _, _, _, _, _, h⟩ := hvalid
    simpa [statOk] using h
  have hpm : processMessage unmarshal r files msg =
      { files := files
        trace := Event.log Level.info "job %s: start processing filePath=%s tmp=%s compress=%v"
            [msg.ID, payload.FilePath, tmp, fmtBool compress] ::
          ((retryLoop r msg.ID tmp (ExtractFolderFromFilePath payload.FilePath) payload compress
            attempts none).trace ++
          [Event.ackJob "upload_jobs" "worker" msg.ID (some e),
            Event.log Level.error "job %s: ack error: %v" [msg.ID, e]])
        panicked := false } := by
    rw [processMessage_valid unmarshal r files msg payload tmp compress hvalid,
      runJob_of_success r files msg.ID tmp payload compress hs,
      ackAndCleanup_of_ack_error r files msg.ID tmp e hack]
  have hpanic : (processMessage unmarshal r files msg).panicked = false := by rw [hpm]
  have hfiles : (processMessage unmarshal r files msg).files = files := by rw [hpm]
  refine ⟨⟨_, by rw [hpm]; exact (List.cons_append _ _ _).symm⟩, ?_, hfiles, ?_, ?_⟩
  · rw [hpm]
    simp only [removeCalls] at hr ⊢
    simp [List.filterMap_append, Event.removed, hr]
  · rw [hfiles]; exact hfile
  · rw [processBatch_cons unmarshal r files msg rest hpanic, hfiles]

/-- Witness of C6 as amended: the sample job, uploaded at once, with a failing ack. -/
theorem ack_error_logged_file_kept_witness :
    removeCalls (processMessage sampleUnmarshal (failingFirst 0 (some "failed to ack job") none)
      sampleFiles sampleJob).trace = [] ∧
    (processMessage sampleUnmarshal (failingFirst 0 (some "failed to ack job") none)
      sampleFiles sampleJob).files = sampleFiles :=
  have h := ack_error_logged_file_kept sampleUnmarshal
    (failingFirst 0 (some "failed to ack job") none) sampleFiles sampleJob sampleIntent
    "tmp/job1_1700000000000000000.png" true "failed to ack job" [] sample_valid
    ⟨1, by decide, by decide, by simp [failingFirst]⟩ rfl
  ⟨h.2.1, h.2.2.1⟩

/-- C6 as stated fails: on the sample job the pipeline succeeds on the first attempt
and `AckJob` returns an error; the error is logged, and the trace ends there: there is
no `os.Remove` call at all and the staged file is still on disk. -/
theorem no_cleanup_after_ack_error :
    ValidMessage sampleUnmarshal sampleFiles sampleJob sampleIntent
      "tmp/job1_1700000000000000000.png" true ∧
    (processMessage sampleUnmarshal (failingFirst 0 (some "failed to ack job") none)
      sampleFiles sampleJob).trace =
      [Event.log Level.info "job %s: start processing filePath=%s tmp=%s compress=%v"
          ["1700000000000-0", "users/avatar.png", "tmp/job1_1700000000000000000.png", "true"],
        Event.uploadFileFromPath "tmp/job1_1700000000000000000.png"
          (jobOptions sampleIntent true) none,
        Event.ackJob "upload_jobs" "worker" "1700000000000-0" (some "failed to ack job"),
        Event.log Level.error "job %s: ack error: %v"
          ["1700000000000-0", "failed to ack job"]] ∧
    removeCalls (processMessage sampleUnmarshal (failingFirst 0 (some "failed to ack job") none)
      sampleFiles sampleJob).trace = [] ∧
    (processMessage sampleUnmarshal (failingFirst 0 (some "failed to ack job") none)
      sampleFiles sampleJob).files = ["tmp/job1_1700000000000000000.png"] := by
  refine ⟨sample_valid, ?_, ?_, ?_⟩ <;> decide

/-- With `OldFile` set and every attempt failing, each pipeline call is followed by
one `DeleteFile` call. -/
theorem retryLoop_callOrder (r : Responses) (jobID tmp folder old : String)
    (payload : QueueUploadFile) (compress : Bool) (as : List Nat) (lastErr : GoError)
    (hold : payload.OldFile = some old)
    (hfail : ∀ k ∈ as, r.upload k tmp (pipelineOptions folder payload compress) ≠ none) :
    callOrder (retryLoop r jobID tmp folder payload compress as lastErr).trace =
      (as.map (fun _ => [true, false])).flatten := by
  induction as generalizing lastErr with
  | nil => simp [retryLoop, callOrder]
  | cons k rest ih =>
    have hk := hfail k (List.mem_cons_self _ _)
    have hrest : ∀ j ∈ rest, r.upload j tmp (pipelineOptions folder payload compress) ≠ none :=
      fun j hj => hfail j (List.mem_cons_of_mem _ hj)
    cases hu : r.upload k tmp (pipelineOptions folder payload compress) with
    | none => exact absurd hu hk
    | some e =>
      rw [retryLoop_cons_fail _ _ _ _ _ _ _ _ _ e hu]
      have hi := ih (deleteOldFile r jobID payload k (some e)).1 hrest
      have hd : callOrder (deleteOldFile r jobID payload k (some e)).2 = [false] := by
        unfold deleteOldFile
        cases hdel : r.deleteFile k old <;>
          simp [hold, hdel, callOrder, Event.uploadOrDelete]
      simp only [callOrder] at hi hd ⊢
      by_cases h5 : k < 5 <;>
        simp [Event.uploadOrDelete, hd, hi, List.filterMap_append, h5]

/-- The deletions of `n` failed attempts of a job with `OldFile` set. -/
theorem flatten_map_const (old : String) (as : List Nat) :
    (as.map (fun _ => (some old).toList)).flatten = List.replicate as.length old := by
  induction as with
  | nil => rfl
  | cons k rest ih => simp [List.replicate_succ, ih]

/-- C7, as the code has it: for every job whose `OldFile` is set, the worker calls
`DeleteFile` for `OldFile` once after each failed upload attempt and never after the
successful one: when the pipeline fails `N < 5` times and then succeeds there are
exactly `N` `DeleteFile` calls, all for `OldFile`, so none when the pipeline succeeds
on its first attempt; whatever these deletions return, the ack is issued. -/
theorem old_file_deleted_after_failures_only
    (unmarshal : String → Except String QueueUploadFile)
    (r : Responses) (files : List String) (msg : Job) (payload : QueueUploadFile)
    (tmp old : String) (compress : Bool) (N : Nat)
    (hvalid : ValidMessage unmarshal files msg payload tmp compress)
    (hold : payload.OldFile = some old) (hN : N < 5)
    (hfail : ∀ k, 1 ≤ k → k ≤ N → r.upload k tmp (jobOptions payload compress) ≠ none)
    (hok : r.upload (N + 1) tmp (jobOptions payload compress) = none) :
    deleteCalls (processMessage unmarshal r files msg).trace = List.replicate N old ∧
    callOrder (processMessage unmarshal r files msg).trace =
      ((List.range' 1 N).map (fun _ => [true, false])).flatten ++ [true] ∧
    (N = 0 → deleteCalls (processMessage unmarshal r files msg).trace = []) ∧
    ackCalls (processMessage unmarshal r files msg).trace = [(msg.ID, r.ackJob msg.ID)] := by
  simp only [jobOptions] at hfail hok
  have hf : ∀ k ∈ List.range' 1 N, r.upload k tmp
      (pipelineOptions (ExtractFolderFromFilePath payload.FilePath) payload compress) ≠ none := by
    intro k hk
    rw [List.mem_range'_1] at hk
    exact hfail k hk.1 (by omega)
  obtain ⟨hs, ht⟩ := retryLoop_fail_then_ok r msg.ID tmp
    (ExtractFolderFromFilePath payload.FilePath) payload compress N hN hfail hok
  obtain ⟨-, -, -, hdel⟩ := retryLoop_all_fail r msg.ID tmp
    (ExtractFolderFromFilePath payload.FilePath) payload compress (List.range' 1 N) none hf
  have hord := retryLoop_callOrder r msg.ID tmp (ExtractFolderFromFilePath payload.FilePath) old
    payload compress (List.range' 1 N) none hold hf
  obtain ⟨ha, -⟩ := retryLoop_no_ack_remove r msg.ID tmp
    (ExtractFolderFromFilePath payload.FilePath) payload compress (List.range' 1 N) none
  obtain ⟨hc1, -, hc3, hc4⟩ := ackAndCleanup_trace r files msg.ID tmp
  have hc5 : callOrder (ackAndCleanup r files msg.ID tmp).trace = [] := by
    unfold ackAndCleanup
    cases h : r.ackJob msg.ID <;> cases h2 : (osRemove r files tmp).1 <;>
      simp [h, h2, callOrder, Event.uploadOrDelete]
  rw [hold, flatten_map_const, List.length_range'] at hdel
  have hpm : (processMessage unmarshal r files msg).trace =
      Event.log Level.info "job %s: start processing filePath=%s tmp=%s compress=%v"
        [msg.ID, payload.FilePath, tmp, fmtBool compress] ::
      (((retryLoop r msg.ID tmp (ExtractFolderFromFilePath payload.FilePath) payload compress
        (List.range' 1 N) none).trace ++
        [Event.uploadFileFromPath tmp
          (pipelineOptions (ExtractFolderFromFilePath payload.FilePath) payload compress) none])
        ++ (ackAndCleanup r files msg.ID tmp).trace) := by
    rw [processMessage_valid unmarshal r files msg payload tmp compress hvalid,
      runJob_of_success r files msg.ID tmp payload compress hs, ht]
  have hdelete : deleteCalls (processMessage unmarshal r files msg).trace
      = List.replicate N old := by
    rw [hpm]
    simp only [deleteCalls] at hdel hc3 ⊢
    simp [List.filterMap_append, Event.deletedURL, hdel, hc3]
  refine ⟨hdelete, ?_, ?_, ?_⟩
  · rw [hpm]
    simp only [callOrder] at hord hc5 ⊢
    simp [List.filterMap_append, Event.uploadOrDelete, hord, hc5]
  · intro h0
    rw [hdelete, h0]; rfl
  · rw [hpm]
    simp only [ackCalls] at ha hc4 ⊢
    simp [List.filterMap_append, Event.acked, ha, hc4]

/-- Witness of C7 as amended: the sample job, two failures and then success, with
deletions that fail. -/
theorem old_file_deleted_after_failures_only_witness :
    deleteCalls (processMessage sampleUnmarshal
      { failingFirst 2 none none with deleteFile := fun _ _ => some "failed to delete file" }
      sampleFiles sampleJob).trace =
      ["https://is3.cloudhost.id/uts/users/old.png",
        "https://is3.cloudhost.id/uts/users/old.png"] ∧
    ackCalls (processMessage sampleUnmarshal
      { failingFirst 2 none none with deleteFile := fun _ _ => some "failed to delete file" }
      sampleFiles sampleJob).trace = [("1700000000000-0", none)] :=
  have h := old_file_deleted_after_failures_only sampleUnmarshal
    { failingFirst 2 none none with deleteFile := fun _ _ => some "failed to delete file" }
    sampleFiles sampleJob sampleIntent "tmp/job1_1700000000000000000.png"
    "https://is3.cloudhost.id/uts/users/old.png" true 2 sample_valid rfl (by decide)
    (fun k _ hk => by simp [failingFirst, hk]) (by simp [failingFirst])
  ⟨h.1, h.2.2.2⟩

/-- C7 as stated fails: the sample job has `OldFile` set and its pipeline succeeds on
the first attempt; the job is acknowledged and cleaned up, and `DeleteFile` is never
called. -/
theorem old_file_kept_on_first_success :
    ValidMessage sampleUnmarshal sampleFiles sampleJob sampleIntent
      "tmp/job1_1700000000000000000.png" true ∧
    sampleIntent.OldFile = some "https://is3.cloudhost.id/uts/users/old.png" ∧
    pipelineCalls (processMessage sampleUnmarshal (failingFirst 0 none none) sampleFiles
      sampleJob).trace = [none] ∧
    deleteCalls (processMessage sampleUnmarshal (failingFirst 0 none none) sampleFiles
      sampleJob).trace = [] ∧
    ackCalls (processMessage sampleUnmarshal (failingFirst 0 none none) sampleFiles
      sampleJob).trace = [("1700000000000-0", none)] := by
  refine ⟨sample_valid, rfl, ?_, ?_, ?_⟩ <;> decide

/-- With `OldFile` set and every attempt failing, each attempt is a pipeline call,
then a `DeleteFile` call, then a sleep when the attempt number is below five. -/
theorem retryLoop_retrySteps (r : Responses) (jobID tmp folder old : String)
    (payload : QueueUploadFile) (compress : Bool) (as : List Nat) (lastErr : GoError)
    (hold : payload.OldFile = some old)
    (hfail : ∀ k ∈ as, r.upload k tmp (pipelineOptions folder payload compress) ≠ none) :
    retrySteps (retryLoop r jobID tmp folder payload compress as lastErr).trace =
      (as.map (fun k => [RetryStep.upload, RetryStep.delete] ++
        (if k < 5 then [RetryStep.sleep k] else []))).flatten := by
  induction as generalizing lastErr with
  | nil => simp [retryLoop, retrySteps]
  | cons k rest ih =>
    have hk := hfail k (List.mem_cons_self _ _)
    have hrest : ∀ j ∈ rest, r.upload j tmp (pipelineOptions folder payload compress) ≠ none :=
      fun j hj => hfail j (List.mem_cons_of_mem _ hj)
    cases hu : r.upload k tmp (pipelineOptions folder payload compress) with
    | none => exact absurd hu hk
    | some e =>
      rw [retryLoop_cons_fail _ _ _ _ _ _ _ _ _ e hu]
      have hi := ih (deleteOldFile r jobID payload k (some e)).1 hrest
      have hd : retrySteps (deleteOldFile r jobID payload k (some e)).2 = [RetryStep.delete] := by
        unfold deleteOldFile
        cases hdel : r.deleteFile k old <;>
          simp [hold, hdel, retrySteps, Event.retryStep]
      simp only [retrySteps] at hi hd ⊢
      by_cases h5 : k < 5 <;>
        simp [Event.retryStep, hd, hi, List.filterMap_append, h5]

/-- C8, as the code has it: for a job with `OldFile` set and a pipeline that fails on
every attempt, the stale-object deletion is attempted exactly once after each of the
failed attempts 1..5, the fifth included: five `DeleteFile` calls in total, each
right after a pipeline call. The sleeps are of 1, 2, 3 and 4 seconds, one after each
of the first four deletions; after the fifth deletion there is no sleep and no
further attempt, and the job is neither acknowledged nor cleaned up. -/
theorem old_file_deleted_after_each_of_five_failures
    (unmarshal : String → Except String QueueUploadFile)
    (r : Responses) (files : List String) (msg : Job) (payload : QueueUploadFile)
    (tmp old : String) (compress : Bool)
    (hvalid : ValidMessage unmarshal files msg payload tmp compress)
    (hold : payload.OldFile = some old)
    (hfail : ∀ k, r.upload k tmp (jobOptions payload compress) ≠ none) :
    deleteCalls (processMessage unmarshal r files msg).trace = [old, old, old, old, old] ∧
    callOrder (processMessage unmarshal r files msg).trace =
      [true, false, true, false, true, false, true, false, true, false] ∧
    sleeps (processMessage unmarshal r files msg).trace = [1, 2, 3, 4] ∧
    retrySteps (processMessage unmarshal r files msg).trace =
      [RetryStep.upload, RetryStep.delete, RetryStep.sleep 1,
       RetryStep.upload, RetryStep.delete, RetryStep.sleep 2,
       RetryStep.upload, RetryStep.delete, RetryStep.sleep 3,
       RetryStep.upload, RetryStep.delete, RetryStep.sleep 4,
       RetryStep.upload, RetryStep.delete] ∧
    ackCalls (processMessage unmarshal r files msg).trace = [] ∧
    removeCalls (processMessage unmarshal r files msg).trace = [] := by
  simp only [jobOptions] at hfail
  obtain ⟨hs, -, hsl, hdel⟩ := retryLoop_all_fail r msg.ID tmp
    (ExtractFolderFromFilePath payload.FilePath) payload compress attempts none
    (fun k _ => hfail k)
  have hord := retryLoop_callOrder r msg.ID tmp (ExtractFolderFromFilePath payload.FilePath) old
    payload compress attempts none hold (fun k _ => hfail k)
  have hst := retryLoop_retrySteps r msg.ID tmp (ExtractFolderFromFilePath payload.FilePath) old
    payload compress attempts none hold (fun k _ => hfail k)
  obtain ⟨ha, hrm⟩ := retryLoop_no_ack_remove r msg.ID tmp
    (ExtractFolderFromFilePath payload.FilePath) payload compress attempts none
  rw [hold, flatten_map_const] at hdel
  rw [processMessage_valid unmarshal r files msg payload tmp compress hvalid,
    runJob_of_failure r files msg.ID tmp payload compress hs]
  refine ⟨?_, ?_, ?_, ?_, ?_, ?_⟩
  · simp only [deleteCalls] at hdel ⊢
    simp only [List.filterMap_cons, List.filterMap_append, Event.deletedURL, hdel]
    rfl
  · simp only [callOrder] at hord ⊢
    simp only [List.filterMap_cons, List.filterMap_append, Event.uploadOrDelete, hord]
    rfl
  · simp only [sleeps] at hsl ⊢
    simp only [List.filterMap_cons, List.filterMap_append, Event.sleepSeconds, hsl]
    rfl
  · simp only [retrySteps] at hst ⊢
    simp only [List.filterMap_cons, List.filterMap_append, Event.retryStep, hst]
    rfl
  · simp only [ackCalls] at ha ⊢
    simp only [List.filterMap_cons, List.filterMap_append, Event.acked, ha]
    rfl
  · simp only [removeCalls] at hrm ⊢
    simp only [List.filterMap_cons, List.filterMap_append, Event.removed, hrm]
    rfl

/-- The failing input of C8: the sample job with a pipeline that never succeeds and
deletions that fail. -/
theorem old_file_deleted_after_each_of_five_failures_witness :
    deleteCalls (processMessage sampleUnmarshal (alwaysFailing (some "failed to delete file"))
      sampleFiles sampleJob).trace = List.replicate 5 "https://is3.cloudhost.id/uts/users/old.png" ∧
    sleeps (processMessage sampleUnmarshal (alwaysFailing (some "failed to delete file"))
      sampleFiles sampleJob).trace = [1, 2, 3, 4] ∧
    (retrySteps (processMessage sampleUnmarshal (alwaysFailing (some "failed to delete file"))
      sampleFiles sampleJob).trace).drop 11 =
      [RetryStep.sleep 4, RetryStep.upload, RetryStep.delete] :=
  have h := old_file_deleted_after_each_of_five_failures sampleUnmarshal
    (alwaysFailing (some "failed to delete file")) sampleFiles sampleJob sampleIntent
    "tmp/job1_1700000000000000000.png" "https://is3.cloudhost.id/uts/users/old.png" true
    sample_valid rfl (fun k => by simp [alwaysFailing])
  ⟨h.1, h.2.2.1, by rw [h.2.2.2.1]; rfl⟩

/-- C8 as stated fails: on the sample job, which has `OldFile` set, with a pipeline
that fails on every attempt, `DeleteFile` is called five times, not four, and the
last call comes after the fifth pipeline call. -/
theorem five_deletions_on_exhaustion :
    ValidMessage sampleUnmarshal sampleFiles sampleJob sampleIntent
      "tmp/job1_1700000000000000000.png" true ∧
    sampleIntent.OldFile = some "https://is3.cloudhost.id/uts/users/old.png" ∧
    (pipelineCalls (processMessage sampleUnmarshal (alwaysFailing none) sampleFiles
      sampleJob).trace).length = 5 ∧
    (deleteCalls (processMessage sampleUnmarshal (alwaysFailing none) sampleFiles
      sampleJob).trace).length = 5 ∧
    (callOrder (processMessage sampleUnmarshal (alwaysFailing none) sampleFiles
      sampleJob).trace).drop 8 = [true, false] := by
  refine ⟨sample_valid, rfl, ?_, ?_, ?_⟩ <;> decide

/-! ## The destination key -/

/-- The file name and content type that leave the re-encoding step. -/
theorem reencode_ok (env : PipelineEnv) (opts : FileUploadOptions) (data body : Bytes)
    (contentType filename ct name : String)
    (h : reencode env opts data contentType filename = Except.ok (body, ct, name)) :
    name = (if opts.IsCompressToWebp = some true
      then TrimSuffix filename (Ext filename) ++ ".webp" else filename) ∧
    (opts.IsCompressToWebp = some true → ct = "image/webp") := by
  unfold reencode at h
  by_cases hc : opts.IsCompressToWebp = some true
  · simp only [hc, if_true] at h ⊢
    cases hd : env.imageDecode data with
    | error e => simp [hd] at h
    | ok img =>
      cases hw : env.webpEncode img 10 with
      | error e => simp [hd, hw] at h
      | ok buf =>
        simp only [hd, hw, Except.ok.injEq, Prod.mk.injEq] at h
        exact ⟨h.2.2.symm, fun _ => h.2.1.symm⟩
  · simp only [hc, if_false] at h ⊢
    refine ⟨?_, fun h' => absurd h' (by simp)⟩
    by_cases hpng : contentType = "image/png"
    · simp only [hpng, if_true] at h
      cases hd : env.pngDecode data <;>
        · simp only [hd, Except.ok.injEq, Prod.mk.injEq] at h
          exact h.2.2.symm
    · simp only [hpng, if_false] at h
      by_cases hjpg : contentType = "image/jpeg"
      · simp only [hjpg, if_true] at h
        cases hd : env.jpegDecode data <;>
          · simp only [hd, Except.ok.injEq, Prod.mk.injEq] at h
            exact h.2.2.symm
      · simp only [hjpg, if_false, Except.ok.injEq, Prod.mk.injEq] at h
        exact h.2.2.symm

/-- A `PutObject` request of the pipeline carries what left the re-encoding step,
under the key made of the trimmed folder and the file name. -/
theorem UploadFileFromPath_put (env : PipelineEnv) (filePath : String) (opts : FileUploadOptions)
    (input : PutObjectInput) (h : (UploadFileFromPath env filePath opts).put = some input) :
    ∃ data contentType body ct name,
      reencode env opts data contentType (Base opts.NameFile) = Except.ok (body, ct, name) ∧
      input =
        { Bucket := env.bucket, Key := Trim opts.Folder "/" ++ "/" ++ name, Body := body,
          ContentType := ct, ACL := "public-read" } := by
  unfold UploadFileFromPath at h
  cases hr : readStagedFile env filePath opts with
  | error e => simp [hr, PipelineResult.fail] at h
  | ok v =>
    obtain ⟨data, contentType⟩ := v
    cases he : reencode env opts data contentType (Base opts.NameFile) with
    | error e => simp [hr, he, PipelineResult.fail] at h
    | ok w =>
      obtain ⟨body, ct, name⟩ := w
      refine ⟨data, contentType, body, ct, name, he, ?_⟩
      simp only [hr, he] at h
      cases hp : env.putObject
          { Bucket := env.bucket, Key := Trim opts.Folder "/" ++ "/" ++ name,
            Body := body, ContentType := ct, ACL := "public-read" } with
      | none => simp only [hp, Option.some.injEq] at h; exact h.symm
      | some e => simp only [hp, Option.some.injEq] at h; exact h.symm

/-- The key of a `PutObject` request of the pipeline. -/
theorem UploadFileFromPath_key (env : PipelineEnv) (filePath : String) (opts : FileUploadOptions)
    (input : PutObjectInput) (h : (UploadFileFromPath env filePath opts).put = some input) :
    input.Key = Trim opts.Folder "/" ++ "/" ++
      (if opts.IsCompressToWebp = some true
        then TrimSuffix (Base opts.NameFile) (Ext (Base opts.NameFile)) ++ ".webp"
        else Base opts.NameFile) ∧
    (opts.IsCompressToWebp = some true → input.ContentType = "image/webp") := by
  obtain ⟨data, contentType, body, ct, name, he, hin⟩ :=
    UploadFileFromPath_put env filePath opts input h
  obtain ⟨hname, hct⟩ := reencode_ok env opts data body contentType _ ct name he
  rw [hin]
  exact ⟨by rw [hname], hct⟩

/-- Every pipeline call of the retry loop has the same path and the same options. -/
theorem retryLoop_uploadArgs (r : Responses) (jobID tmp folder : String)
    (payload : QueueUploadFile) (compress : Bool) (as : List Nat) (lastErr : GoError) :
    ∀ x ∈ (retryLoop r jobID tmp folder payload compress as lastErr).trace.filterMap
      Event.uploadArgs, x = (tmp, pipelineOptions folder payload compress) := by
  induction as generalizing lastErr with
  | nil => simp [retryLoop]
  | cons k rest ih =>
    cases hu : r.upload k tmp (pipelineOptions folder payload compress) with
    | none =>
      rw [retryLoop_cons_ok _ _ _ _ _ _ _ _ _ hu]
      simp [Event.uploadArgs]
    | some e =>
      rw [retryLoop_cons_fail _ _ _ _ _ _ _ _ _ e hu]
      have hi := ih (deleteOldFile r jobID payload k (some e)).1
      have hd : (deleteOldFile r jobID payload k (some e)).2.filterMap Event.uploadArgs = [] := by
        unfold deleteOldFile
        cases payload.OldFile with
        | none => simp
        | some old => cases hdel : r.deleteFile k old <;> simp [hdel, Event.uploadArgs]
      intro x hx
      by_cases h5 : k < 5 <;>
        · simp only [h5, if_true, if_false, List.filterMap_cons, List.filterMap_append,
            Event.uploadArgs, hd, List.nil_append, List.filterMap_nil, List.mem_cons,
            List.append_nil] at hx
          rcases hx with rfl | hx
          · rfl
          · exact hi x hx

/-- Every pipeline call made for a valid message is for its staged file, with the
options derived from its intent. -/
theorem processMessage_uploadArgs (unmarshal : String → Except String QueueUploadFile)
    (r : Responses) (files : List String) (msg : Job) (payload : QueueUploadFile) (tmp : String)
    (compress : Bool) (hvalid : ValidMessage unmarshal files msg payload tmp compress)
    (filePath : String) (opts : FileUploadOptions) (res : GoError)
    (hev : Event.uploadFileFromPath filePath opts res ∈ (processMessage unmarshal r files msg).trace) :
    filePath = tmp ∧ opts = jobOptions payload compress := by
  have hx : (filePath, opts) ∈ (processMessage unmarshal r files msg).trace.filterMap
      Event.uploadArgs := List.mem_filterMap.mpr ⟨_, hev, rfl⟩
  have hloop := retryLoop_uploadArgs r msg.ID tmp (ExtractFolderFromFilePath payload.FilePath)
    payload compress attempts none
  have hfin : (ackAndCleanup r files msg.ID tmp).trace.filterMap Event.uploadArgs = [] := by
    unfold ackAndCleanup
    cases h : r.ackJob msg.ID <;> cases h2 : (osRemove r files tmp).1 <;>
      simp [h, h2, Event.uploadArgs]
  rw [processMessage_valid unmarshal r files msg payload tmp compress hvalid] at hx
  have hmem : (filePath, opts) ∈ (retryLoop r msg.ID tmp
      (ExtractFolderFromFilePath payload.FilePath) payload compress attempts none).trace.filterMap
      Event.uploadArgs := by
    cases hs : (retryLoop r msg.ID tmp (ExtractFolderFromFilePath payload.FilePath) payload
        compress attempts none).success with
    | false =>
      rw [runJob_of_failure r files msg.ID tmp payload compress hs] at hx
      simpa [List.filterMap_append, Event.uploadArgs] using hx
    | true =>
      rw [runJob_of_success r files msg.ID tmp payload compress hs] at hx
      simpa [List.filterMap_append, Event.uploadArgs, hfin] using hx
  have := hloop _ hmem
  simp only [Prod.mk.injEq] at this
  exact ⟨this.1, this.2⟩

/-! ## Paths of the form `F/N.E` -/

/-- The function `dropWhile` leaves a list alone when none of its elements satisfies the test. -/
theorem dropWhile_none (p : Char → Bool) (l : List Char) (h : ∀ c ∈ l, p c = false) :
    l.dropWhile p = l := by
  cases l with
  | nil => rfl
  | cons c cs => simp [List.dropWhile, h c (List.mem_cons_self _ _)]

/-- The extension scan stops at the first dot it meets. -/
theorem extScan_dot (e rest acc : List Char)
    (he : ∀ c ∈ e, c ≠ '/' ∧ c ≠ '.') :
    extScan (e ++ '.' :: rest) acc = '.' :: (e.reverse ++ acc) := by
  induction e generalizing acc with
  | nil => simp [extScan, isPathSeparator]
  | cons c e ih =>
    have hc := he c (List.mem_cons_self _ _)
    have hrest : ∀ d ∈ e, d ≠ '/' ∧ d ≠ '.' := fun d hd => he d (List.mem_cons_of_mem _ hd)
    simp [extScan, isPathSeparator, hc.1, hc.2, ih _ hrest]

/-- The extension `filepath.Ext("N.E")` is `".E"`. -/
theorem Ext_name (N E : String) (hE : ∀ c ∈ E.data, c ≠ '/' ∧ c ≠ '.') :
    Ext (N ++ "." ++ E) = "." ++ E := by
  apply String.ext
  have h := extScan_dot E.data.reverse N.data.reverse [] (by simpa using hE)
  simpa [Ext, String.data_append] using h

/-- The stem `strings.TrimSuffix("N.E", ".E")` is `"N"`. -/
theorem TrimSuffix_name (N E : String) : TrimSuffix (N ++ "." ++ E) ("." ++ E) = N := by
  have hs : HasSuffix (N ++ "." ++ E) ("." ++ E) = true := by
    simp [HasSuffix, String.data_append, List.append_assoc]
  apply String.ext
  simp [TrimSuffix, hs, String.data_append]

/-- The base name `filepath.Base("F/N.E")` is `"N.E"`. -/
theorem Base_name (F N E : String) (hN : ∀ c ∈ N.data, c ≠ '/') (hE : ∀ c ∈ E.data, c ≠ '/') :
    Base (F ++ "/" ++ N ++ "." ++ E) = N ++ "." ++ E := by
  have hne : F ++ "/" ++ N ++ "." ++ E ≠ "" := by
    intro h
    have := congrArg String.data h
    simp [String.data_append] at this
  have hX : ∀ c ∈ E.data.reverse ++ '.' :: N.data.reverse, isPathSeparator c = false := by
    intro c hc
    simp only [List.mem_append, List.mem_reverse, List.mem_cons] at hc
    rcases hc with h | rfl | h
    · simpa [isPathSeparator] using hE c h
    · decide
    · simpa [isPathSeparator] using hN c h
  have hrev : (F ++ "/" ++ N ++ "." ++ E).data.reverse =
      (E.data.reverse ++ '.' :: N.data.reverse) ++ '/' :: F.data.reverse := by
    simp [String.data_append]
  have hdrop : ((E.data.reverse ++ '.' :: N.data.reverse) ++ '/' :: F.data.reverse).dropWhile
      isPathSeparator = (E.data.reverse ++ '.' :: N.data.reverse) ++ '/' :: F.data.reverse := by
    cases hE' : E.data.reverse with
    | nil => simp [List.dropWhile, isPathSeparator]
    | cons c cs =>
      have : isPathSeparator c = false := hX c (by simp [hE'])
      simp [List.dropWhile, this]
  have htake : ((E.data.reverse ++ '.' :: N.data.reverse) ++ '/' :: F.data.reverse).takeWhile
      (fun c => !isPathSeparator c) = E.data.reverse ++ '.' :: N.data.reverse := by
    rw [List.takeWhile_append_of_pos (fun c hc => by simp [hX c hc])]
    simp [isPathSeparator]
  unfold Base
  rw [if_neg hne]
  simp only [hrev, hdrop, htake]
  have hnil : (E.data.reverse ++ '.' :: N.data.reverse).reverse ≠ [] := by simp
  rw [if_neg hnil]
  apply String.ext
  simp [String.data_append]

/-- The trimmed folder `strings.Trim(F, "/")` is `F` when `F` has no separator. -/
theorem Trim_plain (F : String) (hF : ∀ c ∈ F.data, c ≠ '/') : Trim F "/" = F := by
  apply String.ext
  have h1 : trimLeftChars ['/'] F.data = F.data :=
    dropWhile_none _ _ (fun c hc => by simpa using hF c hc)
  have h2 : trimRightChars ['/'] F.data = F.data := by
    unfold trimRightChars
    rw [dropWhile_none _ _ (fun c hc => by simpa using hF c (List.mem_reverse.mp hc)),
      List.reverse_reverse]
  show trimRightChars ['/'] (trimLeftChars ['/'] F.data) = F.data
  rw [h1, h2]

/-- The directory `filepath.Dir("F/N.E")` is `"F"` for a plain directory name `F`. -/
theorem Dir_name (F N E : String) (hF : ∀ c ∈ F.data, c ≠ '/')
    (hF0 : F ≠ "") (hF1 : F ≠ ".") (hF2 : F ≠ "..")
    (hN : ∀ c ∈ N.data, c ≠ '/') (hE : ∀ c ∈ E.data, c ≠ '/') :
    Dir (F ++ "/" ++ N ++ "." ++ E) = F := by
  have hX : ∀ c ∈ E.data.reverse ++ '.' :: N.data.reverse,
      (fun c => !isPathSeparator c) c = true := by
    intro c hc
    simp only [List.mem_append, List.mem_reverse, List.mem_cons] at hc
    rcases hc with h | rfl | h
    · simpa [isPathSeparator] using hE c h
    · decide
    · simpa [isPathSeparator] using hN c h
  have hrev : (F ++ "/" ++ N ++ "." ++ E).data.reverse =
      (E.data.reverse ++ '.' :: N.data.reverse) ++ '/' :: F.data.reverse := by
    simp [String.data_append]
  have hdrop : ((E.data.reverse ++ '.' :: N.data.reverse) ++ '/' :: F.data.reverse).dropWhile
      (fun c => !isPathSeparator c) = '/' :: F.data.reverse := by
    rw [List.dropWhile_append_of_pos hX]
    simp [List.dropWhile, isPathSeparator]
  have hf0 : F.data ≠ [] := fun h => hF0 (String.ext h)
  have hf1 : F.data ≠ ['.'] := fun h => hF1 (String.ext h)
  have hf2 : F.data ≠ ['.', '.'] := fun h => hF2 (String.ext h)
  have hsplit : (F.data ++ ['/']).splitOn '/' = [F.data, []] := by
    have := List.splitOnP_first (fun c => c == '/') F.data
      (fun c hc => by simpa using hF c hc) '/' (by simp) []
    simpa [List.splitOn, List.splitOnP_nil] using this
  have hrooted : (F.data ++ ['/']).head?.any isPathSeparator = false := by
    cases hd : F.data with
    | nil => exact absurd hd hf0
    | cons c cs =>
      have : c ≠ '/' := hF c (by simp [hd])
      simp [isPathSeparator, this]
  have hne : (String.mk (F.data ++ ['/'])) ≠ "" := by
    intro h
    have := congrArg String.data h
    simp at this
  unfold Dir
  rw [hrev, hdrop]
  simp only [List.reverse_cons, List.reverse_reverse]
  unfold Clean
  rw [if_neg hne]
  simp only [hrooted, hsplit, List.foldl_cons, List.foldl_nil]
  have hlen : F.length ≠ 0 := fun h => hf0 (List.length_eq_zero.mp h)
  simp [cleanStep, hf0, hf1, hf2, hlen]

/-! ### The destination key, spelled out -/

/-- A list that does not begin with a separator loses nothing to `TrimLeft`. -/
theorem dropWhile_head (l : List Char) (h : l.head? ≠ some '/') :
    l.dropWhile (fun c => ['/'].contains c) = l := by
  cases l with
  | nil => rfl
  | cons c cs =>
    have hc : c ≠ '/' := fun hc => h (by simp [hc])
    simp [List.dropWhile, hc]

/-- A list of separators is trimmed away. -/
theorem dropWhile_all (l : List Char) (h : ∀ c ∈ l, c = '/') :
    l.dropWhile (fun c => ['/'].contains c) = [] := by
  rw [List.dropWhile_eq_nil_iff]
  intro c hc
  simp [h c hc]

/-- The function `strings.Trim(s, "/")` takes off the separators in front and at the
end, and nothing else. -/
theorem Trim_slashes (lead mid trail : String)
    (hl : ∀ c ∈ lead.data, c = '/') (ht : ∀ c ∈ trail.data, c = '/')
    (hh : mid.data.head? ≠ some '/') (he : mid.data.getLast? ≠ some '/') :
    Trim (lead ++ mid ++ trail) "/" = mid := by
  apply String.ext
  have hp : ∀ (l : List Char), (∀ c ∈ l, c = '/') →
      ∀ c ∈ l, (fun c => ['/'].contains c) c = true := by
    intro l hl c hc
    simp [hl c hc]
  show trimRightChars ['/'] (trimLeftChars ['/'] (lead ++ mid ++ trail).data) = mid.data
  unfold trimLeftChars
  rw [String.data_append, String.data_append, List.append_assoc,
    List.dropWhile_append_of_pos (hp _ hl)]
  cases hm : mid.data with
  | nil =>
    rw [List.nil_append, dropWhile_all _ ht]
    rfl
  | cons c cs =>
    rw [hm] at hh he
    have hc : c ≠ '/' := fun hc => hh (by simp [hc])
    have hkeep : ((c :: cs) ++ trail.data).dropWhile (fun c => ['/'].contains c) =
        (c :: cs) ++ trail.data := dropWhile_head _ (by simp [hc])
    rw [hkeep]
    unfold trimRightChars
    rw [List.reverse_append,
      List.dropWhile_append_of_pos (hp _ (fun c hc => ht c (List.mem_reverse.mp hc))),
      dropWhile_head _ (by rw [List.head?_reverse]; exact he), List.reverse_reverse]

/-- The base name `filepath.Base(name)` of a name without separator is the name. -/
theorem Base_plain (name : String) (hne : name ≠ "") (h : ∀ c ∈ name.data, c ≠ '/') :
    Base name = name := by
  have hsep : ∀ c ∈ name.data.reverse, isPathSeparator c = false := by
    intro c hc
    simpa [isPathSeparator] using h c (List.mem_reverse.mp hc)
  have hd : name.data ≠ [] := fun hd => hne (String.ext hd)
  unfold Base
  rw [if_neg hne]
  simp only [dropWhile_none _ _ hsep]
  have htake : name.data.reverse.takeWhile (fun c => !isPathSeparator c) = name.data.reverse := by
    rw [List.takeWhile_eq_self_iff]
    intro c hc
    simp [hsep c hc]
  simp [htake, hd]

/-- The uploaded name for `NameFile = D/N.E`, or `N.E` without a directory: `N.webp`
when the picture is compressed, else `N.E`. -/
theorem uploaded_name (dir N E : String) (flag : Prop) [Decidable flag]
    (hdir : dir = "" ∨ ∃ F, dir = F ++ "/")
    (hN : ∀ c ∈ N.data, c ≠ '/') (hE : ∀ c ∈ E.data, c ≠ '/' ∧ c ≠ '.') :
    (if flag then TrimSuffix (Base (dir ++ N ++ "." ++ E)) (Ext (Base (dir ++ N ++ "." ++ E))) ++
        ".webp" else Base (dir ++ N ++ "." ++ E)) =
      N ++ (if flag then ".webp" else "." ++ E) := by
  have hb : Base (dir ++ N ++ "." ++ E) = N ++ "." ++ E := by
    rcases hdir with h0 | ⟨F, hF⟩
    · have he : dir ++ N ++ "." ++ E = N ++ "." ++ E := by rw [h0]; rfl
      rw [he]
      apply Base_plain
      · intro h
        have := congrArg String.data h
        simp [String.data_append] at this
      · intro c hc
        simp only [String.data_append, List.mem_append] at hc
        rcases hc with (hc | hc) | hc
        · exact hN c hc
        · have : c = '.' := by simpa using hc
          rw [this]; decide
        · exact (hE c hc).1
    · rw [hF]
      exact Base_name F N E hN (fun c hc => (hE c hc).1)
  rw [hb, Ext_name N E hE, TrimSuffix_name]
  by_cases hf : flag
  · simp [hf]
  · simp only [hf, if_false]
    apply String.ext
    simp [String.data_append]

/-- C9: the destination key `UploadFileFromPath` uploads to equals
`Trim(opts.Folder, "/") + "/" + name`, where `name` is the base name of
`opts.NameFile` with its extension replaced by `.webp` when `IsCompressToWebp` is
true and unchanged otherwise. Spelled out: when `Folder` is `mid` with separators
in front of it and behind it (and `mid` neither begins nor ends with one), and
`NameFile` is `N.E`, alone or behind a directory, the key is `mid/N.webp` when the
flag is true and `mid/N.E` otherwise. The key therefore depends only on `Folder`,
`NameFile` and the flag: any other call with these three equal, in whatever
surroundings (clock included) and for whatever local path, uploads to the same key;
and all pipeline calls the worker makes for one message have the same options, so
every retry attempt of a job targets the same key. -/
theorem destination_key_deterministic (env : PipelineEnv) (filePath : String)
    (opts : FileUploadOptions) (input : PutObjectInput)
    (h : (UploadFileFromPath env filePath opts).put = some input) :
    input.Key = Trim opts.Folder "/" ++ "/" ++
      (if opts.IsCompressToWebp = some true
        then TrimSuffix (Base opts.NameFile) (Ext (Base opts.NameFile)) ++ ".webp"
        else Base opts.NameFile) ∧
    (∀ lead mid trail dir N E : String, opts.Folder = lead ++ mid ++ trail →
      (∀ c ∈ lead.data, c = '/') → (∀ c ∈ trail.data, c = '/') →
      mid.data.head? ≠ some '/' → mid.data.getLast? ≠ some '/' →
      opts.NameFile = dir ++ N ++ "." ++ E → (dir = "" ∨ ∃ F, dir = F ++ "/") →
      (∀ c ∈ N.data, c ≠ '/') → (∀ c ∈ E.data, c ≠ '/' ∧ c ≠ '.') →
      input.Key = mid ++ "/" ++
        (N ++ (if opts.IsCompressToWebp = some true then ".webp" else "." ++ E))) ∧
    (∀ (env2 : PipelineEnv) (filePath2 : String) (opts2 : FileUploadOptions)
      (input2 : PutObjectInput),
      opts2.Folder = opts.Folder → opts2.NameFile = opts.NameFile →
      (opts2.IsCompressToWebp = some true ↔ opts.IsCompressToWebp = some true) →
      (UploadFileFromPath env2 filePath2 opts2).put = some input2 → input2.Key = input.Key) ∧
    (∀ (unmarshal : String → Except String QueueUploadFile) (r : Responses)
      (files : List String) (msg : Job) (payload : QueueUploadFile) (tmp : String)
      (compress : Bool), ValidMessage unmarshal files msg payload tmp compress →
      ∀ (p1 p2 : String) (o1 o2 : FileUploadOptions) (res1 res2 : GoError),
        Event.uploadFileFromPath p1 o1 res1 ∈ (processMessage unmarshal r files msg).trace →
        Event.uploadFileFromPath p2 o2 res2 ∈ (processMessage unmarshal r files msg).trace →
        ∀ (env1 env2 : PipelineEnv) (input1 input2 : PutObjectInput),
          (UploadFileFromPath env1 p1 o1).put = some input1 →
          (UploadFileFromPath env2 p2 o2).put = some input2 → input1.Key = input2.Key) := by
  refine ⟨(UploadFileFromPath_key env filePath opts input h).1, ?_, ?_, ?_⟩
  · intro lead mid trail dir N E hF hl ht hh he hN hdir hNc hEc
    rw [(UploadFileFromPath_key env filePath opts input h).1, hF,
      Trim_slashes lead mid trail hl ht hh he, hN,
      uploaded_name dir N E (opts.IsCompressToWebp = some true) hdir hNc hEc]
  · intro env2 filePath2 opts2 input2 hF hN hC h2
    rw [(UploadFileFromPath_key env2 filePath2 opts2 input2 h2).1,
      (UploadFileFromPath_key env filePath opts input h).1, hF, hN]
    by_cases hc : opts.IsCompressToWebp = some true
    · simp [hc, hC.mpr hc]
    · have hc2 : ¬ opts2.IsCompressToWebp = some true := fun h' => hc (hC.mp h')
      simp [hc, hc2]
  · intro unmarshal r files msg payload tmp compress hvalid p1 p2 o1 o2 res1 res2 h1 h2
      env1 env2 input1 input2 hp1 hp2
    obtain ⟨-, ho1⟩ := processMessage_uploadArgs unmarshal r files msg payload tmp compress
      hvalid p1 o1 res1 h1
    obtain ⟨-, ho2⟩ := processMessage_uploadArgs unmarshal r files msg payload tmp compress
      hvalid p2 o2 res2 h2
    rw [(UploadFileFromPath_key env1 p1 o1 input1 hp1).1,
      (UploadFileFromPath_key env2 p2 o2 input2 hp2).1, ho1, ho2]

/-- Witness of C9: a pipeline call for the folder `//users/` and the name
`in/avatar.png`, at wall-clock time 1, uploads to `users/avatar.webp`, and so does
the call at any other time; without compression the key is `users/avatar.png`. -/
theorem destination_key_deterministic_witness :
    (UploadFileFromPath (sampleEnv 1) "tmp/job1_1700000000000000000.png"
      { uploadOptions "//users/" "in/avatar.png" with IsCompressToWebp := some true }).put =
      some
        { Bucket := "uts", Key := "users/avatar.webp", Body := [82, 73, 70, 70, 137, 80, 78, 71],
          ContentType := "image/webp", ACL := "public-read" } ∧
    (∀ now input2, (UploadFileFromPath (sampleEnv now) "tmp/job1_1700000000000000000.png"
      { uploadOptions "//users/" "in/avatar.png" with IsCompressToWebp := some true }).put =
        some input2 → input2.Key = "users/avatar.webp") ∧
    ((UploadFileFromPath (sampleEnv 1) "tmp/job1_1700000000000000000.png"
      (uploadOptions "//users/" "in/avatar.png")).put.map (fun i => i.Key)) =
      some "users/avatar.png" :=
  have h := destination_key_deterministic (sampleEnv 1) "tmp/job1_1700000000000000000.png"
    { uploadOptions "//users/" "in/avatar.png" with IsCompressToWebp := some true }
    { Bucket := "uts", Key := "users/avatar.webp", Body := [82, 73, 70, 70, 137, 80, 78, 71],
      ContentType := "image/webp", ACL := "public-read" } (by decide)
  ⟨by decide, fun now input2 h2 =>
    (h.2.2.1 (sampleEnv now) _ _ input2 rfl rfl Iff.rfl h2).trans
      (h.2.1 "//" "users" "/" "in/" "avatar" "png" rfl (by decide) (by decide) (by decide)
        (by decide) rfl (Or.inr ⟨"in", rfl⟩) (by decide) (by decide)),
    by decide⟩

/-! ### Keys of compressed uploads -/

/-- Lower-casing produces a separator only from a separator. -/
theorem toLower_eq_slash (c : Char) (h : c.toLower = '/') : c = '/' := by
  unfold Char.toLower at h
  simp only at h
  split at h
  · rename_i hn
    obtain ⟨h1, h2⟩ := hn
    generalize c.toNat = n at h h1 h2
    exfalso
    interval_cases n <;> exact absurd h (by decide)
  · exact h

/-- A path whose first separator is followed by something else than a separator
does not begin with `http://` or `https://`, in whatever case. -/
theorem not_url (f rest : List Char) (hf : ∀ c ∈ f, c ≠ '/')
    (hrest : ∀ c, rest.head? = some c → c ≠ '/') :
    ("http://".data.isPrefixOf ((f ++ '/' :: rest).map Char.toLower)) = false ∧
    ("https://".data.isPrefixOf ((f ++ '/' :: rest).map Char.toLower)) = false := by
  have hlow : ∀ c, c ≠ '/' → ¬ ('/' = c.toLower) := fun c hc h => hc (toLower_eq_slash c h.symm)
  have hslash : Char.toLower '/' = '/' := by decide
  constructor
  · rcases f with _ | ⟨a1, _ | ⟨a2, _ | ⟨a3, _ | ⟨a4, _ | ⟨a5, _ | ⟨a6, f⟩⟩⟩⟩⟩⟩
    · simp [List.isPrefixOf, hslash]
    · simp [List.isPrefixOf, hslash]
    · simp [List.isPrefixOf, hslash]
    · simp [List.isPrefixOf, hslash]
    · simp [List.isPrefixOf, hslash]
    · cases hrd : rest with
      | nil => simp [List.isPrefixOf, hslash]
      | cons c cs =>
        have := hlow c (hrest c (by simp [hrd]))
        simp [List.isPrefixOf, hslash, this]
    · have := hlow a6 (hf a6 (by simp))
      simp [List.isPrefixOf, this]
  · rcases f with _ | ⟨a1, _ | ⟨a2, _ | ⟨a3, _ | ⟨a4, _ | ⟨a5, _ | ⟨a6, _ | ⟨a7, f⟩⟩⟩⟩⟩⟩⟩
    · simp [List.isPrefixOf, hslash]
    · simp [List.isPrefixOf, hslash]
    · simp [List.isPrefixOf, hslash]
    · simp [List.isPrefixOf, hslash]
    · simp [List.isPrefixOf, hslash]
    · simp [List.isPrefixOf, hslash]
    · cases hrd : rest with
      | nil => simp [List.isPrefixOf, hslash]
      | cons c cs =>
        have := hlow c (hrest c (by simp [hrd]))
        simp [List.isPrefixOf, hslash, this]
    · have := hlow a7 (hf a7 (by simp))
      simp [List.isPrefixOf, this]

/-- A path `F/N.E` with a plain directory name `F` is not a URL. -/
theorem name_not_url (F N E : String) (hF : ∀ c ∈ F.data, c ≠ '/')
    (hN : ∀ c ∈ N.data, c ≠ '/') :
    HasPrefix (ToLower (F ++ "/" ++ N ++ "." ++ E)) "http://" = false ∧
    HasPrefix (ToLower (F ++ "/" ++ N ++ "." ++ E)) "https://" = false := by
  have h := not_url F.data (N.data ++ '.' :: E.data) hF (by
    intro c hc
    cases hn : N.data with
    | nil =>
      rw [hn] at hc
      simp only [List.nil_append, List.head?_cons, Option.some.injEq] at hc
      rw [← hc]; decide
    | cons x xs =>
      rw [hn] at hc
      simp only [List.cons_append, List.head?_cons, Option.some.injEq] at hc
      rw [← hc]
      exact hN x (by simp [hn]))
  have hd : (F ++ "/" ++ N ++ "." ++ E).data = F.data ++ '/' :: (N.data ++ '.' :: E.data) := by
    simp [String.data_append]
  unfold HasPrefix ToLower
  simp only [hd]
  exact h


/-- The folder the worker derives from a path `F/N.E`. -/
theorem ExtractFolder_name (F N E : String) (hF : ∀ c ∈ F.data, c ≠ '/')
    (hF0 : F ≠ "") (hF1 : F ≠ ".") (hF2 : F ≠ "..")
    (hN : ∀ c ∈ N.data, c ≠ '/') (hE : ∀ c ∈ E.data, c ≠ '/') :
    ExtractFolderFromFilePath (F ++ "/" ++ N ++ "." ++ E) = F := by
  obtain ⟨h1, h2⟩ := name_not_url F N E hF hN
  unfold ExtractFolderFromFilePath
  rw [h1, h2]
  simpa using Dir_name F N E hF hF0 hF1 hF2 hN hE

/-- C10, as the code has it: for an upload intent with compression on whose
`FilePath` is `F/N.E` (`F` a plain directory name, `N` and `E` without separator,
`E` without dot), every pipeline call the worker makes that reaches the object store
uploads under the key `F/N.webp`, the name `N` of the intent being kept and no
timestamp generated, with content type `image/webp`; so for `users/avatar.png` the
key is `users/avatar.webp`. -/
theorem compressed_upload_keeps_name (unmarshal : String → Except String QueueUploadFile)
    (r : Responses) (files : List String) (msg : Job) (payload : QueueUploadFile) (tmp : String)
    (F N E : String)
    (hvalid : ValidMessage unmarshal files msg payload tmp true)
    (hpath : payload.FilePath = F ++ "/" ++ N ++ "." ++ E)
    (hF : ∀ c ∈ F.data, c ≠ '/') (hF0 : F ≠ "") (hF1 : F ≠ ".") (hF2 : F ≠ "..")
    (hN : ∀ c ∈ N.data, c ≠ '/') (hE : ∀ c ∈ E.data, c ≠ '/' ∧ c ≠ '.')
    (filePath : String) (opts : FileUploadOptions) (res : GoError)
    (hev : Event.uploadFileFromPath filePath opts res ∈
      (processMessage unmarshal r files msg).trace)
    (env : PipelineEnv) (input : PutObjectInput)
    (hput : (UploadFileFromPath env filePath opts).put = some input) :
    input.Key = F ++ "/" ++ N ++ ".webp" ∧ input.ContentType = "image/webp" := by
  obtain ⟨-, hopts⟩ := processMessage_uploadArgs unmarshal r files msg payload tmp true hvalid
    filePath opts res hev
  obtain ⟨hkey, hct⟩ := UploadFileFromPath_key env filePath opts input hput
  have hE1 : ∀ c ∈ E.data, c ≠ '/' := fun c hc => (hE c hc).1
  have hflag : opts.IsCompressToWebp = some true := by rw [hopts]; rfl
  have hfolder : opts.Folder = F := by
    rw [hopts]
    show ExtractFolderFromFilePath payload.FilePath = F
    rw [hpath]
    exact ExtractFolder_name F N E hF hF0 hF1 hF2 hN hE1
  have hname : opts.NameFile = F ++ "/" ++ N ++ "." ++ E := by rw [hopts]; exact hpath
  refine ⟨?_, hct hflag⟩
  rw [hkey, if_pos hflag, hfolder, hname, Base_name F N E hN hE1, Ext_name N E hE,
    TrimSuffix_name, Trim_plain F hF]
  apply String.ext
  simp [String.data_append]

/-- Witness of C10 as amended: the sample job, whose `FilePath` is
`users/avatar.png`, processed with real pipeline calls. -/
theorem compressed_upload_keeps_name_witness :
    ∃ input, (UploadFileFromPath (sampleEnv 1700000000000000001)
      "tmp/job1_1700000000000000000.png" (jobOptions sampleIntent true)).put = some input ∧
      input.Key = "users/avatar.webp" ∧ input.ContentType = "image/webp" :=
  ⟨{ Bucket := "uts", Key := "users/avatar.webp", Body := [82, 73, 70, 70, 137, 80, 78, 71],
      ContentType := "image/webp", ACL := "public-read" }, by decide,
    compressed_upload_keeps_name sampleUnmarshal
      (pipelineResponses sampleEnv (fun _ _ => none) (fun _ => none) (fun _ => none))
      sampleFiles sampleJob sampleIntent "tmp/job1_1700000000000000000.png"
      "users" "avatar" "png" sample_valid (by decide) (by decide) (by decide) (by decide)
      (by decide) (by decide) (by decide)
      "tmp/job1_1700000000000000000.png" (jobOptions sampleIntent true) none (by decide)
      (sampleEnv 1700000000000000001) _ (by decide)⟩

/-- C10 as stated fails: the sample intent has `FilePath` `users/avatar.png` and
compression on, and its staged file is a decodable image; the one pipeline call the
worker makes uploads it, with content type `image/webp`, under the key
`users/avatar.webp`, which is not of the form `users/<timestamp>.webp`. -/
theorem avatar_key_is_not_a_timestamp :
    sampleIntent.FilePath = "users/avatar.png" ∧
    sampleIntent.IsCompressToWebp = some true ∧
    (processMessage sampleUnmarshal
      (pipelineResponses sampleEnv (fun _ _ => none) (fun _ => none) (fun _ => none))
      sampleFiles sampleJob).trace.filterMap Event.uploadArgs =
      [("tmp/job1_1700000000000000000.png", jobOptions sampleIntent true)] ∧
    (UploadFileFromPath (sampleEnv 1700000000000000001) "tmp/job1_1700000000000000000.png"
      (jobOptions sampleIntent true)).put =
      some
        { Bucket := "uts", Key := "users/avatar.webp", Body := [82, 73, 70, 70, 137, 80, 78, 71],
          ContentType := "image/webp", ACL := "public-read" } ∧
    ¬ IsTimestampKey "users" "users/avatar.webp" := by
  refine ⟨rfl, rfl, by decide, by decide, ?_⟩
  rintro ⟨ds, -, hdigits, h⟩
  have e1 : "users/avatar.webp" = "users" ++ "/" ++ String.mk "avatar".data ++ ".webp" := by
    decide
  rw [e1] at h
  have h2 := congrArg String.data h
  simp only [String.data_append, List.append_cancel_left_eq, List.append_cancel_right_eq] at h2
  have ha : 'a' ∈ ds := by rw [← h2]; decide
  exact absurd (hdigits 'a' ha) (by decide)

/-! ## Folder derivation and deletion by URL -/

/-- Splitting at a separator splits both sides of it. -/
theorem splitOn_append_sep (c : Char) (x y : List Char) :
    (x ++ c :: y).splitOn c = x.splitOn c ++ y.splitOn c := by
  unfold List.splitOn
  induction x with
  | nil => simp [List.splitOnP_cons]
  | cons a x ih =>
    rw [List.cons_append, List.splitOnP_cons, List.splitOnP_cons, ih]
    by_cases ha : (a == c) = true
    · simp [ha]
    · simp only [ha, if_false]
      cases hs : List.splitOnP (fun x => x == c) x with
      | nil => exact absurd hs (List.splitOnP_ne_nil _ _)
      | cons h t => simp [List.modifyHead]

/-- A list without the separator is one segment. -/
theorem splitOn_plain (c : Char) (x : List Char) (hx : ∀ d ∈ x, d ≠ c) :
    x.splitOn c = [x] :=
  List.splitOnP_eq_single _ _ (fun d hd => by simpa using hx d hd)


/-- A scheme that reads `http:` or `https:` in lower case has no separator and does
not contain the storage marker. -/
theorem scheme_plain (scheme : String)
    (hs : ToLower scheme = "http:" ∨ ToLower scheme = "https:") :
    (∀ c ∈ scheme.data, c ≠ '/') ∧ Contains scheme "is3" = false := by
  have hd : scheme.data.map Char.toLower = "http:".data ∨
      scheme.data.map Char.toLower = "https:".data := by
    rcases hs with h | h
    · left; exact congrArg String.data h
    · right; exact congrArg String.data h
  have h3 : Char.toLower '3' = '3' := by decide
  have hsl : Char.toLower '/' = '/' := by decide
  rcases hd with h | h
  · rcases hsd : scheme.data with _ | ⟨a1, _ | ⟨a2, _ | ⟨a3, _ | ⟨a4, _ | ⟨a5, _ | ⟨a6, t⟩⟩⟩⟩⟩⟩ <;>
      rw [hsd] at h <;> simp at h
    obtain ⟨h1, h2, h3', h4, h5⟩ := h
    constructor
    · intro c hc
      simp at hc
      rcases hc with rfl | rfl | rfl | rfl | rfl <;> intro hc' <;> subst hc' <;> simp_all
    · simp only [Contains, hsd]
      simp [List.tails, List.isPrefixOf]
      refine ⟨?_, ?_, ?_⟩ <;> intros <;> subst_vars <;> simp_all
  · rcases hsd : scheme.data with
      _ | ⟨a1, _ | ⟨a2, _ | ⟨a3, _ | ⟨a4, _ | ⟨a5, _ | ⟨a6, _ | ⟨a7, t⟩⟩⟩⟩⟩⟩⟩ <;>
      rw [hsd] at h <;> simp at h
    obtain ⟨h1, h2, h3', h4, h5, h6⟩ := h
    constructor
    · intro c hc
      simp at hc
      rcases hc with rfl | rfl | rfl | rfl | rfl | rfl <;> intro hc' <;> subst hc' <;> simp_all
    · simp only [Contains, hsd]
      simp [List.tails, List.isPrefixOf]
      refine ⟨?_, ?_, ?_, ?_⟩ <;> intros <;> subst_vars <;> simp_all


/-- The parts of a URL `scheme//H/B/F/rest`. -/
theorem url_parts (scheme H B F rest : String)
    (hS : ∀ c ∈ scheme.data, c ≠ '/') (hH : ∀ c ∈ H.data, c ≠ '/')
    (hB : ∀ c ∈ B.data, c ≠ '/') (hF : ∀ c ∈ F.data, c ≠ '/') :
    Split (scheme ++ "//" ++ H ++ "/" ++ B ++ "/" ++ F ++ "/" ++ rest) '/' =
      scheme :: "" :: H :: B :: F :: (rest.data.splitOn '/').map String.mk := by
  have hd : (scheme ++ "//" ++ H ++ "/" ++ B ++ "/" ++ F ++ "/" ++ rest).data =
      scheme.data ++ '/' :: ([] ++ '/' :: (H.data ++ '/' :: (B.data ++ '/' ::
        (F.data ++ '/' :: rest.data)))) := by
    simp [String.data_append]
  unfold Split
  rw [hd, splitOn_append_sep, splitOn_append_sep, splitOn_append_sep, splitOn_append_sep,
    splitOn_append_sep, splitOn_plain _ _ hS, splitOn_plain _ _ hH, splitOn_plain _ _ hB,
    splitOn_plain _ _ hF, splitOn_plain _ [] (by simp)]
  simp

/-- C11: for every `http://` or `https://` URL (in whatever case) of the form
`scheme//H/B/F/rest`, in which the host `H` is the first segment containing the
storage marker `is3`, `B` is the bucket segment and at least one segment (`rest`,
possibly empty or with further separators) follows `F`, `ExtractFolderFromFilePath`
returns `F`, the segment right after the bucket segment; so
`https://is3.example.com/bucket/photos/x.jpg` yields `photos`. -/
theorem url_folder_is_segment_after_bucket (scheme H B F rest : String)
    (hs : ToLower scheme = "http:" ∨ ToLower scheme = "https:")
    (hH : ∀ c ∈ H.data, c ≠ '/') (hmark : Contains H "is3" = true)
    (hB : ∀ c ∈ B.data, c ≠ '/') (hF : ∀ c ∈ F.data, c ≠ '/') :
    ExtractFolderFromFilePath (scheme ++ "//" ++ H ++ "/" ++ B ++ "/" ++ F ++ "/" ++ rest) = F ∧
    ExtractFolderFromFilePath "https://is3.example.com/bucket/photos/x.jpg" = "photos" := by
  refine ⟨?_, by decide⟩
  obtain ⟨hS, hnomark⟩ := scheme_plain scheme hs
  have hurl : (HasPrefix (ToLower (scheme ++ "//" ++ H ++ "/" ++ B ++ "/" ++ F ++ "/" ++ rest))
        "http://" ||
      HasPrefix (ToLower (scheme ++ "//" ++ H ++ "/" ++ B ++ "/" ++ F ++ "/" ++ rest))
        "https://") = true := by
    have hsl : Char.toLower '/' = '/' := by decide
    rcases hs with h | h
    · have h' : scheme.data.map Char.toLower = "http:".data := congrArg String.data h
      simp [HasPrefix, ToLower, String.data_append, h', hsl, List.isPrefixOf]
    · have h' : scheme.data.map Char.toLower = "https:".data := congrArg String.data h
      simp [HasPrefix, ToLower, String.data_append, h', hsl, List.isPrefixOf]
  have hn : (rest.data.splitOn '/').map String.mk ≠ [] := by
    simpa [List.splitOn] using List.splitOnP_ne_nil (fun x => x == '/') rest.data
  have hempty : Contains "" "is3" = false := by decide
  unfold ExtractFolderFromFilePath
  rw [if_pos hurl, url_parts scheme H B F rest hS hH hB hF]
  cases hr : (rest.data.splitOn '/').map String.mk with
  | nil => exact absurd hr hn
  | cons r rs =>
    have hidx : bucketIndexOf (scheme :: "" :: H :: B :: F :: r :: rs) = 3 := by
      simp [bucketIndexOf, List.findIdx?_cons, hnomark, hempty, hmark]
    simp only [hidx]
    have hcond : ((3 : Int) ≠ -1 ∧ (3 : Int) + 1 <
        ((scheme :: "" :: H :: B :: F :: r :: rs).length : Int) - 1) := by
      refine ⟨by decide, ?_⟩
      simp only [List.length_cons]
      push_cast
      omega
    rw [if_pos hcond]
    rfl

/-- Witness of C11: the URL of a seeded alumni picture. -/
theorem url_folder_is_segment_after_bucket_witness :
    ExtractFolderFromFilePath ("HTTPS:" ++ "//" ++ "is3.cloudhost.id" ++ "/" ++ "uts" ++ "/" ++
      "example" ++ "/" ++ "alumni.jpg") = "example" :=
  (url_folder_is_segment_after_bucket "HTTPS:" "is3.cloudhost.id" "uts" "example" "alumni.jpg"
    (Or.inr (by decide)) (by decide) (by decide) (by decide) (by decide)).1


/-- C12: for every input that does not start, in whatever case, with `http://` or
`https://`, `ExtractFolderFromFilePath` returns the parent directory of the path,
`filepath.Dir`; so `/local/dir/file.png` yields `/local/dir` and `users/avatar.png`
yields `users`. -/
theorem local_path_folder_is_dir (filePath : String)
    (h1 : HasPrefix (ToLower filePath) "http://" = false)
    (h2 : HasPrefix (ToLower filePath) "https://" = false) :
    ExtractFolderFromFilePath filePath = Dir filePath ∧
    ExtractFolderFromFilePath "/local/dir/file.png" = "/local/dir" ∧
    ExtractFolderFromFilePath "users/avatar.png" = "users" := by
  refine ⟨?_, by decide, by decide⟩
  unfold ExtractFolderFromFilePath
  simp [h1, h2]

/-- Witness of C12: a rooted local path with a doubled separator and a dot-dot
element, which `filepath.Dir` cleans. -/
theorem local_path_folder_is_dir_witness :
    ExtractFolderFromFilePath "/local//dir/../file.png" = Dir "/local//dir/../file.png" ∧
    Dir "/local//dir/../file.png" = "/local" :=
  ⟨(local_path_folder_is_dir "/local//dir/../file.png" (by decide) (by decide)).1, by decide⟩

/-- C13: with the S3 client initialised, for every file URL whose folder as computed
by `ExtractFolderFromFilePath` is `example`, `DeleteFile` issues no `DeleteObject`
call and returns nil, whatever the bucket and the object store; the seeded example
pictures, such as `https://is3.cloudhost.id/uts/example/logo.png`, are such URLs. -/
theorem example_folder_is_not_deleted (env : PipelineEnv)
    (deleteObject : DeleteObjectInput → GoError) (fileURL : String)
    (hinit : env.initS3 = none) (hfolder : ExtractFolderFromFilePath fileURL = "example") :
    DeleteFile env deleteObject fileURL = { err := none, call := none } ∧
    ExtractFolderFromFilePath EXAMPLE_LOGO = "example" ∧
    ExtractFolderFromFilePath EXAMPLE_ALUMNI = "example" ∧
    ExtractFolderFromFilePath EXAMPLE_THUMBNAIL = "example" ∧
    ExtractFolderFromFilePath EXAMPLE_FACILITIES = "example" := by
  refine ⟨?_, by decide, by decide, by decide, by decide⟩
  unfold DeleteFile
  simp [hinit, hfolder]

/-- Witness of C13: the seeded logo is not deleted, even by an object store that
would fail. -/
theorem example_folder_is_not_deleted_witness :
    DeleteFile (sampleEnv 0) (fun _ => some "AccessDenied")
      "https://is3.cloudhost.id/uts/example/logo.png" = { err := none, call := none } :=
  (example_folder_is_not_deleted (sampleEnv 0) (fun _ => some "AccessDenied")
    "https://is3.cloudhost.id/uts/example/logo.png" rfl (by decide)).1

/-- The characters of the accumulating loop of `String.intercalate`. -/
theorem intercalate_go_data (acc sep : String) (l : List String) :
    (String.intercalate.go acc sep l).data =
      acc.data ++ (l.map (fun a => sep.data ++ a.data)).flatten := by
  induction l generalizing acc with
  | nil => simp [String.intercalate.go]
  | cons a l ih => simp [String.intercalate.go, ih, String.data_append, List.append_assoc]

/-- Interspersing a separator, written with the separator in front of every element
but the first. -/
theorem list_intercalate_cons (sep a : List Char) (l : List (List Char)) :
    sep.intercalate (a :: l) = a ++ (l.map (fun b => sep ++ b)).flatten := by
  induction l generalizing a with
  | nil => simp [List.intercalate]
  | cons b l ih =>
    have h := ih b
    simp only [List.intercalate, List.intersperse, List.flatten_cons, List.map_cons] at h ⊢
    rw [h]
    simp [List.append_assoc]

/-- The characters of `strings.Join`. -/
theorem Join_data (parts : List String) (sep : String) :
    (Join parts sep).data = sep.data.intercalate (parts.map String.data) := by
  cases parts with
  | nil => simp [Join, String.intercalate, List.intercalate]
  | cons a l =>
    rw [List.map_cons, list_intercalate_cons]
    simp [Join, String.intercalate, intercalate_go_data, List.map_map, Function.comp_def]

/-- Joining the parts of a split string gives the string back. -/
theorem Join_split (l : List Char) :
    Join ((l.splitOn '/').map String.mk) "/" = String.mk l := by
  apply String.ext
  rw [Join_data]
  have h : ((l.splitOn '/').map String.mk).map String.data = l.splitOn '/' := by
    simp [List.map_map, Function.comp_def]
  rw [h]
  exact List.intercalate_splitOn l '/'

/-- A successful `UploadFile` call: the client was initialised, the request went to
the configured bucket, and the returned URL is `{endpoint}/{bucket}/{key}`. -/
theorem UploadFile_ok (env : PipelineEnv) (openErr : GoError) (file : Option FileHeader)
    (opts : FileUploadOptions) (input : PutObjectInput) (url : String)
    (h : UploadFile env openErr file opts = { err := none, put := some input, url := some url }) :
    env.initS3 = none ∧ input.Bucket = env.bucket ∧
      url = endpointURL env ++ "/" ++ env.bucket ++ "/" ++ input.Key := by
  unfold UploadFile at h
  cases hi : env.initS3 with
  | some e => simp [hi, PipelineResult.fail] at h
  | none =>
    refine ⟨rfl, ?_⟩
    simp only [hi] at h
    cases file with
    | none => simp [PipelineResult.fail] at h
    | some f =>
      simp only at h
      split at h
      · simp [PipelineResult.fail] at h
      · split at h
        · simp [PipelineResult.fail] at h
        · split at h
          · simp [PipelineResult.fail] at h
          · cases ho : openErr with
            | some e => simp [ho, PipelineResult.fail] at h
            | none =>
              cases hr : env.readErr with
              | some e => simp [ho, hr, PipelineResult.fail] at h
              | none =>
                simp only [ho, hr] at h
                cases he : reencodeUpload env opts f.Content f.ContentType (Base opts.NameFile) with
                | error e => simp [he, PipelineResult.fail] at h
                | ok v =>
                  obtain ⟨data, contentType, filename⟩ := v
                  simp only [he] at h
                  cases hp : env.putObject
                      { Bucket := env.bucket, Key := Trim opts.Folder "/" ++ "/" ++ filename,
                        Body := data, ContentType := contentType, ACL := "public-read" } with
                  | some e => simp [hp] at h
                  | none =>
                    simp only [hp, PipelineResult.mk.injEq, Option.some.injEq, true_and] at h
                    obtain ⟨hin, hurl⟩ := h
                    subst hin
                    exact ⟨rfl, hurl.symm⟩

/-- Dropping a front and one more element. -/
theorem drop_front (xs ys : List String) (b : String) :
    (xs ++ b :: ys).drop (xs.length + 1) = ys := by
  induction xs with
  | nil => rfl
  | cons x xs ih => simp

/-- The parts of a URL `{endpoint}/{bucket}/{key}` for a bucket name without
separator. -/
theorem public_url_parts (E B K : String) (hB : ∀ c ∈ B.data, c ≠ '/') :
    Split (E ++ "/" ++ B ++ "/" ++ K) '/' = Split E '/' ++ B :: Split K '/' := by
  have hd : (E ++ "/" ++ B ++ "/" ++ K).data = E.data ++ '/' :: (B.data ++ '/' :: K.data) := by
    simp [String.data_append]
  unfold Split
  rw [hd, splitOn_append_sep, splitOn_append_sep, splitOn_plain _ _ hB]
  simp

/-- The deletion of an object by its public URL `{endpoint}/{bucket}/{key}`: when
the bucket name has no separator and is no segment of the endpoint, and the folder
derived from the URL is not `example`, `DeleteFile` asks the object store to delete
exactly that key of that bucket. -/
theorem DeleteFile_public_url (env : PipelineEnv) (deleteObject : DeleteObjectInput → GoError)
    (E K : String) (hinit : env.initS3 = none)
    (hB : ∀ c ∈ env.bucket.data, c ≠ '/')
    (hE : ∀ seg ∈ Split E '/', seg ≠ env.bucket)
    (hex : ExtractFolderFromFilePath (E ++ "/" ++ env.bucket ++ "/" ++ K) ≠ "example") :
    (DeleteFile env deleteObject (E ++ "/" ++ env.bucket ++ "/" ++ K)).call =
      some { Bucket := env.bucket, Key := K } ∧
    (DeleteFile env deleteObject (E ++ "/" ++ env.bucket ++ "/" ++ K)).err =
      (deleteObject { Bucket := env.bucket, Key := K }).map
        (fun e => "failed to delete file: " ++ e) := by
  have hparts := public_url_parts E env.bucket K hB
  have hK : Split K '/' ≠ [] := by
    simpa [Split, List.splitOn] using List.splitOnP_ne_nil (fun x => x == '/') K.data
  have hne : E ++ "/" ++ env.bucket ++ "/" ++ K ≠ "" := by
    intro h
    have := congrArg String.data h
    simp [String.data_append] at this
  have hidx : urlBucketIndexOf (Split E '/' ++ env.bucket :: Split K '/') env.bucket =
      ((Split E '/').length : Int) := by
    have hnone : (Split E '/').findIdx? (fun part => decide (part = env.bucket)) = none := by
      rw [List.findIdx?_eq_none_iff]
      intro x hx
      simpa using hE x hx
    simp [urlBucketIndexOf, List.findIdx?_append, hnone, List.findIdx?_cons]
  have hKlen : 1 ≤ (Split K '/').length := by
    cases hk : Split K '/' with
    | nil => exact absurd hk hK
    | cons k ks => simp
  have hlen : ¬ ((Split E '/' ++ env.bucket :: Split K '/').length < 2) := by
    have h1 : (Split E '/' ++ env.bucket :: Split K '/').length =
        (Split E '/').length + ((Split K '/').length + 1) := by simp
    omega
  have hcond : ¬ (((Split E '/').length : Int) = -1 ∨ ((Split E '/').length : Int) ≥
      ((Split E '/' ++ env.bucket :: Split K '/').length : Int) - 1) := by
    have h1 : (Split E '/' ++ env.bucket :: Split K '/').length =
        (Split E '/').length + ((Split K '/').length + 1) := by simp
    omega
  have hkey : Join ((Split E '/' ++ env.bucket :: Split K '/').drop
      (((Split E '/').length : Int) + 1).toNat) "/" = K := by
    have : (((Split E '/').length : Int) + 1).toNat = (Split E '/').length + 1 := by omega
    rw [this, drop_front]
    exact Join_split K.data
  unfold DeleteFile
  simp only [hinit, if_neg hex, if_neg hne, hparts, if_neg hlen, hidx, if_neg hcond, hkey]
  cases hd : deleteObject { Bucket := env.bucket, Key := K } <;> simp [hd]

/-- C14, as the code has it: for every bucket name without separator, every object
key, and every endpoint none of whose segments equals the bucket name, `DeleteFile`
applied to the public URL `{endpoint}/{bucket}/{key}` that `UploadFile` returns for
that object issues `DeleteObject` with exactly that bucket and that key (and returns
nil exactly when the object store accepts it), unless `ExtractFolderFromFilePath` of
that URL, which need not be the folder of the key, is `example`. -/
theorem delete_recovers_uploaded_key (env : PipelineEnv) (openErr : GoError)
    (file : Option FileHeader) (opts : FileUploadOptions) (input : PutObjectInput) (url : String)
    (deleteObject : DeleteObjectInput → GoError)
    (hup : UploadFile env openErr file opts =
      { err := none, put := some input, url := some url })
    (hB : ∀ c ∈ env.bucket.data, c ≠ '/')
    (hE : ∀ seg ∈ Split (endpointURL env) '/', seg ≠ env.bucket)
    (hex : ExtractFolderFromFilePath url ≠ "example") :
    (DeleteFile env deleteObject url).call =
      some { Bucket := input.Bucket, Key := input.Key } ∧
    (DeleteFile env deleteObject url).err =
      (deleteObject { Bucket := input.Bucket, Key := input.Key }).map
        (fun e => "failed to delete file: " ++ e) := by
  obtain ⟨hinit, hbucket, hurl⟩ := UploadFile_ok env openErr file opts input url hup
  rw [hurl] at hex ⊢
  rw [hbucket]
  exact DeleteFile_public_url env deleteObject (endpointURL env) input.Key hinit hB hE hex

/-- Witness of C14 as amended: a picture uploaded to the folder `users` of the bucket
`uts` and deleted by the URL the upload returned. -/
theorem delete_recovers_uploaded_key_witness :
    (DeleteFile (sampleEnv 0) (fun _ => none) "https://is3.cloudhost.id/uts/users/a.png").call =
      some { Bucket := "uts", Key := "users/a.png" } ∧
    (DeleteFile (sampleEnv 0) (fun _ => none) "https://is3.cloudhost.id/uts/users/a.png").err =
      none :=
  delete_recovers_uploaded_key (sampleEnv 0) none (some samplePicture)
    (uploadOptions "/users/" "x/a.png")
    { Bucket := "uts", Key := "users/a.png", Body := [137, 80, 78, 71],
      ContentType := "image/png", ACL := "public-read" }
    "https://is3.cloudhost.id/uts/users/a.png" (fun _ => none)
    (by decide) (by decide) (by decide) (by decide)

/-- C14 as stated fails. A picture is uploaded under the key
`users/example/2024/a.png` to the bucket `is3-media`, which is no segment of the
endpoint `https://s3.amazonaws.com`; `DeleteFile` on the returned URL issues no
`DeleteObject` at all, although the folder of the key is `users/example/2024`. And
with the bucket name `media/public`, again no segment of the endpoint, `DeleteFile`
on the returned URL fails without a `DeleteObject` call. -/
theorem deletion_by_url_misses_uploaded_object :
    UploadFile markedBucketEnv none (some samplePicture)
      (uploadOptions "users/example/2024" "a.png") =
      { err := none
        put := some
          { Bucket := "is3-media", Key := "users/example/2024/a.png",
            Body := [137, 80, 78, 71], ContentType := "image/png", ACL := "public-read" }
        url := some "https://s3.amazonaws.com/is3-media/users/example/2024/a.png" } ∧
    (∀ seg ∈ Split (endpointURL markedBucketEnv) '/', seg ≠ markedBucketEnv.bucket) ∧
    DeleteFile markedBucketEnv (fun _ => none)
      "https://s3.amazonaws.com/is3-media/users/example/2024/a.png" =
      { err := none, call := none } ∧
    UploadFile nestedBucketEnv none (some samplePicture) (uploadOptions "users" "a.png") =
      { err := none
        put := some
          { Bucket := "media/public", Key := "users/a.png",
            Body := [137, 80, 78, 71], ContentType := "image/png", ACL := "public-read" }
        url := some "https://is3.cloudhost.id/media/public/users/a.png" } ∧
    (∀ seg ∈ Split (endpointURL nestedBucketEnv) '/', seg ≠ nestedBucketEnv.bucket) ∧
    DeleteFile nestedBucketEnv (fun _ => none)
      "https://is3.cloudhost.id/media/public/users/a.png" =
      { err := some "could not find valid key in URL", call := none } := by
  refine ⟨?_, ?_, ?_, ?_, ?_, ?_⟩ <;> decide

/-! ## The queue client -/

/-- C15: `ConsumeJob` returns an empty job list with a nil error when the blocking
read times out (`redis.Nil`); but it returns the same, not an error, when the read
fails with any other error and no entries (what the client returns with an error):
the test `len(res) == 0` comes first. Its error branch is taken only for an error
that comes with entries, and on a queue error the worker takes the branch
`no jobs found`, not `failed to consume job`. -/
theorem consume_error_is_swallowed (msg : String) (res : List XStream) (e : RedisError)
    (unmarshal : String → Except String QueueUploadFile) (files : List String)
    (answers : Job → Responses) :
    ConsumeJob [] (some RedisError.Nil) = ([], none) ∧
    ConsumeJob [] (some (RedisError.other msg)) = ([], none) ∧
    ((ConsumeJob res (some e)).2 ≠ none ↔ e ≠ RedisError.Nil ∧ res ≠ []) ∧
    pollOnce unmarshal files (consumed (ConsumeJob [] (some (RedisError.other msg))) answers) =
      { files := files, trace := [Event.log Level.info "no jobs found" []], panicked := false } ∧
    (xReadGroup { entries := [], created := false, delivered := 0, pending := [] }
      "upload_jobs" "worker-1" 10).2.1 = [] := by
  refine ⟨rfl, rfl, ?_, rfl, rfl⟩
  unfold ConsumeJob
  cases e with
  | Nil => simp
  | other m =>
    cases res with
    | nil => simp
    | cons r rs => simp

/-- C16: `InitConsumerGroup` returns nil when the group creation succeeds and also
when it fails with an error containing `BUSYGROUP`, and returns an error for every
other creation failure; hence, against a server that answers the creation of an
existing group with `BUSYGROUP`, calling it twice in a row succeeds both times, and
the second call changes nothing. -/
theorem init_consumer_group_idempotent (e : RedisError) (s : StreamGroup) :
    InitConsumerGroup none = none ∧
    (Contains e.Error "BUSYGROUP" = true → InitConsumerGroup (some e) = none) ∧
    (Contains e.Error "BUSYGROUP" = false → InitConsumerGroup (some e) =
      some (apperror.New "redisx" "InitConsumerGroup" 500 (some e.Error)
        "failed to create consumer group")) ∧
    (initConsumerGroupOn s).1 = none ∧
    (initConsumerGroupOn (initConsumerGroupOn s).2).1 = none ∧
    (initConsumerGroupOn (initConsumerGroupOn s).2).2 = (initConsumerGroupOn s).2 ∧
    (initConsumerGroupOn s).2.created = true := by
  have hbusy : Contains (RedisError.other "BUSYGROUP Consumer Group name already exists").Error
      "BUSYGROUP" = true := by decide
  have hcall : ∀ t : StreamGroup, (initConsumerGroupOn t).1 = none ∧
      (initConsumerGroupOn t).2.created = true ∧
      (t.created = true → (initConsumerGroupOn t).2 = t) := by
    intro t
    unfold initConsumerGroupOn xGroupCreateMkStream
    cases hc : t.created
    · simp [InitConsumerGroup]
    · simp [InitConsumerGroup, hbusy, hc]
  refine ⟨rfl, ?_, ?_, (hcall s).1, (hcall _).1, (hcall _).2.2 (hcall s).2.1, (hcall s).2.1⟩
  · intro h
    simp [InitConsumerGroup, h]
  · intro h
    simp [InitConsumerGroup, h]

/-- C17: acknowledging the same job id twice does not error: a second `AckJob`
call after a first one returns nil, acknowledges nothing and leaves the state of
the stream and of the group as the first call left it; `AckJob` returns an error
only when `XAck` does. -/
theorem ack_twice_is_harmless (s : StreamGroup) (msgID : String) (err : Option RedisError) :
    (ackJobOn s msgID).1 = none ∧
    (ackJobOn (ackJobOn s msgID).2 msgID).1 = none ∧
    (ackJobOn (ackJobOn s msgID).2 msgID).2 = (ackJobOn s msgID).2 ∧
    (xAck (ackJobOn s msgID).2 msgID).2 = 0 ∧
    (AckJob err = none ↔ err = none) := by
  refine ⟨rfl, rfl, ?_, ?_, ?_⟩
  · simp [ackJobOn, xAck, List.filter_filter]
  · simp [ackJobOn, xAck, List.filter_filter]
  · cases err <;> simp [AckJob]

/-! ## Delivery -/

/-- The entries `XREADGROUP` hands out are the first of those not yet delivered. -/
theorem xReadGroup_cases (s : StreamGroup) (stream consumer : String) (count : Int) :
    ((xReadGroup s stream consumer count).2.1 = [] ∧ (xReadGroup s stream consumer count).1 = s) ∨
    ∃ batch k, s.created = true ∧ batch = (s.entries.drop s.delivered).take k ∧
      xReadGroup s stream consumer count =
        ({ s with
            delivered := s.delivered + batch.length
            pending := s.pending ++ batch.map (fun msg => (msg.ID, consumer)) },
          [{ Stream := stream, Messages := batch }], none) := by
  unfold xReadGroup
  by_cases hc : s.created = true
  · simp only [hc, Bool.not_true, Bool.false_eq_true, if_false]
    by_cases hcount : count > 0
    · simp only [hcount, if_true]
      by_cases hb : (s.entries.drop s.delivered).take count.toNat = []
      · left; simp [hb]
      · right
        exact ⟨(s.entries.drop s.delivered).take count.toNat, count.toNat, trivial, rfl,
          by simp [hb]⟩
    · simp only [hcount, if_false]
      by_cases hb : s.entries.drop s.delivered = []
      · left; simp [hb]
      · right
        exact ⟨s.entries.drop s.delivered, (s.entries.drop s.delivered).length, trivial,
          by simp, by simp [hb]⟩
  · left; simp [hc]

/-- Creating a group that exists changes nothing. -/
theorem initConsumerGroupOn_created (s : StreamGroup) (hc : s.created = true) :
    (initConsumerGroupOn s).2 = s := by
  simp [initConsumerGroupOn, xGroupCreateMkStream, hc]

/-- The jobs `ConsumeJob` returns are entries of the stream that had not been
delivered to the group before. -/
theorem consumeJobOn_fresh (s : StreamGroup) (stream consumer : String) (count : Int) (job : Job)
    (h : job ∈ (consumeJobOn s stream consumer count).1.1) :
    ∃ m ∈ s.entries.drop s.delivered, job.ID = m.ID := by
  unfold consumeJobOn at h
  rcases xReadGroup_cases s stream consumer count with ⟨hnil, -⟩ | ⟨batch, k, -, hb, hx⟩
  · simp [hnil, ConsumeJob] at h
  · simp only [hx, ConsumeJob] at h
    simp at h
    obtain ⟨m, hm, rfl⟩ := h
    refine ⟨m, ?_, rfl⟩
    rw [hb] at hm
    exact List.mem_of_mem_take hm

/-- After `ConsumeJob` has returned a job, the group exists, the entry of the job is
among those delivered to the group, and it is pending for the consumer. -/
theorem consumeJobOn_delivered (s : StreamGroup) (stream consumer : String) (count : Int)
    (job : Job) (h : job ∈ (consumeJobOn s stream consumer count).1.1) :
    (consumeJobOn s stream consumer count).2.created = true ∧
    (job.ID, consumer) ∈ (consumeJobOn s stream consumer count).2.pending ∧
    ∃ m ∈ (consumeJobOn s stream consumer count).2.entries.take
      (consumeJobOn s stream consumer count).2.delivered, job.ID = m.ID := by
  unfold consumeJobOn at h ⊢
  rcases xReadGroup_cases s stream consumer count with ⟨hnil, -⟩ | ⟨batch, k, hc, hb, hx⟩
  · simp [hnil, ConsumeJob] at h
  · simp only [hx, ConsumeJob] at h ⊢
    simp at h
    obtain ⟨m, hm, rfl⟩ := h
    refine ⟨hc, ?_, m, ?_, rfl⟩
    · simp only [List.mem_append, List.mem_map]
      right
      exact ⟨m, hm, rfl⟩
    · show m ∈ s.entries.take (s.delivered + batch.length)
      rw [List.take_add, List.mem_append]
      right
      have hpre : (s.entries.drop s.delivered).take batch.length = batch := by
        have h := List.take_append_drop k (s.entries.drop s.delivered)
        rw [← hb] at h
        conv_lhs => rw [← h]
        exact List.take_left' rfl
      rw [hpre]
      exact hm

/-- An entry delivered to an existing group stays among the delivered ones, whatever
the repository calls next on the stream. -/
theorem delivered_stays (stream : String) (m : XMessage) (calls : List QueueCall)
    (s : StreamGroup) (hc : s.created = true) (hm : m ∈ s.entries.take s.delivered) :
    (runCalls stream s calls).created = true ∧
    m ∈ (runCalls stream s calls).entries.take (runCalls stream s calls).delivered := by
  induction calls generalizing s with
  | nil => exact ⟨hc, hm⟩
  | cons call rest ih =>
    have hstep : (QueueCall.apply stream s call).created = true ∧
        m ∈ (QueueCall.apply stream s call).entries.take
          (QueueCall.apply stream s call).delivered := by
      cases call with
      | init =>
        have e : QueueCall.apply stream s QueueCall.init = s := initConsumerGroupOn_created s hc
        rw [e]
        exact ⟨hc, hm⟩
      | add id values =>
        show s.created = true ∧ m ∈ (s.entries ++ _).take s.delivered
        refine ⟨hc, ?_⟩
        rw [List.take_append_eq_append_take]
        exact List.mem_append_left _ hm
      | consume consumer count =>
        show (xReadGroup s stream consumer count).1.created = true ∧
          m ∈ (xReadGroup s stream consumer count).1.entries.take
            (xReadGroup s stream consumer count).1.delivered
        rcases xReadGroup_cases s stream consumer count with ⟨-, hsame⟩ | ⟨batch, k, -, -, hx⟩
        · rw [hsame]; exact ⟨hc, hm⟩
        · rw [hx]
          show s.created = true ∧ m ∈ s.entries.take (s.delivered + batch.length)
          refine ⟨hc, ?_⟩
          rw [List.take_add]
          exact List.mem_append_left _ hm
      | ack msgID => exact ⟨hc, hm⟩
    exact ih _ hstep.1 hstep.2

/-- A pending ID stays pending as long as it is not acknowledged. -/
theorem pending_stays (stream : String) (p : String × String) (calls : List QueueCall)
    (s : StreamGroup) (hc : s.created = true) (hp : p ∈ s.pending)
    (hnoack : ∀ call ∈ calls, call ≠ QueueCall.ack p.1) :
    p ∈ (runCalls stream s calls).pending := by
  induction calls generalizing s with
  | nil => exact hp
  | cons call rest ih =>
    have hrest : ∀ c ∈ rest, c ≠ QueueCall.ack p.1 :=
      fun c hcm => hnoack c (List.mem_cons_of_mem _ hcm)
    have hcall := hnoack call (List.mem_cons_self _ _)
    have hstep : (QueueCall.apply stream s call).created = true ∧
        p ∈ (QueueCall.apply stream s call).pending := by
      cases call with
      | init =>
        have e : QueueCall.apply stream s QueueCall.init = s := initConsumerGroupOn_created s hc
        rw [e]
        exact ⟨hc, hp⟩
      | add id values => exact ⟨hc, hp⟩
      | consume consumer count =>
        show (xReadGroup s stream consumer count).1.created = true ∧
          p ∈ (xReadGroup s stream consumer count).1.pending
        rcases xReadGroup_cases s stream consumer count with ⟨-, hsame⟩ | ⟨batch, k, -, -, hx⟩
        · rw [hsame]; exact ⟨hc, hp⟩
        · rw [hx]
          exact ⟨hc, List.mem_append_left _ hp⟩
      | ack msgID =>
        show s.created = true ∧ p ∈ s.pending.filter _
        refine ⟨hc, List.mem_filter.mpr ⟨hp, ?_⟩⟩
        have : msgID ≠ p.1 := fun h => hcall (by rw [h])
        simpa using fun h => this h.symm
    exact ih _ hstep.1 hstep.2 hrest

/-- C18, as the code has it: a job that `ConsumeJob` has delivered is never
delivered again by a later `ConsumeJob` call on the same stream and group, acknowledged
or not, whatever the repository calls in between (`InitConsumerGroup`, enqueueing,
`ConsumeJob`, `AckJob`): `ConsumeJob` reads with the ID `>`, which hands out only
entries never delivered to the group. A job that is never acknowledged stays in the
pending entries list of the group. (Entry IDs of a stream are distinct.) -/
theorem delivered_job_is_not_redelivered (s : StreamGroup) (stream consumer consumer2 : String)
    (count count2 : Int) (job : Job) (calls : List QueueCall)
    (hjob : job ∈ (consumeJobOn s stream consumer count).1.1)
    (hids : ((runCalls stream (consumeJobOn s stream consumer count).2 calls).entries.map
      XMessage.ID).Nodup) :
    (∀ job2 ∈ (consumeJobOn (runCalls stream (consumeJobOn s stream consumer count).2 calls)
      stream consumer2 count2).1.1, job2.ID ≠ job.ID) ∧
    ((∀ call ∈ calls, call ≠ QueueCall.ack job.ID) →
      (job.ID, consumer) ∈
        (runCalls stream (consumeJobOn s stream consumer count).2 calls).pending) := by
  obtain ⟨hc, hpend, m, hm, hid⟩ := consumeJobOn_delivered s stream consumer count job hjob
  obtain ⟨-, hm2⟩ := delivered_stays stream m calls _ hc hm
  constructor
  · intro job2 hjob2 heq
    obtain ⟨m2, hm2', hid2⟩ := consumeJobOn_fresh _ stream consumer2 count2 job2 hjob2
    rw [← List.take_append_drop
      (runCalls stream (consumeJobOn s stream consumer count).2 calls).delivered
      (runCalls stream (consumeJobOn s stream consumer count).2 calls).entries,
      List.map_append, List.nodup_append] at hids
    have h1 : m.ID ∈ ((runCalls stream (consumeJobOn s stream consumer count).2 calls).entries.take
        (runCalls stream (consumeJobOn s stream consumer count).2 calls).delivered).map
        XMessage.ID := List.mem_map.mpr ⟨m, hm2, rfl⟩
    have h2 : m2.ID ∈ ((runCalls stream (consumeJobOn s stream consumer count).2 calls).entries.drop
        (runCalls stream (consumeJobOn s stream consumer count).2 calls).delivered).map
        XMessage.ID := List.mem_map.mpr ⟨m2, hm2', rfl⟩
    have hne : m.ID ≠ m2.ID := fun h => hids.2.2 h1 (h ▸ h2)
    exact hne (by rw [← hid, ← hid2, heq])
  · intro hnoack
    exact pending_stays stream (job.ID, consumer) calls _ hc hpend hnoack

/-- Witness of C18 as amended: the sample message is delivered once; after a new
message was added and the worker restarted, the next `ConsumeJob` call returns only
the new message, and the sample message is still pending. -/
theorem delivered_job_is_not_redelivered_witness :
    (∀ job2 ∈ (consumeJobOn (runCalls "upload_jobs"
        (consumeJobOn sampleStream "upload_jobs" "worker-1" 10).2
        [QueueCall.add "1700000000001-0" [("id", FieldValue.str "job2")], QueueCall.init])
      "upload_jobs" "worker-1" 10).1.1, job2.ID ≠ sampleJob.ID) ∧
    (sampleJob.ID, "worker-1") ∈ (runCalls "upload_jobs"
      (consumeJobOn sampleStream "upload_jobs" "worker-1" 10).2
      [QueueCall.add "1700000000001-0" [("id", FieldValue.str "job2")], QueueCall.init]).pending :=
  have h := delivered_job_is_not_redelivered sampleStream "upload_jobs" "worker-1" "worker-1"
    10 10 sampleJob
    [QueueCall.add "1700000000001-0" [("id", FieldValue.str "job2")], QueueCall.init]
    (by decide) (by decide)
  ⟨h.1, h.2 (by decide)⟩

/-- C18 as stated fails: the sample message is delivered by a first `ConsumeJob` call
and never acknowledged; the next `ConsumeJob` call on the same stream and group, by the
same consumer, returns no job at all, while the message sits in the pending
entries list. -/
theorem unacked_job_is_not_delivered_again :
    (consumeJobOn sampleStream "upload_jobs" "worker-1" 10).1 = ([sampleJob], none) ∧
    (consumeJobOn (consumeJobOn sampleStream "upload_jobs" "worker-1" 10).2
      "upload_jobs" "worker-1" 10).1 = ([], none) ∧
    (consumeJobOn (consumeJobOn sampleStream "upload_jobs" "worker-1" 10).2
      "upload_jobs" "worker-1" 10).2.pending = [("1700000000000-0", "worker-1")] := by
  refine ⟨?_, ?_, ?_⟩ <;> decide

/-! ## The producer -/

/-- C19, as the code has it: `EnqueueJobFile` fails, writing no staged file and
adding no message to the stream, whenever the inbound file handle is absent (`File`
is nil); the error is the invalid-input error (status 400) once the `tmp` directory
is there. Whether the file is empty is not checked. -/
theorem enqueue_without_file_is_rejected (env : EnqueueEnv) (jobID : String)
    (qf : QueueUploadFile) (hfile : qf.File = none) :
    (EnqueueJobFile env { ID := jobID, Payload := JobPayload.uploadFile qf }).staged = none ∧
    (EnqueueJobFile env { ID := jobID, Payload := JobPayload.uploadFile qf }).added = none ∧
    (EnqueueJobFile env { ID := jobID, Payload := JobPayload.uploadFile qf }).err ≠ none ∧
    (env.mkdirErr = none →
      (EnqueueJobFile env { ID := jobID, Payload := JobPayload.uploadFile qf }).err =
        some (apperror.New "redisx" "EnqueueJobFile" 400 none
          "QueueUploadFile.File cannot be nil")) := by
  unfold EnqueueJobFile
  cases hm : env.mkdirErr <;> simp [hfile]

/-- Witness of C19 as amended: the sample upload without its file. -/
theorem enqueue_without_file_is_rejected_witness :
    (EnqueueJobFile (sampleEnqueueEnv 1700000000000000000)
      { ID := "job1"
        Payload := JobPayload.uploadFile
          { sampleUpload "a.png" [137, 80] with File := none } }).staged = none ∧
    (EnqueueJobFile (sampleEnqueueEnv 1700000000000000000)
      { ID := "job1"
        Payload := JobPayload.uploadFile
          { sampleUpload "a.png" [137, 80] with File := none } }).added = none ∧
    (EnqueueJobFile (sampleEnqueueEnv 1700000000000000000)
      { ID := "job1"
        Payload := JobPayload.uploadFile
          { sampleUpload "a.png" [137, 80] with File := none } }).err =
      some (apperror.New "redisx" "EnqueueJobFile" 400 none
        "QueueUploadFile.File cannot be nil") :=
  have h := enqueue_without_file_is_rejected (sampleEnqueueEnv 1700000000000000000) "job1"
    { sampleUpload "a.png" [137, 80] with File := none } rfl
  ⟨h.1, h.2.1, h.2.2.2 rfl⟩

/-- C19 as stated fails: an upload whose file is present but empty (zero bytes) is
accepted: an empty staged file is written and the message is added to the stream. -/
theorem empty_file_is_enqueued :
    (sampleUpload "empty.png" []).File =
      some { Filename := "empty.png", Size := 0, ContentType := "image/png", Content := [] } ∧
    EnqueueJobFile (sampleEnqueueEnv 1700000000000000000)
      { ID := "job1", Payload := JobPayload.uploadFile (sampleUpload "empty.png" []) } =
      { err := none
        staged := some ("tmp/job1_1700000000000000000.png", [])
        added := some ("upload_jobs", [("id", FieldValue.str "job1"),
          ("payload", FieldValue.str "tmp/job1_1700000000000000000.png")]) } := by
  refine ⟨?_, ?_⟩ <;> decide

/-- What stands before the first occurrence of a character is determined by the list. -/
theorem prefix_before_sep (c : Char) (a b x y : List Char) (ha : ∀ d ∈ a, d ≠ c)
    (hb : ∀ d ∈ b, d ≠ c) (h : a ++ c :: x = b ++ c :: y) : a = b := by
  induction a generalizing b with
  | nil =>
    cases b with
    | nil => rfl
    | cons e b =>
      simp only [List.nil_append, List.cons_append, List.cons.injEq] at h
      exact absurd h.1.symm (hb e (List.mem_cons_self _ _))
  | cons d a ih =>
    cases b with
    | nil =>
      simp only [List.nil_append, List.cons_append, List.cons.injEq] at h
      exact absurd h.1 (ha d (List.mem_cons_self _ _))
    | cons e b =>
      simp only [List.cons_append, List.cons.injEq] at h
      rw [h.1, ih b (fun z hz => ha z (List.mem_cons_of_mem _ hz))
        (fun z hz => hb z (List.mem_cons_of_mem _ hz)) h.2]

/-- The staged file that a call writes is named after the job, the clock and the
extension of the original file name. -/
theorem EnqueueJobFile_staged (env : EnqueueEnv) (job : Job) (name : String) (data : Bytes)
    (h : (EnqueueJobFile env job).staged = some (name, data)) :
    ∃ qf file, job.Payload = JobPayload.uploadFile qf ∧ qf.File = some file ∧
      name = stagedFileName job.ID env.now (Ext file.Filename) ∧ data = file.Content := by
  unfold EnqueueJobFile at h
  cases hm : env.mkdirErr with
  | some e => simp [hm] at h
  | none =>
    simp only [hm] at h
    cases hp : job.Payload with
    | fields m => simp [hp] at h
    | other v => simp [hp] at h
    | uploadFile qf =>
      simp only [hp] at h
      cases hf : qf.File with
      | none => simp [hf] at h
      | some file =>
        refine ⟨qf, file, rfl, hf, ?_⟩
        simp only [hf] at h
        cases ho : env.openErr with
        | some e => simp [ho] at h
        | none =>
          cases hr : env.readErr with
          | some e => simp [ho, hr] at h
          | none =>
            cases hw : env.writeErr with
            | some e => simp [ho, hr, hw] at h
            | none =>
              simp only [ho, hr, hw] at h
              split at h
              · simp only [Option.some.injEq, Prod.mk.injEq] at h
                exact ⟨h.1.symm, h.2.symm⟩
              · split at h <;>
                  · simp only [Option.some.injEq, Prod.mk.injEq] at h
                    exact ⟨h.1.symm, h.2.symm⟩

/-- C20, as the code has it: the staged file name built by `EnqueueJobFile` is `tmp/` +
job id + `_` + decimal Unix-nanosecond timestamp + extension of the original file
name; for any two enqueue calls with different job ids that contain no `_`, the
staged file names differ, whatever the timestamps and the original extensions. -/
theorem staged_names_differ (env1 env2 : EnqueueEnv) (job1 job2 : Job) (name1 name2 : String)
    (data1 data2 : Bytes)
    (h1 : (EnqueueJobFile env1 job1).staged = some (name1, data1))
    (h2 : (EnqueueJobFile env2 job2).staged = some (name2, data2)) :
    (∃ qf file, job1.Payload = JobPayload.uploadFile qf ∧ qf.File = some file ∧
      name1 = "tmp/" ++ job1.ID ++ "_" ++ toString env1.now ++ Ext file.Filename) ∧
    (job1.ID ≠ job2.ID → (∀ c ∈ job1.ID.data, c ≠ '_') → (∀ c ∈ job2.ID.data, c ≠ '_') →
      name1 ≠ name2) := by
  obtain ⟨qf1, file1, hp1, hf1, hn1, -⟩ := EnqueueJobFile_staged env1 job1 name1 data1 h1
  obtain ⟨qf2, file2, -, -, hn2, -⟩ := EnqueueJobFile_staged env2 job2 name2 data2 h2
  refine ⟨⟨qf1, file1, hp1, hf1, hn1⟩, ?_⟩
  intro hne hu1 hu2 heq
  rw [hn1, hn2] at heq
  have hd := congrArg String.data heq
  simp only [stagedFileName, String.data_append] at hd
  have hd2 : job1.ID.data ++ '_' :: ((toString env1.now).data ++ (Ext file1.Filename).data) =
      job2.ID.data ++ '_' :: ((toString env2.now).data ++ (Ext file2.Filename).data) := by
    simpa [List.append_assoc] using hd
  exact hne (String.ext (prefix_before_sep '_' _ _ _ _ hu1 hu2 hd2))

/-- Witness of C20 as amended: two uploads at the same nanosecond, with the same
file name, for the jobs `job1` and `job2`. -/
theorem staged_names_differ_witness :
    (EnqueueJobFile (sampleEnqueueEnv 1700000000000000000)
      { ID := "job1", Payload := JobPayload.uploadFile (sampleUpload "a.png" [137, 80]) }).staged =
      some ("tmp/job1_1700000000000000000.png", [137, 80]) ∧
    (EnqueueJobFile (sampleEnqueueEnv 1700000000000000000)
      { ID := "job2", Payload := JobPayload.uploadFile (sampleUpload "a.png" [137, 80]) }).staged =
      some ("tmp/job2_1700000000000000000.png", [137, 80]) ∧
    "tmp/job1_1700000000000000000.png" ≠ "tmp/job2_1700000000000000000.png" :=
  ⟨by decide, by decide,
    (staged_names_differ (sampleEnqueueEnv 1700000000000000000)
      (sampleEnqueueEnv 1700000000000000000)
      { ID := "job1", Payload := JobPayload.uploadFile (sampleUpload "a.png" [137, 80]) }
      { ID := "job2", Payload := JobPayload.uploadFile (sampleUpload "a.png" [137, 80]) }
      "tmp/job1_1700000000000000000.png" "tmp/job2_1700000000000000000.png" [137, 80] [137, 80]
      (by decide) (by decide)).2 (by decide) (by decide) (by decide)⟩

/-- C20 as stated fails: the jobs `j_5.ab` and `j` have different ids, and the upload
of a file `photo` at nanosecond 1 for the first and of a file `photo.ab_1` at
nanosecond 5 for the second are staged under the same name. -/
theorem staged_names_collide :
    (EnqueueJobFile (sampleEnqueueEnv 1)
      { ID := "j_5.ab", Payload := JobPayload.uploadFile (sampleUpload "photo" [1]) }).staged =
      some ("tmp/j_5.ab_1", [1]) ∧
    (EnqueueJobFile (sampleEnqueueEnv 5)
      { ID := "j", Payload := JobPayload.uploadFile (sampleUpload "photo.ab_1" [2]) }).staged =
      some ("tmp/j_5.ab_1", [2]) := by
  refine ⟨?_, ?_⟩ <;> decide

/-! ## The round trip from the producer to the worker -/

/-- The document of an upload intent decodes to an intent with the same target
path, compression flag, staged file name and old file. -/
theorem ofJSON_toJSON (q : QueueUploadFile) :
    ∃ d, QueueUploadFile.ofJSON q.toJSON = Except.ok d ∧ d.FilePath = q.FilePath ∧
      d.IsCompressToWebp = q.IsCompressToWebp ∧ d.FilePathTmp = q.FilePathTmp ∧
      d.OldFile = q.OldFile := by
  have k1 : ToLower "FilePath" = "filepath" := by decide
  have k2 : ToLower "IsCompressToWebp" = "iscompresstowebp" := by decide
  have k3 : ToLower "File" = "file" := by decide
  have k4 : ToLower "FilePathTmp" = "filepathtmp" := by decide
  have k5 : ToLower "OldFile" = "oldfile" := by decide
  have k6 : ToLower "Filename" = "filename" := by decide
  have k7 : ToLower "Header" = "header" := by decide
  have k8 : ToLower "Size" = "size" := by decide
  obtain ⟨path, compress, file, tmp, old⟩ := q
  cases compress <;> cases file <;> cases tmp <;> cases old <;>
    simp [QueueUploadFile.ofJSON, QueueUploadFile.toJSON, FileHeader.toJSON, decodeMembers,
      decodeUploadMember, decodeFileHeaderMember, JSONValue.ofBoolPtr, JSONValue.ofStringPtr,
      decodeString, decodeInt64, decodeStringPtr, decodeBoolPtr, decodeHeader,
      decodeFileHeaderPtr, decodeContentType, Except.map, k1, k2, k3, k4, k5, k6, k7, k8]

/-- A successful `EnqueueJobFile` call staged the file of the intent under the name
built from job id, clock and extension, encoded the intent with that name in it,
and added a message with the fields `id` and `payload` to the stream `upload_jobs`. -/
theorem EnqueueJobFile_ok (env : EnqueueEnv) (job : Job) (q : QueueUploadFile)
    (hp : job.Payload = JobPayload.uploadFile q) (hok : (EnqueueJobFile env job).err = none) :
    ∃ file jsonStr, q.File = some file ∧
      env.marshal { q with
        FilePathTmp := some (stagedFileName job.ID env.now (Ext file.Filename)) } =
        Except.ok jsonStr ∧
      (EnqueueJobFile env job).staged =
        some (stagedFileName job.ID env.now (Ext file.Filename), file.Content) ∧
      (EnqueueJobFile env job).added =
        some ("upload_jobs", [("id", FieldValue.str job.ID),
          ("payload", FieldValue.str jsonStr)]) := by
  obtain ⟨path, compress, fileOpt, tmp, old⟩ := q
  unfold EnqueueJobFile at hok ⊢
  cases hm : env.mkdirErr with
  | some e => simp [hm] at hok
  | none =>
    simp only [hm, hp] at hok ⊢
    cases fileOpt with
    | none => simp at hok
    | some file =>
      cases ho : env.openErr with
      | some e => simp [ho] at hok
      | none =>
        cases hr : env.readErr with
        | some e => simp [ho, hr] at hok
        | none =>
          cases hw : env.writeErr with
          | some e => simp [ho, hr, hw] at hok
          | none =>
            simp only [ho, hr, hw] at hok ⊢
            cases hj : env.marshal
                { FilePath := path, IsCompressToWebp := compress, File := some file,
                  FilePathTmp := some (stagedFileName job.ID env.now (Ext file.Filename)),
                  OldFile := old } with
            | error e => simp [hj] at hok
            | ok jsonStr =>
              cases hx : env.xaddErr with
              | some e => simp [hj, hx] at hok
              | none => exact ⟨file, jsonStr, rfl, hj, by simp [hj, hx]⟩

/-- C21, as the code has it: for every `QueueUploadFile` accepted by `EnqueueJobFile`,
the stream message it adds carries the fields `id` and `payload`, `payload` is the
JSON text of the intent, and the worker's decode of that text yields an intent with
the same `FilePath`, `IsCompressToWebp` and `OldFile` and with `FilePathTmp` equal to
the staged file name. With the staged file on disk, the worker runs the job when
`IsCompressToWebp` is set, and skips the message at its field validation when
`IsCompressToWebp` is nil, which `EnqueueJobFile` accepts as well. -/
theorem enqueued_intent_round_trip (text : JSONText) (env : EnqueueEnv) (job : Job)
    (q : QueueUploadFile) (name : String) (data : Bytes) (streamID : String)
    (hm : env.marshal = json.Marshal text)
    (hp : job.Payload = JobPayload.uploadFile q)
    (hok : (EnqueueJobFile env job).err = none)
    (hs : (EnqueueJobFile env job).staged = some (name, data))
    (hcodec : text.decode (text.encode ({ q with FilePathTmp := some name }).toJSON) =
      Except.ok ({ q with FilePathTmp := some name }).toJSON) :
    ∃ jsonStr decoded,
      (EnqueueJobFile env job).added =
        some ("upload_jobs", [("id", FieldValue.str job.ID),
          ("payload", FieldValue.str jsonStr)]) ∧
      json.Unmarshal text jsonStr = Except.ok decoded ∧
      decoded.FilePath = q.FilePath ∧
      decoded.IsCompressToWebp = q.IsCompressToWebp ∧
      decoded.OldFile = q.OldFile ∧
      decoded.FilePathTmp = some name ∧
      ∀ (r : Responses) (files : List String), statOk files name = true →
        ∀ msg ∈ (ConsumeJob
            [{ Stream := "upload_jobs"
               Messages :=
                 [{ ID := streamID
                    Values := [("id", FieldValue.str job.ID),
                      ("payload", FieldValue.str jsonStr)] }] }] none).1,
          processMessage (json.Unmarshal text) r files msg =
            match q.IsCompressToWebp with
            | none => skip files "job %s: IsCompressToWebp field missing" [streamID]
            | some compress => runJob r files streamID name decoded compress := by
  obtain ⟨file, jsonStr, _, hj, hst, hadd⟩ := EnqueueJobFile_ok env job q hp hok
  rw [hst] at hs
  simp only [Option.some.injEq, Prod.mk.injEq] at hs
  rw [hs.1, hm] at hj
  simp only [json.Marshal, Except.ok.injEq] at hj
  obtain ⟨d, hd, h1, h2, h3, h4⟩ := ofJSON_toJSON { q with FilePathTmp := some name }
  have hu : json.Unmarshal text jsonStr = Except.ok d := by
    simp [json.Unmarshal, ← hj, hcodec, hd]
  refine ⟨jsonStr, d, hadd, hu, h1, h2, h4, h3, ?_⟩
  intro r files hstat msg hmsg
  simp only [ConsumeJob, List.length_singleton, List.map_cons, List.map_nil] at hmsg
  simp only [reduceCtorEq, one_ne_zero, or_self, if_false, List.mem_singleton] at hmsg
  subst hmsg
  have h3' : d.FilePathTmp = some name := h3
  have h2' : d.IsCompressToWebp = q.IsCompressToWebp := h2
  cases hc : q.IsCompressToWebp with
  | none =>
    rw [hc] at h2'
    simp [processMessage, hu, h3', h2', List.lookup]
  | some compress =>
    rw [hc] at h2'
    simp [processMessage, hu, h3', h2', List.lookup, hstat]

/-- Witness of C21 as amended: the sample intent with its picture, asked to be
re-encoded, is enqueued as job `job1`; the worker decodes it and runs the job. -/
theorem enqueued_intent_round_trip_witness :
    ∃ jsonStr decoded,
      (EnqueueJobFile (codecEnqueueEnv (sampleCodec (some true)) 1700000000000000000)
        { ID := "job1", Payload := JobPayload.uploadFile (sampleRequest (some true)) }).added =
        some ("upload_jobs", [("id", FieldValue.str "job1"),
          ("payload", FieldValue.str jsonStr)]) ∧
      json.Unmarshal (sampleCodec (some true)) jsonStr = Except.ok decoded ∧
      decoded.FilePath = "users/avatar.png" ∧
      decoded.IsCompressToWebp = some true ∧
      decoded.OldFile = some "https://is3.cloudhost.id/uts/users/old.png" ∧
      decoded.FilePathTmp = some "tmp/job1_1700000000000000000.png" :=
  have h := enqueued_intent_round_trip (sampleCodec (some true))
    (codecEnqueueEnv (sampleCodec (some true)) 1700000000000000000)
    { ID := "job1", Payload := JobPayload.uploadFile (sampleRequest (some true)) }
    (sampleRequest (some true)) "tmp/job1_1700000000000000000.png" [137, 80, 78, 71]
    "1700000000000-0" rfl rfl (by decide) (by decide) (by simp [sampleCodec])
  h.imp fun _ hj => hj.imp fun _ hd => ⟨hd.1, hd.2.1, hd.2.2.1, hd.2.2.2.1, hd.2.2.2.2.1,
    hd.2.2.2.2.2.1⟩

/-- C21 as stated fails: an upload intent without `IsCompressToWebp` is accepted by
`EnqueueJobFile`, which stages the file and adds the message; the worker decodes
the message and skips it at its field validation, with the staged file on disk. -/
theorem unset_compress_flag_fails_validation :
    (sampleRequest none).IsCompressToWebp = none ∧
    EnqueueJobFile (codecEnqueueEnv (sampleCodec none) 1700000000000000000)
      { ID := "job1", Payload := JobPayload.uploadFile (sampleRequest none) } =
      { err := none
        staged := some ("tmp/job1_1700000000000000000.png", [137, 80, 78, 71])
        added := some ("upload_jobs", [("id", FieldValue.str "job1"),
          ("payload", FieldValue.str (sampleText none))]) } ∧
    ∀ r : Responses,
      processMessage (json.Unmarshal (sampleCodec none)) r ["tmp/job1_1700000000000000000.png"]
        { ID := "1700000000000-0",
          Payload := JobPayload.fields [("id", FieldValue.str "job1"),
            ("payload", FieldValue.str (sampleText none))] } =
      { files := ["tmp/job1_1700000000000000000.png"]
        trace := [Event.log Level.error "job %s: IsCompressToWebp field missing"
          ["1700000000000-0"]]
        panicked := false } := by
  refine ⟨rfl, by decide, ?_⟩
  intro r
  have k1 : ToLower "FilePath" = "filepath" := by decide
  have k2 : ToLower "IsCompressToWebp" = "iscompresstowebp" := by decide
  have k3 : ToLower "File" = "file" := by decide
  have k4 : ToLower "FilePathTmp" = "filepathtmp" := by decide
  have k5 : ToLower "OldFile" = "oldfile" := by decide
  have k6 : ToLower "Filename" = "filename" := by decide
  have k7 : ToLower "Header" = "header" := by decide
  have k8 : ToLower "Size" = "size" := by decide
  simp [processMessage, List.lookup, json.Unmarshal, sampleCodec, sampleRequest,
    QueueUploadFile.ofJSON, QueueUploadFile.toJSON, FileHeader.toJSON, decodeMembers,
    decodeUploadMember, decodeFileHeaderMember, JSONValue.ofBoolPtr, JSONValue.ofStringPtr,
    decodeString, decodeInt64, decodeStringPtr, decodeBoolPtr, decodeHeader,
    decodeFileHeaderPtr, decodeContentType, Except.map,
    samplePicture, skip, k1, k2, k3, k4, k5, k6, k7, k8]

/-! ## Panics of the worker loop -/

/-- Running a validated job never panics. -/
theorem runJob_no_panic (r : Responses) (files : List String) (jobID tmp : String)
    (payload : QueueUploadFile) (compress : Bool) :
    (runJob r files jobID tmp payload compress).panicked = false := by
  cases hs : (retryLoop r jobID tmp (ExtractFolderFromFilePath payload.FilePath) payload compress
      attempts none).success with
  | false => rw [runJob_of_failure r files jobID tmp payload compress hs]
  | true =>
    rw [runJob_of_success r files jobID tmp payload compress hs]
    show (ackAndCleanup r files jobID tmp).panicked = false
    unfold ackAndCleanup
    cases r.ackJob jobID <;> rfl

/-- A message whose payload is a field map, as `ConsumeJob` builds it, is either
skipped with one log line or, once `FilePathTmp` and `IsCompressToWebp` are known to
be set, run as a job with the values they point to; neither way panics. -/
theorem processMessage_fields (unmarshal : String → Except String QueueUploadFile)
    (r : Responses) (files : List String) (msg : Job) (m : List (String × FieldValue))
    (hm : msg.Payload = JobPayload.fields m) :
    (processMessage unmarshal r files msg).panicked = false ∧
    ((∃ format args, processMessage unmarshal r files msg = skip files format args) ∨
      ∃ payload tmp compress, payload.FilePathTmp = some tmp ∧
        payload.IsCompressToWebp = some compress ∧
        processMessage unmarshal r files msg = runJob r files msg.ID tmp payload compress) := by
  rcases processMessage_cases unmarshal r files msg with ⟨format, args, h⟩ | h | h
  · exact ⟨by rw [h]; rfl, Or.inl ⟨format, args, h⟩⟩
  · exfalso
    cases hl : m.lookup "payload" with
    | none => simp [processMessage, hm, hl, skip] at h
    | some v =>
      cases v with
      | null => simp [processMessage, hm, hl, skip] at h
      | num n => simp [processMessage, hm, hl, skip] at h
      | bool b => simp [processMessage, hm, hl, skip] at h
      | str jsonStr =>
        cases hu : unmarshal jsonStr with
        | error e => simp [processMessage, hm, hl, hu, skip] at h
        | ok payload =>
          cases ht : payload.FilePathTmp with
          | none => simp [processMessage, hm, hl, hu, ht, skip] at h
          | some tmp =>
            cases hc : payload.IsCompressToWebp with
            | none => simp [processMessage, hm, hl, hu, ht, hc, skip] at h
            | some compress =>
              have hp := runJob_no_panic r files msg.ID tmp payload compress
              cases hs : statOk files tmp with
              | false => simp [processMessage, hm, hl, hu, ht, hc, hs, skip] at h
              | true =>
                simp only [processMessage, hm, hl, hu, ht, hc, hs] at h
                simp only [Bool.not_true, Bool.false_eq_true, if_false] at h
                rw [h] at hp
                simp at hp
  · obtain ⟨payload, tmp, compress, ⟨_, _, _, _, _, ht, hc, _⟩, hrun⟩ := h
    exact ⟨by rw [hrun]; exact runJob_no_panic _ _ _ _ _ _,
      Or.inr ⟨payload, tmp, compress, ht, hc, hrun⟩⟩

/-- A batch of messages whose payloads are field maps is processed without a panic. -/
theorem processBatch_no_panic (unmarshal : String → Except String QueueUploadFile)
    (files : List String) (batch : List (Job × Responses))
    (h : ∀ x ∈ batch, ∃ m, x.1.Payload = JobPayload.fields m) :
    (processBatch unmarshal files batch).panicked = false := by
  induction batch generalizing files with
  | nil => rfl
  | cons x rest ih =>
    obtain ⟨msg, r⟩ := x
    obtain ⟨m, hm⟩ := h (msg, r) (List.mem_cons_self _ _)
    have h1 := (processMessage_fields unmarshal r files msg m hm).1
    rw [processBatch_cons unmarshal r files msg rest h1]
    exact ih _ (fun y hy => h y (List.mem_cons_of_mem _ hy))

/-- The jobs that `ConsumeJob` returns carry a field map as payload: the assertion
`msg.Payload.(map[string]any)` of the worker succeeds on each of them. -/
theorem ConsumeJob_fields (res : List XStream) (err : Option RedisError) :
    ∀ job ∈ (ConsumeJob res err).1, ∃ m, job.Payload = JobPayload.fields m := by
  intro job hjob
  unfold ConsumeJob at hjob
  split at hjob
  · simp at hjob
  · cases err with
    | some e => simp at hjob
    | none =>
      cases res with
      | nil => simp at hjob
      | cons first rest =>
        simp only [List.mem_map] at hjob
        obtain ⟨msg, _, rfl⟩ := hjob
        exact ⟨msg.Values, rfl⟩

/-- C22: per-message processing never crashes the worker loop. For every sequence
of answers `(res, err)` that `XReadGroup` gives to the `ConsumeJob` calls of the loop,
every job of every batch carries a field map, so the assertion of `msg.Payload` to
`map[string]any` succeeds; every message is either skipped with a log line or run
with the values of `FilePathTmp` and `IsCompressToWebp`, which are read only once
both are known to be set; and the loop does not panic, whatever the messages hold. -/
theorem consumed_batches_never_panic (unmarshal : String → Except String QueueUploadFile)
    (answers : Job → Responses) (files : List String)
    (polls : List (List XStream × Option RedisError)) :
    (∀ p ∈ polls, ∀ job ∈ (ConsumeJob p.1 p.2).1, ∃ m, job.Payload = JobPayload.fields m) ∧
    (∀ p ∈ polls, ∀ job ∈ (ConsumeJob p.1 p.2).1, ∀ (r : Responses) (disk : List String),
      (∃ format args, processMessage unmarshal r disk job = skip disk format args) ∨
      ∃ payload tmp compress, payload.FilePathTmp = some tmp ∧
        payload.IsCompressToWebp = some compress ∧
        processMessage unmarshal r disk job = runJob r disk job.ID tmp payload compress) ∧
    (workerLoop unmarshal files
      (polls.map (fun p => consumed (ConsumeJob p.1 p.2) answers))).panicked = false := by
  refine ⟨fun p _ => ConsumeJob_fields p.1 p.2, ?_, ?_⟩
  · intro p _ job hjob r disk
    obtain ⟨m, hm⟩ := ConsumeJob_fields p.1 p.2 job hjob
    exact (processMessage_fields unmarshal r disk job m hm).2
  · induction polls generalizing files with
    | nil => rfl
    | cons p rest ih =>
      have hp : (pollOnce unmarshal files (consumed (ConsumeJob p.1 p.2) answers)).panicked
          = false := by
        rcases pollOnce_cases unmarshal files (consumed (ConsumeJob p.1 p.2) answers) with
          ⟨level, format, args, h⟩ | ⟨batch, hb, h⟩
        · rw [h]
        · rw [h]
          apply processBatch_no_panic
          intro x hx
          unfold consumed at hb
          split at hb
          · simp at hb
          · simp only [Except.ok.injEq] at hb
            rw [← hb] at hx
            simp only [List.mem_map] at hx
            obtain ⟨job, hjob, rfl⟩ := hx
            exact ConsumeJob_fields p.1 p.2 job hjob
      rw [List.map_cons, workerLoop_cons unmarshal files _ _ hp]
      exact ih _

/-! ## The error of the final failure log -/

/-- The value of `err` after the `OldFile` block of a failed attempt: the result of
`DeleteFile` when `OldFile` is set, the error of the pipeline call otherwise. -/
theorem deleteOldFile_err (r : Responses) (jobID : String) (payload : QueueUploadFile)
    (attempt : Nat) (err : GoError) :
    (deleteOldFile r jobID payload attempt err).1 =
      match payload.OldFile with
      | some old => r.deleteFile attempt old
      | none => err := by
  unfold deleteOldFile
  cases payload.OldFile with
  | none => rfl
  | some old => cases hd : r.deleteFile attempt old <;> simp [hd]

/-- After five failed attempts `lastErr` holds the value that `err` had at the end
of the fifth attempt. -/
theorem retryLoop_lastErr (r : Responses) (jobID tmp folder : String)
    (payload : QueueUploadFile) (compress : Bool)
    (hfail : ∀ k ∈ attempts, r.upload k tmp (pipelineOptions folder payload compress) ≠ none) :
    (retryLoop r jobID tmp folder payload compress attempts none).lastErr =
      (deleteOldFile r jobID payload 5
        (r.upload 5 tmp (pipelineOptions folder payload compress))).1 := by
  have hsplit : attempts = [1, 2, 3, 4] ++ [5] := rfl
  rw [hsplit, retryLoop_append r jobID tmp folder payload compress [1, 2, 3, 4] [5] none
    (fun k hk => hfail k (by simp only [attempts]; simp at hk ⊢; omega))]
  cases hu : r.upload 5 tmp (pipelineOptions folder payload compress) with
  | none => exact absurd hu (hfail 5 (by simp [attempts]))
  | some e =>
    simp only []
    rw [retryLoop_cons_fail _ _ _ _ _ _ _ _ _ e hu]
    simp [retryLoop]

/-- C23, as the code has it: after 5 failed pipeline attempts the worker ends the
message with the final failure log, and the error that log reports is the value of
`err` at the end of the fifth attempt. For a job without `OldFile` that is the error
returned by the fifth `UploadFileFromPath` call. For a job with `OldFile` set it is
what the fifth `DeleteFile` call returned, which overwrote the pipeline error:
`<nil>` when the deletion succeeded. -/
theorem final_log_reports_overwritten_error
    (unmarshal : String → Except String QueueUploadFile) (r : Responses) (files : List String)
    (msg : Job) (payload : QueueUploadFile) (tmp : String) (compress : Bool)
    (hvalid : ValidMessage unmarshal files msg payload tmp compress)
    (hfail : ∀ k ∈ attempts, r.upload k tmp (jobOptions payload compress) ≠ none) :
    ∃ before, (processMessage unmarshal r files msg).trace = before ++
      [Event.log Level.error "job %s: failed to upload file after 5 attempts: %v"
        [msg.ID, fmtErr (match payload.OldFile with
          | some old => r.deleteFile 5 old
          | none => r.upload 5 tmp (jobOptions payload compress))]] := by
  simp only [jobOptions] at hfail ⊢
  obtain ⟨hs, -⟩ := retryLoop_all_fail r msg.ID tmp
    (ExtractFolderFromFilePath payload.FilePath) payload compress attempts none hfail
  rw [processMessage_valid unmarshal r files msg payload tmp compress hvalid,
    runJob_of_failure r files msg.ID tmp payload compress hs,
    retryLoop_lastErr r msg.ID tmp _ payload compress hfail, deleteOldFile_err]
  exact ⟨_, (List.cons_append _ _ _).symm⟩

/-- The sample job, whose `OldFile` is set, with a pipeline that never succeeds,
every attempt failing with `failed to upload file`, and an object store that
deletes the old file each time: the final failure log reports the error `<nil>`. -/
theorem final_log_reports_overwritten_error_witness :
    ∃ before, (processMessage sampleUnmarshal (alwaysFailing none) sampleFiles sampleJob).trace =
      before ++ [Event.log Level.error "job %s: failed to upload file after 5 attempts: %v"
        ["1700000000000-0", "<nil>"]] :=
  final_log_reports_overwritten_error sampleUnmarshal (alwaysFailing none) sampleFiles sampleJob
    sampleIntent "tmp/job1_1700000000000000000.png" true sample_valid
    (fun k _ => by simp [alwaysFailing])

/-! ## The error handler -/

/-- The last step of the handler sends no stack trace outside `dev` mode. -/
theorem respondLogged_prod (ctx : HandlerCtx) (statusCode : Int) (message : String)
    (henv : ctx.Env ≠ "dev") :
    (respondLogged ctx statusCode message).Data.member "stack" = none := by
  unfold respondLogged
  simp only [henv, if_false]
  simp [response.Json, JSONValue.member, List.lookup]

/-- C24, as the code has it: in production mode (`Env` other than `dev`) the handler
sends no stack trace for an error that is not an `*apperror.AppError`, and none for an
`AppError` of status 422 or with an empty `Stack`; for any other `AppError` the
data of the response is the error itself, and its member `stack` holds the `Stack`
the error was created with. -/
theorem app_error_stack_reaches_client (ctx : HandlerCtx) (henv : ctx.Env ≠ "dev") :
    (∀ err resp, (∀ e, err ≠ HandledError.appError e) → ErrorHandlerFunc ctx err = some resp →
      resp.Data.member "stack" = none) ∧
    (∀ e resp, (e.StatusCode = 422 ∨ e.Stack = "") →
      ErrorHandlerFunc ctx (HandledError.appError e) = some resp →
      resp.Data.member "stack" = none) ∧
    (∀ e, e.StatusCode ≠ 422 → e.Stack ≠ "" →
      ∃ resp, ErrorHandlerFunc ctx (HandledError.appError e) = some resp ∧
        resp.StatusCode = e.StatusCode ∧
        resp.Data.member "stack" = some (JSONValue.string e.Stack)) := by
  refine ⟨?_, ?_, ?_⟩
  · intro err resp hne h
    cases err with
    | appError e => exact absurd rfl (hne e)
    | requestEntityTooLarge =>
      simp only [ErrorHandlerFunc, Option.some.injEq] at h
      rw [← h]; rfl
    | sqlNoRows =>
      simp only [ErrorHandlerFunc, Option.some.injEq] at h
      rw [← h]; rfl
    | recordNotFound =>
      simp only [ErrorHandlerFunc, Option.some.injEq] at h
      rw [← h]; rfl
    | pgError code detail message =>
      simp only [ErrorHandlerFunc] at h
      split at h
      · simp only [Option.map_eq_some'] at h
        obtain ⟨m, _, hm⟩ := h
        rw [← hm]; rfl
      · simp only [Option.some.injEq] at h
        rw [← h]; rfl
    | fiberError code message =>
      simp only [ErrorHandlerFunc] at h
      split at h
      · simp only [Option.some.injEq] at h
        rw [← h]; rfl
      · simp only [Option.some.injEq] at h
        rw [← h]
        exact respondLogged_prod ctx _ _ henv
    | other message =>
      simp only [ErrorHandlerFunc] at h
      split at h
      · simp only [Option.some.injEq] at h
        rw [← h]; rfl
      · simp only [Option.some.injEq] at h
        rw [← h]
        exact respondLogged_prod ctx _ _ henv
  · intro e resp hcase h
    simp only [ErrorHandlerFunc] at h
    split at h
    · simp only [Option.some.injEq] at h
      rw [← h]
      cases e.Detail <;> rfl
    · rename_i h422
      have hs : e.Stack = "" := hcase.resolve_left h422
      simp only [Option.some.injEq] at h
      rw [← h]
      cases hd : e.Detail <;>
        simp [response.Json, AppError.toJSON, JSONValue.member, List.lookup, hs, hd]
  · intro e h422 hs
    refine ⟨response.Json e.StatusCode e.toJSON e.Message, by simp [ErrorHandlerFunc, h422],
      rfl, ?_⟩
    cases hd : e.Detail <;>
      simp [response.Json, AppError.toJSON, JSONValue.member, List.lookup, hs, hd]

/-- The failing input of C24: in production mode, the error of `validator.StringToInt`
(status 400, made with `debug.Stack()`) is answered with its stack trace in the
data of the response. -/
theorem app_error_stack_reaches_client_witness :
    prodCtx.Env ≠ "dev" ∧
    ∃ resp, ErrorHandlerFunc prodCtx (HandledError.appError invalidIntError) = some resp ∧
      resp.StatusCode = 400 ∧
      resp.Data.member "stack" = some (JSONValue.string
        "goroutine 7 [running]: template-golang/pkg/validator.StringToInt") :=
  ⟨by decide,
    (app_error_stack_reaches_client prodCtx (by decide)).2.2 invalidIntError (by decide)
      (by decide)⟩

/-! ## The message for a unique violation -/

/-- The first occurrence of a separator is behind a stretch that does not contain it,
when the first character of the separator occurs nowhere else in it. -/
theorem indexOf_first (c : Char) (rest pre more : List Char) (hc : c ∉ rest)
    (hpre : pre.tails.any (fun t => (c :: rest).isPrefixOf t) = false) :
    indexOf (c :: rest) (pre ++ ((c :: rest) ++ more)) = some pre.length := by
  induction pre with
  | nil =>
    have h : (c :: rest).isPrefixOf ((c :: rest) ++ more) = true :=
      List.isPrefixOf_iff_prefix.mpr (List.prefix_append _ _)
    simp only [List.nil_append, List.length_nil]
    simp only [List.cons_append] at h ⊢
    simp [indexOf, h]
  | cons d pre ih =>
    rw [List.tails_cons, List.any_cons, Bool.or_eq_false_iff] at hpre
    obtain ⟨hhead, htail⟩ := hpre
    have hi := ih htail
    have hnot : (c :: rest).isPrefixOf ((d :: pre) ++ ((c :: rest) ++ more)) = false := by
      rw [Bool.eq_false_iff]
      intro hp
      rw [List.isPrefixOf_iff_prefix] at hp
      have hL : (d :: pre) <+: (d :: pre) ++ ((c :: rest) ++ more) := List.prefix_append _ _
      by_cases hlen : (c :: rest).length ≤ (d :: pre).length
      · have hsub := List.prefix_of_prefix_length_le hp hL hlen
        rw [← List.isPrefixOf_iff_prefix] at hsub
        rw [hsub] at hhead
        exact absurd hhead (by simp)
      · obtain ⟨u, hu⟩ := List.prefix_of_prefix_length_le hL hp (by omega)
        obtain ⟨w, hw⟩ := hp
        have hw2 : (d :: pre) ++ (u ++ w) = (d :: pre) ++ ((c :: rest) ++ more) := by
          rw [← List.append_assoc, hu]
          exact hw
        have huw := List.append_cancel_left hw2
        have hul : (d :: pre).length + u.length = (c :: rest).length := by
          rw [← List.length_append, hu]
        cases u with
        | nil =>
          simp only [List.length_nil] at hul
          omega
        | cons x u2 =>
          have hx : x = c := by
            simp only [List.cons_append, List.cons.injEq] at huw
            exact huw.1
          rw [hx] at hu
          simp only [List.cons_append, List.cons.injEq] at hu
          exact hc (by rw [← hu.2]; simp)
    simp only [List.cons_append] at hi hnot ⊢
    simp [indexOf, hnot, hi]

/-- A string that is not empty has a character. -/
theorem data_ne_nil (s : String) (h : s ≠ "") : s.data ≠ [] := by
  intro hd
  apply h
  cases s
  simp only at hd
  rw [hd]

/-- A prefix is recognised, and taken off by `TrimPrefix`. -/
theorem TrimPrefix_append (pre x : String) :
    HasPrefix (pre ++ x) pre = true ∧ TrimPrefix (pre ++ x) pre = x := by
  have h : HasPrefix (pre ++ x) pre = true := by
    simp only [HasPrefix, String.data_append]
    exact List.isPrefixOf_iff_prefix.mpr (List.prefix_append _ _)
  refine ⟨h, ?_⟩
  simp only [TrimPrefix, h, if_true, String.data_append]
  have hl : pre.length = pre.data.length := rfl
  rw [hl, List.drop_left']
  rfl

/-- Column and value of a detail of the documented form, when the column does not
contain `)=(` and the value does not contain `) already exists.`. -/
theorem uniqueViolationParts_plain (column value : String)
    (hc : Contains column ")=(" = false) (hv : Contains value ") already exists." = false) :
    uniqueViolationParts ("Key (" ++ (column ++ ")=(" ++ value ++ ") already exists.")) =
      (TrimPrefix column "uk_", value) := by
  have hk := TrimPrefix_append "Key (" (column ++ ")=(" ++ value ++ ") already exists.")
  have h1 : indexOf ")=(".data (column ++ ")=(" ++ value ++ ") already exists.").data =
      some column.data.length := by
    have := indexOf_first ')' ['=', '('] column.data
      (value.data ++ ") already exists.".data) (by decide) hc
    simp only [String.data_append, List.append_assoc]
    exact this
  have h2 : indexOf ") already exists.".data (value ++ ") already exists.").data =
      some value.data.length := by
    have := indexOf_first ')' " already exists.".data value.data [] (by decide) hv
    simp only [String.data_append]
    simpa using this
  have hsplit : SplitN (column ++ ")=(" ++ value ++ ") already exists.") ")=(" 2 =
      [column, value ++ ") already exists."] := by
    have hlen : ")=(".data.length = 3 := by decide
    simp only [SplitN, show ¬ ((2 : Int) < 0) by decide, if_false,
      show (2 : Int).toNat = 0 + 2 by decide, splitUpTo, h1, hlen]
    simp only [String.data_append, List.append_assoc, List.take_left', List.map_cons,
      List.map_nil]
    have hdrop : ∀ (l rest : List Char) (a b c : Char),
        List.drop (l.length + 3) (l ++ ([a, b, c] ++ rest)) = rest := by
      intro l rest a b c
      rw [List.drop_append]
      rfl
    rw [hdrop]
    rfl
  unfold uniqueViolationParts
  simp only [hk.1, hk.2, if_true, hsplit, List.length_cons, List.length_nil, List.getD_cons_zero,
    List.getD_cons_succ]
  simp only [Index, h2]
  have hne : ((value.data.length : Nat) : Int) ≠ -1 := by omega
  simp only [Nat.reduceAdd, if_true, ne_eq, hne, not_false_eq_true, Int.toNat_ofNat,
    String.data_append, List.take_left' rfl]

/-- A rune has at least one byte. -/
theorem encodeRune_ne_nil (c : Char) : encodeRune c ≠ [] := by
  unfold encodeRune
  split_ifs <;> simp

/-- A word that is not empty has a first byte, so `FormatWord` does not panic on it. -/
theorem FormatWord_some (t : CaseTables) (word : String) (h : word ≠ "") :
    FormatWord t word =
      some (strings.ToUpper t ((stringBytes word).take 1) ++
        strings.ToLower t ((stringBytes word).drop 1)) := by
  have hd := data_ne_nil word h
  have hlen : ¬ (stringBytes word).length < 1 := by
    unfold stringBytes
    cases hw : word.data with
    | nil => exact absurd hw hd
    | cons c rest =>
      have hc := encodeRune_ne_nil c
      rw [List.flatMap_cons, List.length_append]
      cases he : encodeRune c with
      | nil => exact absurd he hc
      | cons b bs => simp
  unfold FormatWord
  rw [if_neg hlen]

/-- The bytes of a text of ASCII characters are its characters. -/
theorem stringBytes_ascii (l : List Char) (h : ∀ c ∈ l, c.toNat < 128) :
    stringBytes ⟨l⟩ = l.map Char.toNat := by
  unfold stringBytes
  induction l with
  | nil => rfl
  | cons c l ih =>
    have hc : c.toNat < 128 := h c (List.mem_cons_self _ _)
    rw [List.flatMap_cons, List.map_cons, ih (fun d hd => h d (List.mem_cons_of_mem _ hd))]
    simp [encodeRune, hc]

/-- On a word of ASCII characters `FormatWord` puts the first character in upper
case and the others in lower case, whatever the case tables. -/
theorem FormatWord_ascii (t : CaseTables) (c : Char) (rest : List Char) (hc : c.toNat < 128)
    (hrest : ∀ d ∈ rest, d.toNat < 128) :
    FormatWord t ⟨c :: rest⟩ = some ⟨c.toUpper :: rest.map Char.toLower⟩ := by
  have hne : (⟨c :: rest⟩ : String) ≠ "" := by
    intro h
    have := congrArg String.data h
    simp at this
  have hb := stringBytes_ascii (c :: rest) (by
    intro d hd
    rcases List.mem_cons.mp hd with rfl | hd
    · exact hc
    · exact hrest d hd)
  rw [FormatWord_some t _ hne, hb]
  simp only [List.map_cons, List.take_succ_cons, List.take_zero, List.drop_succ_cons,
    List.drop_zero]
  have hup : strings.ToUpper t [c.toNat] = ⟨[c.toUpper]⟩ := by
    unfold strings.ToUpper
    simp only [List.all_cons, List.all_nil, Bool.and_true, decide_eq_true_eq]
    rw [if_pos hc]
    simp only [List.map_cons, List.map_nil, Char.toUpper]
    congr 2
    by_cases hl : 97 ≤ c.toNat ∧ c.toNat ≤ 122
    · simp [hl]
    · simp [hl, Char.ofNat_toNat]
  have hlow : strings.ToLower t (rest.map Char.toNat) = ⟨rest.map Char.toLower⟩ := by
    unfold strings.ToLower
    have hall : (rest.map Char.toNat).all (fun c => decide (c < 128)) = true := by
      rw [List.all_eq_true]
      intro x hx
      obtain ⟨d, hd, rfl⟩ := List.mem_map.mp hx
      simpa using hrest d hd
    rw [if_pos hall]
    congr 1
    rw [List.map_map]
    apply List.map_congr_left
    intro d _
    simp only [Function.comp_apply, Char.toLower]
    by_cases hl : 65 ≤ d.toNat ∧ d.toNat ≤ 90
    · simp [hl]
    · simp [hl, Char.ofNat_toNat]
  rw [hup, hlow]
  rfl

/-- The word formatter is only called on a column that is not empty, so the
message of a unique violation is always there. -/
theorem uniqueViolationMessage_some (t : CaseTables) (detail : String) :
    ∃ m, uniqueViolationMessage t detail = some m := by
  unfold uniqueViolationMessage
  by_cases h : (uniqueViolationParts detail).1 ≠ "" ∧ (uniqueViolationParts detail).2 ≠ ""
  · simp [FormatWord_some t _ h.1, h.1, h.2]
  · exact ⟨detail, by simp only [h, if_false]⟩

/-- C25, as the code has it: for a PostgreSQL unique-violation error (code 23505)
whose detail is `Key (<column>)=(<value>) already exists.`, with a column that does
not contain `)=(`, a value that does not contain `) already exists.`, a value that is
not empty and a column that is not empty once a leading `uk_` is taken off,
`ErrorHandlerFunc` responds with status 409 and the message
`FormatWord(column without a leading uk_) + " '" + value + "' already exists"`; on a
word of ASCII characters `FormatWord` gives the first character in upper case and the
others in lower case. For every detail the status is 409, the handler does not panic
(`FormatWord` is never called on an empty string), and when the column or the value
it extracts is empty the message is the raw detail. -/
theorem unique_violation_message (ctx : HandlerCtx) (pgMessage : String) :
    (∀ column value : String, Contains column ")=(" = false →
      Contains value ") already exists." = false →
      TrimPrefix column "uk_" ≠ "" → value ≠ "" →
      ∃ word, FormatWord ctx.caseTables (TrimPrefix column "uk_") = some word ∧
        (ErrorHandlerFunc ctx (HandledError.pgError "23505"
          ("Key (" ++ (column ++ ")=(" ++ value ++ ") already exists.")) pgMessage)).map
          (fun resp => (resp.StatusCode, resp.Message)) =
          some (409, word ++ " '" ++ value ++ "' already exists")) ∧
    (∀ (c : Char) (rest : List Char), c.toNat < 128 → (∀ d ∈ rest, d.toNat < 128) →
      FormatWord ctx.caseTables ⟨c :: rest⟩ = some ⟨c.toUpper :: rest.map Char.toLower⟩) ∧
    (∀ detail, ∃ m,
      (ErrorHandlerFunc ctx (HandledError.pgError "23505" detail pgMessage)).map
        (fun resp => (resp.StatusCode, resp.Message)) = some (409, m)) ∧
    (∀ detail, (uniqueViolationParts detail).1 = "" ∨ (uniqueViolationParts detail).2 = "" →
      (ErrorHandlerFunc ctx (HandledError.pgError "23505" detail pgMessage)).map
        (fun resp => (resp.StatusCode, resp.Message)) = some (409, detail)) := by
  refine ⟨?_, ?_, ?_, ?_⟩
  · intro column value hc hv hcol hval
    refine ⟨_, FormatWord_some ctx.caseTables _ hcol, ?_⟩
    simp [ErrorHandlerFunc, uniqueViolationMessage, uniqueViolationParts_plain column value hc hv,
      hcol, hval, FormatWord_some ctx.caseTables _ hcol, response.Json]
  · intro c rest hc hrest
    exact FormatWord_ascii ctx.caseTables c rest hc hrest
  · intro detail
    obtain ⟨m, hm⟩ := uniqueViolationMessage_some ctx.caseTables detail
    exact ⟨m, by simp [ErrorHandlerFunc, hm, response.Json]⟩
  · intro detail hempty
    have hm : uniqueViolationMessage ctx.caseTables detail = some detail := by
      unfold uniqueViolationMessage
      rw [if_neg]
      intro h
      rcases hempty with h1 | h2
      · exact h.1 h1
      · exact h.2 h2
    simp [ErrorHandlerFunc, hm, response.Json]

/-- Witness of C25 as amended: a repeated email under the unique key `uk_email`; a
value that holds a closing bracket; and a column that begins with `é`, whose first
byte alone and second byte alone are read as U+FFFD. -/
theorem unique_violation_message_witness :
    (ErrorHandlerFunc prodCtx (HandledError.pgError "23505"
      "Key (uk_email)=(ana@example.com) already exists." "duplicate key value")).map
      (fun resp => (resp.StatusCode, resp.Message)) =
      some (409, "Email 'ana@example.com' already exists") ∧
    (ErrorHandlerFunc prodCtx (HandledError.pgError "23505"
      "Key (email)=(a)b) already exists." "duplicate key value")).map
      (fun resp => (resp.StatusCode, resp.Message)) =
      some (409, "Email 'a)b' already exists") ∧
    (ErrorHandlerFunc prodCtx (HandledError.pgError "23505"
      "Key (école)=(x) already exists." "duplicate key value")).map
      (fun resp => (resp.StatusCode, resp.Message)) =
      some (409, "\uFFFD\uFFFDcole 'x' already exists") ∧
    FormatWord prodCtx.caseTables "AÉ" = some "Aé" := by
  have h := unique_violation_message prodCtx "duplicate key value"
  refine ⟨?_, ?_, by decide, by decide⟩
  · obtain ⟨word, hw, hm⟩ := h.1 "uk_email" "ana@example.com" (by decide) (by decide)
      (by decide) (by decide)
    have hword : word = "Email" := by
      have h2 := h.2.1 'e' ['m', 'a', 'i', 'l'] (by decide) (by decide)
      have h3 : TrimPrefix "uk_email" "uk_" = ⟨['e', 'm', 'a', 'i', 'l']⟩ := by decide
      rw [h3, h2] at hw
      exact (Option.some.inj hw).symm
    rw [hword] at hm
    exact hm
  · obtain ⟨word, hw, hm⟩ := h.1 "email" "a)b" (by decide) (by decide) (by decide) (by decide)
    have hword : word = "Email" := by
      have h2 := h.2.1 'e' ['m', 'a', 'i', 'l'] (by decide) (by decide)
      have h3 : TrimPrefix "email" "uk_" = ⟨['e', 'm', 'a', 'i', 'l']⟩ := by decide
      rw [h3, h2] at hw
      exact (Option.some.inj hw).symm
    rw [hword] at hm
    exact hm

/-- C25 as stated fails: the column `uk_` and the value `7` are not empty, and the
message is the raw detail, not a formatted word; for the value `a) already exists.b`
the message names the value `a`; and for the column `a)=(b` with the value `7` the
message names the column `a` and the value `b)=(7`. -/
theorem unique_violation_message_differs :
    (ErrorHandlerFunc prodCtx (HandledError.pgError "23505"
      "Key (uk_)=(7) already exists." "duplicate key value")).map
      (fun resp => (resp.StatusCode, resp.Message)) =
      some (409, "Key (uk_)=(7) already exists.") ∧
    (ErrorHandlerFunc prodCtx (HandledError.pgError "23505"
      ("Key (" ++ ("email" ++ ")=(" ++ "a) already exists.b" ++ ") already exists."))
      "duplicate key value")).map
      (fun resp => (resp.StatusCode, resp.Message)) =
      some (409, "Email 'a' already exists") ∧
    (ErrorHandlerFunc prodCtx (HandledError.pgError "23505"
      ("Key (" ++ ("a)=(b" ++ ")=(" ++ "7" ++ ") already exists.")) "duplicate key value")).map
      (fun resp => (resp.StatusCode, resp.Message)) =
      some (409, "A 'b)=(7' already exists") := by
  refine ⟨?_, ?_, ?_⟩ <;> decide

/-! ## The validation `strong_password` -/

/-- The flags of the loop over the characters of a password: the letter flag is set
when it was set before or a character is a letter and no digit, the digit flag when
it was set before or a character is a digit. -/
theorem password_flags (l : List Char) (st : Bool × Bool) :
    ((l.foldl
      (fun (st : Bool × Bool) ch =>
        if '0' ≤ ch ∧ ch ≤ '9' then (st.1, true)
        else if ('a' ≤ ch ∧ ch ≤ 'z') ∨ ('A' ≤ ch ∧ ch ≤ 'Z') then (true, st.2)
        else st) st).1 = true ↔
      st.1 = true ∨ ∃ c ∈ l, (('a' ≤ c ∧ c ≤ 'z') ∨ ('A' ≤ c ∧ c ≤ 'Z')) ∧
        ¬ ('0' ≤ c ∧ c ≤ '9')) ∧
    ((l.foldl
      (fun (st : Bool × Bool) ch =>
        if '0' ≤ ch ∧ ch ≤ '9' then (st.1, true)
        else if ('a' ≤ ch ∧ ch ≤ 'z') ∨ ('A' ≤ ch ∧ ch ≤ 'Z') then (true, st.2)
        else st) st).2 = true ↔
      st.2 = true ∨ ∃ c ∈ l, '0' ≤ c ∧ c ≤ '9') := by
  induction l generalizing st with
  | nil => simp
  | cons ch rest ih =>
    simp only [List.foldl_cons]
    by_cases hd : '0' ≤ ch ∧ ch ≤ '9'
    · rw [if_pos hd]
      obtain ⟨h1, h2⟩ := ih (st.1, true)
      refine ⟨?_, ?_⟩
      · rw [h1]
        constructor
        · rintro (h | ⟨c, hc, hl⟩)
          · exact Or.inl h
          · exact Or.inr ⟨c, List.mem_cons_of_mem _ hc, hl⟩
        · rintro (h | ⟨c, hc, hl⟩)
          · exact Or.inl h
          · rcases List.mem_cons.mp hc with rfl | hc
            · exact absurd hd hl.2
            · exact Or.inr ⟨c, hc, hl⟩
      · rw [h2]
        constructor
        · intro _
          exact Or.inr ⟨ch, List.mem_cons_self _ _, hd⟩
        · intro _
          exact Or.inl rfl
    · rw [if_neg hd]
      by_cases hl : ('a' ≤ ch ∧ ch ≤ 'z') ∨ ('A' ≤ ch ∧ ch ≤ 'Z')
      · rw [if_pos hl]
        obtain ⟨h1, h2⟩ := ih (true, st.2)
        refine ⟨?_, ?_⟩
        · rw [h1]
          constructor
          · intro _
            exact Or.inr ⟨ch, List.mem_cons_self _ _, hl, hd⟩
          · intro _
            exact Or.inl rfl
        · rw [h2]
          constructor
          · rintro (h | ⟨c, hc, hc2⟩)
            · exact Or.inl h
            · exact Or.inr ⟨c, List.mem_cons_of_mem _ hc, hc2⟩
          · rintro (h | ⟨c, hc, hc2⟩)
            · exact Or.inl h
            · rcases List.mem_cons.mp hc with rfl | hc
              · exact absurd hc2 hd
              · exact Or.inr ⟨c, hc, hc2⟩
      · rw [if_neg hl]
        obtain ⟨h1, h2⟩ := ih st
        refine ⟨?_, ?_⟩
        · rw [h1]
          constructor
          · rintro (h | ⟨c, hc, hc2⟩)
            · exact Or.inl h
            · exact Or.inr ⟨c, List.mem_cons_of_mem _ hc, hc2⟩
          · rintro (h | ⟨c, hc, hc2⟩)
            · exact Or.inl h
            · rcases List.mem_cons.mp hc with rfl | hc
              · exact absurd hc2.1 hl
              · exact Or.inr ⟨c, hc, hc2⟩
        · rw [h2]
          constructor
          · rintro (h | ⟨c, hc, hc2⟩)
            · exact Or.inl h
            · exact Or.inr ⟨c, List.mem_cons_of_mem _ hc, hc2⟩
          · rintro (h | ⟨c, hc, hc2⟩)
            · exact Or.inl h
            · rcases List.mem_cons.mp hc with rfl | hc
              · exact absurd hc2 hd
              · exact Or.inr ⟨c, hc, hc2⟩

/-- A letter of `a-z` or `A-Z` is no digit. -/
theorem letter_not_digit (c : Char) (h : ('a' ≤ c ∧ c ≤ 'z') ∨ ('A' ≤ c ∧ c ≤ 'Z')) :
    ¬ ('0' ≤ c ∧ c ≤ '9') := by
  rintro ⟨-, h9⟩
  rcases h with ⟨ha, -⟩ | ⟨hA, -⟩
  · exact absurd (le_trans ha h9) (by decide)
  · exact absurd (le_trans hA h9) (by decide)

/-- C26, as the code has it: `strong_password` accepts exactly the strings whose
UTF-8 encoding is at least 8 bytes long and that contain at least one letter (a-z,
A-Z) and at least one digit (0-9). The length that is tested is the number of
bytes, not of characters. -/
theorem strong_password_counts_bytes (p : String) :
    strong_password p = true ↔
      8 ≤ p.utf8ByteSize ∧
      (∃ c ∈ p.data, ('a' ≤ c ∧ c ≤ 'z') ∨ ('A' ≤ c ∧ c ≤ 'Z')) ∧
      (∃ c ∈ p.data, '0' ≤ c ∧ c ≤ '9') := by
  unfold strong_password
  obtain ⟨h1, h2⟩ := password_flags p.data (false, false)
  by_cases hlen : p.utf8ByteSize < 8
  · rw [if_pos hlen]
    constructor
    · intro h; exact absurd h (by decide)
    · intro h; omega
  · rw [if_neg hlen]
    simp only [Bool.and_eq_true, h1, h2, Bool.false_eq_true, false_or]
    constructor
    · rintro ⟨⟨c, hc, hl, -⟩, hdig⟩
      exact ⟨by omega, ⟨c, hc, hl⟩, hdig⟩
    · rintro ⟨-, ⟨c, hc, hl⟩, hdig⟩
      exact ⟨⟨c, hc, hl, letter_not_digit c hl⟩, hdig⟩

/-- The failing input of C26: a password of five characters, three of them of two
bytes each, is accepted. -/
theorem short_password_accepted :
    "ééé1a".length = 5 ∧ "ééé1a".utf8ByteSize = 8 ∧ strong_password "ééé1a" = true := by
  refine ⟨?_, ?_, ?_⟩ <;> decide

/-! ## The authentication middleware -/

/-- The token of a header `Bearer <token>` with a token that is not empty. -/
theorem GetTokenFromHeader_bearer (stack token : String) (hne : token ≠ "") :
    GetTokenFromHeader stack ("Bearer " ++ token) = Except.ok token := by
  obtain ⟨h1, h2⟩ := TrimPrefix_append "Bearer " token
  have h0 : "Bearer " ++ token ≠ "" := by
    intro h
    have hd := congrArg String.data h
    simp only [String.data_append] at hd
    exact absurd hd (by simp [show "Bearer ".data = ['B', 'e', 'a', 'r', 'e', 'r', ' '] from rfl])
  simp [GetTokenFromHeader, h0, h1, h2, hne]

/-- A value parsed from JSON never has the dynamic type `model.User`. -/
theorem ofJSON_not_user (v : JSONValue) : (GoValue.ofJSON v).assertUser = none := by
  cases v <;> rfl

/-- The assertion `claims["user"].(model.User)` fails on the claims of every parsed
token. -/
theorem parsed_user_claim (members : List (String × JSONValue)) (key : String) :
    (MapClaims.get (members.map (fun m => (m.1, GoValue.ofJSON m.2))) key).assertUser = none := by
  induction members with
  | nil => rfl
  | cons m rest ih =>
    simp only [MapClaims.get, List.map_cons, List.lookup] at ih ⊢
    cases hk : key == m.1 with
    | true => simp only [Option.getD_some]; exact ofJSON_not_user m.2
    | false => exact ih

/-- A request whose token verifies ends in a panic of the middleware. -/
theorem verified_token_panics (jwt : JwtLib) (stack : String) (roles : List String)
    (authorization token : String) (members : List (String × JSONValue))
    (ht : GetTokenFromHeader stack authorization = Except.ok token)
    (hp : jwt.parse token = Except.ok members) :
    AuthMiddleware jwt stack roles authorization = AuthResult.panic "user_id" ∨
    AuthMiddleware jwt stack roles authorization = AuthResult.panic "user" := by
  have hu := parsed_user_claim members "user"
  unfold AuthMiddleware
  simp only [ht, VerifyJwtToken, ParseJwtToken, hp]
  cases hid : (MapClaims.get (members.map (fun m => (m.1, GoValue.ofJSON m.2)))
      "user_id").assertString with
  | none => left; rfl
  | some userID => right; simp only [hu]

/-- C27, as the code has it: for every token issued by `GenerateJwtToken` for a user
that the library verifies (signature and expiry), `AuthMiddleware` with an empty
roles list extracts `user_id` and then panics in the type assertion of the claim
`user` to `model.User`, which a claim parsed from JSON never is; nothing is stored
in the request context and the next handler is not called. -/
theorem issued_token_panics_in_middleware (jwt : JwtLib) (stack : String) (now : Int)
    (user : User) (token : String)
    (hgen : GenerateJwtToken jwt stack now user = Except.ok token)
    (hne : token ≠ "")
    (hlib : ∀ tok, jwt.sign (JSONValue.object
        ((tokenClaims user now).map (fun c => (c.1, c.2.toJSON)))) = Except.ok tok →
      jwt.parse tok = Except.ok ((tokenClaims user now).map (fun c => (c.1, c.2.toJSON)))) :
    AuthMiddleware jwt stack [] ("Bearer " ++ token) = AuthResult.panic "user" := by
  have hs : jwt.sign (JSONValue.object
      ((tokenClaims user now).map (fun c => (c.1, c.2.toJSON)))) = Except.ok token := by
    unfold GenerateJwtToken at hgen
    split at hgen
    · simp at hgen
    · rename_i tok htok
      simp only [Except.ok.injEq] at hgen
      rw [htok, hgen]
  have hp := hlib token hs
  unfold AuthMiddleware
  simp only [GetTokenFromHeader_bearer stack token hne, VerifyJwtToken, ParseJwtToken, hp]
  simp [tokenClaims, MapClaims.get, List.lookup, GoValue.toJSON, GoValue.ofJSON, User.toJSON,
    GoValue.assertString, GoValue.assertUser]

/-- The failing input of C27: the token `tok` issued to the sample user, presented
to a route without role restriction. -/
theorem issued_token_panics_in_middleware_witness :
    GenerateJwtToken sampleJwt "" 1700000000 sampleUser = Except.ok "tok" ∧
    AuthMiddleware sampleJwt "" [] "Bearer tok" = AuthResult.panic "user" :=
  ⟨rfl, issued_token_panics_in_middleware sampleJwt "" 1700000000 sampleUser "tok" rfl
    (by decide) (fun tok h => by
      have ht : tok = "tok" := by
        simp only [sampleJwt, Except.ok.injEq] at h
        exact h.symm
      rw [ht]
      simp [sampleJwt])⟩

/-- C28, as the code has it: a missing header, a header without the prefix `Bearer `,
an empty token and a token that does not verify each yield 401; a request whose
token verifies ends in a panic of the middleware, whatever the roles list, so no
request is passed to the next handler and none is answered with 403. -/
theorem auth_middleware_outcomes (jwt : JwtLib) (stack : String) (roles : List String) :
    AuthMiddleware jwt stack roles "" = AuthResult.response
      (response.Json 401 (JSONValue.string "missing authorization header") "Unauthorized") ∧
    (∀ header, header ≠ "" → HasPrefix header "Bearer " = false →
      AuthMiddleware jwt stack roles header = AuthResult.response
        (response.Json 401 (JSONValue.string "invalid authorization format") "Unauthorized")) ∧
    AuthMiddleware jwt stack roles "Bearer " = AuthResult.response
      (response.Json 401 (JSONValue.string "missing token") "Unauthorized") ∧
    (∀ token e, token ≠ "" → jwt.parse token = Except.error e →
      AuthMiddleware jwt stack roles ("Bearer " ++ token) = AuthResult.response
        (response.Json 401 (JSONValue.string "failed to parse jwt token") "Unauthorized")) ∧
    (∀ token members, token ≠ "" → jwt.parse token = Except.ok members →
      AuthMiddleware jwt stack roles ("Bearer " ++ token) = AuthResult.panic "user_id" ∨
      AuthMiddleware jwt stack roles ("Bearer " ++ token) = AuthResult.panic "user") ∧
    (∀ header, (∃ data, AuthMiddleware jwt stack roles header = AuthResult.response
        (response.Json 401 data "Unauthorized")) ∨
      ∃ claim, AuthMiddleware jwt stack roles header = AuthResult.panic claim) := by
  refine ⟨?_, ?_, ?_, ?_, ?_, ?_⟩
  · simp [AuthMiddleware, GetTokenFromHeader, apperror.New, AppError.Error]
  · intro header hne hpre
    simp [AuthMiddleware, GetTokenFromHeader, hne, hpre, apperror.New, AppError.Error]
  · have h1 : HasPrefix "Bearer " "Bearer " = true := by decide
    have h2 : TrimPrefix "Bearer " "Bearer " = "" := by decide
    simp [AuthMiddleware, GetTokenFromHeader, h1, h2, apperror.New, AppError.Error]
  · intro token e hne hp
    simp [AuthMiddleware, GetTokenFromHeader_bearer stack token hne, VerifyJwtToken,
      ParseJwtToken, hp, apperror.New, AppError.Error]
  · intro token members hne hp
    exact verified_token_panics jwt stack roles _ token members
      (GetTokenFromHeader_bearer stack token hne) hp
  · intro header
    cases ht : GetTokenFromHeader stack header with
    | error err =>
      left
      exact ⟨JSONValue.string err.Error, by simp only [AuthMiddleware, ht]⟩
    | ok token =>
      cases hp : jwt.parse token with
      | error e =>
        left
        exact ⟨JSONValue.string "failed to parse jwt token",
          by simp only [AuthMiddleware, ht, VerifyJwtToken, ParseJwtToken, hp]; rfl⟩
      | ok members =>
        right
        rcases verified_token_panics jwt stack roles header token members ht hp with h | h
        · exact ⟨_, h⟩
        · exact ⟨_, h⟩

/-- The failing input of C28: the token of the sample user, whose role is `admin`,
on a route for the role `superadmin`: the middleware panics, it does not answer 403. -/
theorem auth_middleware_outcomes_witness :
    sampleUser.Role = "admin" ∧
    (AuthMiddleware sampleJwt "" ["superadmin"] "Bearer tok" = AuthResult.panic "user_id" ∨
      AuthMiddleware sampleJwt "" ["superadmin"] "Bearer tok" = AuthResult.panic "user") :=
  ⟨rfl, (auth_middleware_outcomes sampleJwt "" ["superadmin"]).2.2.2.2.1 "tok"
    ((tokenClaims sampleUser 1700000000).map (fun c => (c.1, c.2.toJSON))) (by decide)
    (by simp [sampleJwt])⟩

/-! ## Pagination -/

/-- The binary logarithm by halving is right when the fuel suffices. -/
theorem log2Fuel_spec (fuel n : Nat) (hn : n ≠ 0) (hf : n ≤ fuel) :
    2 ^ log2Fuel fuel n ≤ n ∧ n < 2 ^ (log2Fuel fuel n + 1) := by
  induction fuel generalizing n with
  | zero => omega
  | succ fuel ih =>
    unfold log2Fuel
    by_cases h2 : n < 2
    · rw [if_pos h2]
      simp only [pow_zero, zero_add, pow_one]
      omega
    · rw [if_neg h2]
      obtain ⟨h1, h3⟩ := ih (n / 2) (by omega) (by omega)
      constructor
      · rw [pow_succ]; omega
      · rw [pow_succ]; omega

/-- The leading bit of a positive number. -/
theorem ilog2_spec (n : Nat) (hn : n ≠ 0) : 2 ^ ilog2 n ≤ n ∧ n < 2 ^ (ilog2 n + 1) :=
  log2Fuel_spec n n hn le_rfl

/-- Rounding a quotient by 1 changes nothing. -/
theorem roundHalfEven_one (m : Nat) : roundHalfEven m 1 = m := by
  simp [roundHalfEven, Nat.mod_one]

/-- A rounded quotient is not below an integer that the quotient is not below. -/
theorem roundHalfEven_lower (n d c : Nat) (hd : 0 < d) (h : c * d ≤ n) :
    c ≤ roundHalfEven n d := by
  have hq : c ≤ n / d := (Nat.le_div_iff_mul_le hd).mpr h
  unfold roundHalfEven
  split_ifs <;> omega

/-- A rounded quotient is not above an integer that the quotient is not above. -/
theorem roundHalfEven_upper (n d c : Nat) (hd : 0 < d) (h : n ≤ c * d) :
    roundHalfEven n d ≤ c := by
  have hq : n / d ≤ c := by
    apply Nat.div_le_of_le_mul
    rw [Nat.mul_comm]; exact h
  have hdm := Nat.div_add_mod n d
  have hr : n / d = c → n % d = 0 := by
    intro hc
    rw [hc, Nat.mul_comm] at hdm
    omega
  have hlt := Nat.mod_lt n hd
  unfold roundHalfEven
  split_ifs <;> omega

/-- A quotient above `c + 1/2` is rounded to `c + 1` at least. -/
theorem roundHalfEven_up (n d c : Nat) (hd : 0 < d) (h : (2 * c + 1) * d < 2 * n) :
    c + 1 ≤ roundHalfEven n d := by
  have hcd : c * d ≤ n := by
    have : (2 * c + 1) * d = 2 * (c * d) + d := by ring
    omega
  have hq : c ≤ n / d := (Nat.le_div_iff_mul_le hd).mpr hcd
  have hdm := Nat.div_add_mod n d
  have hr : n / d = c → d < 2 * (n % d) := by
    intro hc
    rw [hc, Nat.mul_comm] at hdm
    have : (2 * c + 1) * d = 2 * (c * d) + d := by ring
    omega
  unfold roundHalfEven
  split_ifs <;> omega

/-- A positive exponent of a quotient is a lower bound of it. -/
theorem floorLog2_pos (n d : Nat) (hn : 0 < n) (hd : 0 < d) (he : 0 < floorLog2 n d) :
    d * 2 ^ (floorLog2 n d).toNat ≤ n := by
  obtain ⟨ha, -⟩ := ilog2_spec n (by omega)
  obtain ⟨-, hb⟩ := ilog2_spec d (by omega)
  unfold floorLog2 at he ⊢
  split_ifs at he ⊢ with htest
  · have h0 : ((ilog2 d : Int) - (ilog2 n : Int)).toNat = 0 := by omega
    rw [h0, pow_zero, Nat.mul_one] at htest
    exact htest
  · have hx : ((ilog2 n : Int) - (ilog2 d : Int) - 1).toNat = ilog2 n - (ilog2 d + 1) := by
      omega
    rw [hx]
    calc d * 2 ^ (ilog2 n - (ilog2 d + 1))
        ≤ 2 ^ (ilog2 d + 1) * 2 ^ (ilog2 n - (ilog2 d + 1)) :=
          Nat.mul_le_mul_right _ (le_of_lt hb)
      _ = 2 ^ ilog2 n := by
        rw [← pow_add]
        congr 1
        omega
      _ ≤ n := ha

/-- Rounding up a finite positive value `m / 2 ^ s` and converting it to `int`. -/
theorem ceil_toInt (m s v : Nat) (hv : (m + 2 ^ s - 1) / 2 ^ s = v) (hrange : v < 2 ^ 63) :
    (math.Ceil (Float64.finite false m (-(s : Int)))).toInt = (v : Int) := by
  have hr : (v : Int) < 2 ^ 63 := by exact_mod_cast hrange
  by_cases hs : s = 0
  · subst hs
    simp only [pow_zero, Nat.add_sub_cancel, Nat.div_one] at hv
    subst hv
    simp only [math.Ceil, Float64.toInt]
    simp only [Nat.cast_zero, neg_zero, le_refl, if_true, Int.toNat_zero, pow_zero, mul_one,
      Bool.false_eq_true, if_false, one_mul]
    rw [if_pos ⟨by omega, hr⟩]
  · have hneg : ¬ (0 : Int) ≤ -(s : Int) := by omega
    have hsn : (- -(s : Int)).toNat = s := by omega
    simp only [math.Ceil, hneg, if_false, Bool.false_eq_true, hsn, hv, Float64.toInt, le_refl,
      if_true, Int.toNat_zero, pow_zero, mul_one, one_mul]
    rw [if_pos ⟨by omega, hr⟩]

/-- The quotient of two positive integers below `2 ^ 53`, both scaled by `K`, rounded
to a `float64` and then up to an integer, is the ceiling of the exact quotient. -/
theorem ceil_nearest (n p K : Nat) (hn : 0 < n) (hn53 : n < 2 ^ 53) (hp : 0 < p)
    (hp53 : p < 2 ^ 53) (hK : 0 < K) :
    ∃ L : Nat, (math.Ceil (Float64.nearest false (n * K) (p * K))).toInt = (L : Int) ∧
      n ≤ L * p ∧ L * p < n + p := by
  have hnK : 0 < n * K := Nat.mul_pos hn hK
  have hpK : 0 < p * K := Nat.mul_pos hp hK
  have hpos : 0 < floorLog2 (n * K) (p * K) →
      p * 2 ^ (floorLog2 (n * K) (p * K)).toNat ≤ n := by
    intro he
    have h := floorLog2_pos (n * K) (p * K) hnK hpK he
    have h2 : (p * 2 ^ (floorLog2 (n * K) (p * K)).toNat) * K ≤ n * K := by
      calc (p * 2 ^ (floorLog2 (n * K) (p * K)).toNat) * K
          = p * K * 2 ^ (floorLog2 (n * K) (p * K)).toNat := by ring
        _ ≤ n * K := h
    exact Nat.le_of_mul_le_mul_right h2 hK
  unfold Float64.nearest
  generalize floorLog2 (n * K) (p * K) = e at hpos ⊢
  have he52 : e ≤ 52 := by
    by_contra hcon
    have he : 0 < e := by omega
    have h1 := hpos he
    have h2 : 2 ^ 53 ≤ 2 ^ e.toNat := Nat.pow_le_pow_right (by norm_num) (by omega)
    have h3 : 2 ^ e.toNat ≤ p * 2 ^ e.toNat := Nat.le_mul_of_pos_left _ hp
    omega
  obtain ⟨s, hs⟩ : ∃ s : Nat, (s : Int) = 52 - e := ⟨(52 - e).toNat, by omega⟩
  have hs1 : (52 - e).toNat = s := by omega
  have hs2 : (e - 52).toNat = 0 := by omega
  have hs3 : e - 52 = -(s : Int) := by omega
  have hF2 : p < 2 * 2 ^ s := by
    by_cases he : 0 < e
    · have h1 := hpos he
      have hsum : e.toNat + (s + 1) = 53 := by omega
      have h53 : 2 ^ 53 = 2 ^ e.toNat * (2 * 2 ^ s) := by
        rw [← hsum, pow_add, pow_succ]; ring
      have h4 : 2 ^ e.toNat * p < 2 ^ e.toNat * (2 * 2 ^ s) := by
        rw [Nat.mul_comm _ p]; omega
      exact Nat.lt_of_mul_lt_mul_left h4
    · have h52 : 52 ≤ s := by omega
      have : 2 ^ 52 ≤ 2 ^ s := Nat.pow_le_pow_right (by norm_num) h52
      omega
  rw [hs1, hs2, hs3, pow_zero, Nat.mul_one]
  have hS : 0 < 2 ^ s := Nat.two_pow_pos s
  have hdm : p * (n / p) + n % p = n := Nat.div_add_mod n p
  have hrlt : n % p < p := Nat.mod_lt n hp
  have hlo : n / p * 2 ^ s ≤ roundHalfEven (n * K * 2 ^ s) (p * K) :=
    roundHalfEven_lower _ _ _ hpK (by
      calc n / p * 2 ^ s * (p * K) = (p * (n / p)) * (K * 2 ^ s) := by ring
        _ ≤ n * (K * 2 ^ s) := Nat.mul_le_mul_right _ (by omega)
        _ = n * K * 2 ^ s := by ring)
  have hhi : roundHalfEven (n * K * 2 ^ s) (p * K) ≤ n / p * 2 ^ s + 2 ^ s :=
    roundHalfEven_upper _ _ _ hpK (by
      calc n * K * 2 ^ s = n * (K * 2 ^ s) := by ring
        _ ≤ (p * (n / p) + p) * (K * 2 ^ s) := Nat.mul_le_mul_right _ (by omega)
        _ = (n / p * 2 ^ s + 2 ^ s) * (p * K) := by ring)
  by_cases hr : n % p = 0
  · have hnp : p * (n / p) = n := by omega
    have hhi2 : roundHalfEven (n * K * 2 ^ s) (p * K) ≤ n / p * 2 ^ s :=
      roundHalfEven_upper _ _ _ hpK (le_of_eq (by
        calc n * K * 2 ^ s = (p * (n / p)) * (K * 2 ^ s) := by rw [hnp]; ring
          _ = n / p * 2 ^ s * (p * K) := by ring))
    have hm : roundHalfEven (n * K * 2 ^ s) (p * K) = n / p * 2 ^ s := le_antisymm hhi2 hlo
    refine ⟨n / p, ceil_toInt _ s (n / p) ?_ ?_, ?_, ?_⟩
    · rw [hm]
      apply Nat.div_eq_of_lt_le
      · omega
      · rw [Nat.succ_mul]; omega
    · have : n / p ≤ n := Nat.div_le_self n p
      omega
    · rw [Nat.mul_comm]; omega
    · rw [Nat.mul_comm]; omega
  · have hup : n / p * 2 ^ s + 1 ≤ roundHalfEven (n * K * 2 ^ s) (p * K) :=
      roundHalfEven_up _ _ _ hpK (by
        have h1 : p * K < 2 * (n % p) * (K * 2 ^ s) := by
          calc p * K < 2 * 2 ^ s * K := Nat.mul_lt_mul_of_pos_right hF2 hK
            _ = 2 * 1 * (K * 2 ^ s) := by ring
            _ ≤ 2 * (n % p) * (K * 2 ^ s) :=
              Nat.mul_le_mul_right _ (Nat.mul_le_mul_left _ (by omega))
        calc (2 * (n / p * 2 ^ s) + 1) * (p * K)
            = 2 * (p * (n / p)) * (K * 2 ^ s) + p * K := by ring
          _ < 2 * (p * (n / p)) * (K * 2 ^ s) + 2 * (n % p) * (K * 2 ^ s) := by omega
          _ = 2 * ((p * (n / p) + n % p) * K * 2 ^ s) := by ring
          _ = 2 * (n * K * 2 ^ s) := by rw [hdm])
    refine ⟨n / p + 1, ceil_toInt _ s (n / p + 1) ?_ ?_, ?_, ?_⟩
    · apply Nat.div_eq_of_lt_le
      · rw [Nat.succ_mul]; omega
      · rw [Nat.succ_mul, Nat.succ_mul]; omega
    · have : n / p ≤ n := Nat.div_le_self n p
      omega
    · rw [Nat.succ_mul, Nat.mul_comm]; omega
    · rw [Nat.succ_mul, Nat.mul_comm]; omega

/-- A positive integer below `2 ^ 53` is converted to `float64` exactly. -/
theorem ofInt_exact (x : Int) (h1 : 1 ≤ x) (h53 : x < 2 ^ 53) :
    ∃ s : Nat, Float64.ofInt x = Float64.finite false (x.natAbs * 2 ^ s) (-(s : Int)) := by
  have hx0 : x ≠ 0 := by omega
  have hneg : decide (x < 0) = false := by
    simp only [decide_eq_false_iff_not]; omega
  have hn : 0 < x.natAbs := by omega
  have hn53 : x.natAbs < 2 ^ 53 := by omega
  unfold Float64.ofInt Float64.nearest
  rw [if_neg hx0, hneg]
  have hpos := floorLog2_pos x.natAbs 1 hn (by norm_num)
  generalize floorLog2 x.natAbs 1 = e at hpos ⊢
  have he52 : e ≤ 52 := by
    by_contra hcon
    have h1 := hpos (by omega)
    have h2 : 2 ^ 53 ≤ 2 ^ e.toNat := Nat.pow_le_pow_right (by norm_num) (by omega)
    omega
  refine ⟨(52 - e).toNat, ?_⟩
  have hs2 : (e - 52).toNat = 0 := by omega
  have hs3 : e - 52 = -((52 - e).toNat : Int) := by omega
  rw [hs2, pow_zero, Nat.mul_one, roundHalfEven_one, hs3]

/-- The quotient of two exactly converted integers is the rounded quotient of the
integers, both scaled by the same power of two. -/
theorem div_scaled (n p sa sb : Nat) (hn : 0 < n) (hp : 0 < p) :
    ∃ K : Nat, 0 < K ∧
      (Float64.finite false (n * 2 ^ sa) (-(sa : Int))).div
        (Float64.finite false (p * 2 ^ sb) (-(sb : Int))) =
      Float64.nearest false (n * K) (p * K) := by
  have ha : n * 2 ^ sa ≠ 0 := Nat.mul_ne_zero (by omega) (Nat.two_pow_pos sa).ne'
  have hb : p * 2 ^ sb ≠ 0 := Nat.mul_ne_zero (by omega) (Nat.two_pow_pos sb).ne'
  simp only [Float64.div, ha, hb, if_false, bne_self_eq_false]
  by_cases h : sa ≤ sb
  · refine ⟨2 ^ sb, Nat.two_pow_pos sb, ?_⟩
    have h1 : (-(sa : Int) - -(sb : Int)).toNat = sb - sa := by omega
    have h2 : (-(sb : Int) - -(sa : Int)).toNat = 0 := by omega
    rw [h1, h2, pow_zero, Nat.mul_one, Nat.mul_assoc, ← pow_add,
      show sa + (sb - sa) = sb by omega]
  · refine ⟨2 ^ sa, Nat.two_pow_pos sa, ?_⟩
    have h1 : (-(sa : Int) - -(sb : Int)).toNat = 0 := by omega
    have h2 : (-(sb : Int) - -(sa : Int)).toNat = sa - sb := by omega
    rw [h1, h2, pow_zero, Nat.mul_one, Nat.mul_assoc, ← pow_add,
      show sb + (sa - sb) = sa by omega]

/-- For a total and a page size between 1 and `2 ^ 53`, the last page is the least
integer whose multiple of the page size reaches the total. -/
theorem lastPageOf_ceil (total perPage : Int) (ht : 1 ≤ total) (ht53 : total < 2 ^ 53)
    (hp : 1 ≤ perPage) (hp53 : perPage < 2 ^ 53) :
    total ≤ lastPageOf total perPage * perPage ∧
    lastPageOf total perPage * perPage < total + perPage := by
  obtain ⟨sa, ha⟩ := ofInt_exact total ht ht53
  obtain ⟨sb, hb⟩ := ofInt_exact perPage hp hp53
  obtain ⟨K, hK, hdiv⟩ := div_scaled total.natAbs perPage.natAbs sa sb (by omega) (by omega)
  obtain ⟨L, hL, h1, h2⟩ := ceil_nearest total.natAbs perPage.natAbs K (by omega) (by omega)
    (by omega) (by omega) hK
  have e1 : (total.natAbs : Int) = total := by omega
  have e2 : (perPage.natAbs : Int) = perPage := by omega
  unfold lastPageOf
  rw [ha, hb, hdiv, hL, ← e1, ← e2]
  constructor
  · exact_mod_cast h1
  · exact_mod_cast h2

/-- A value in the range of `int` is not changed by wrapping. -/
theorem wrapInt64_id (x : Int) (h1 : -2 ^ 63 ≤ x) (h2 : x < 2 ^ 63) : wrapInt64 x = x := by
  unfold wrapInt64
  omega

/-- A page URL is not empty. -/
theorem page_url_ne_empty (path tail : String) : path ++ "?page=" ++ tail ≠ "" := by
  intro h
  have hl := congrArg String.length h
  simp only [String.length_append] at hl
  have h6 : "?page=".length = 6 := by decide
  have h0 : "".length = 0 := by decide
  omega

/-- An exponent of a quotient that is not positive is a lower bound of it. -/
theorem floorLog2_neg (n d : Nat) (hn : 0 < n) (hd : 0 < d) (he : floorLog2 n d ≤ 0) :
    d ≤ n * 2 ^ (-floorLog2 n d).toNat := by
  obtain ⟨ha, -⟩ := ilog2_spec n (by omega)
  obtain ⟨-, hb⟩ := ilog2_spec d (by omega)
  unfold floorLog2 at he ⊢
  split_ifs at he ⊢ with htest
  · have h0 : ((ilog2 n : Int) - (ilog2 d : Int)).toNat = 0 := by omega
    have h1 : (-((ilog2 n : Int) - (ilog2 d : Int))).toNat =
        ((ilog2 d : Int) - (ilog2 n : Int)).toNat := by omega
    rw [h0, pow_zero, Nat.mul_one] at htest
    rw [h1]
    exact htest
  · have hx : (-((ilog2 n : Int) - (ilog2 d : Int) - 1)).toNat = ilog2 d + 1 - ilog2 n := by
      omega
    rw [hx]
    calc d ≤ 2 ^ (ilog2 d + 1) := le_of_lt hb
      _ = 2 ^ ilog2 n * 2 ^ (ilog2 d + 1 - ilog2 n) := by
        rw [← pow_add]
        congr 1
        omega
      _ ≤ n * 2 ^ (ilog2 d + 1 - ilog2 n) := Nat.mul_le_mul_right _ ha

/-- A quotient that is at most 1, rounded to a `float64` and then up to an integer,
is 1. -/
theorem ceil_small (N D : Nat) (hN : 0 < N) (hND : N ≤ D) :
    (math.Ceil (Float64.nearest false N D)).toInt = 1 := by
  have hD : 0 < D := by omega
  have hpos := floorLog2_pos N D hN hD
  have hneg := floorLog2_neg N D hN hD
  unfold Float64.nearest
  generalize floorLog2 N D = e at hpos hneg ⊢
  have he0 : e ≤ 0 := by
    by_contra hcon
    have h1 := hpos (by omega)
    have h2 : 2 ^ 1 ≤ 2 ^ e.toNat := Nat.pow_le_pow_right (by norm_num) (by omega)
    have h3 : D * 2 ≤ D * 2 ^ e.toNat := Nat.mul_le_mul_left _ h2
    omega
  have hlow := hneg he0
  obtain ⟨s, hs⟩ : ∃ s : Nat, (s : Int) = 52 - e := ⟨(52 - e).toNat, by omega⟩
  have hs1 : (52 - e).toNat = s := by omega
  have hs2 : (e - 52).toNat = 0 := by omega
  have hs3 : e - 52 = -(s : Int) := by omega
  rw [hs1, hs2, hs3, pow_zero, Nat.mul_one]
  have hS : 0 < 2 ^ s := Nat.two_pow_pos s
  have hle : 2 ^ (-e).toNat ≤ 2 ^ s := Nat.pow_le_pow_right (by norm_num) (by omega)
  have hlo : 1 ≤ roundHalfEven (N * 2 ^ s) D :=
    roundHalfEven_lower _ _ 1 hD (by
      calc 1 * D = D := Nat.one_mul D
        _ ≤ N * 2 ^ (-e).toNat := hlow
        _ ≤ N * 2 ^ s := Nat.mul_le_mul_left _ hle)
  have hhi : roundHalfEven (N * 2 ^ s) D ≤ 2 ^ s :=
    roundHalfEven_upper _ _ _ hD (by
      calc N * 2 ^ s ≤ D * 2 ^ s := Nat.mul_le_mul_right _ hND
        _ = 2 ^ s * D := Nat.mul_comm _ _)
  have h := ceil_toInt (roundHalfEven (N * 2 ^ s) D) s 1 (by
    apply Nat.div_eq_of_lt_le
    · omega
    · rw [Nat.succ_mul]; omega) (by norm_num)
  exact_mod_cast h

/-- The exponent of a positive integer is the position of its leading bit. -/
theorem floorLog2_one (p : Nat) (hp : 0 < p) : floorLog2 p 1 = (ilog2 p : Int) := by
  obtain ⟨ha, -⟩ := ilog2_spec p (by omega)
  have h1 : ilog2 1 = 0 := rfl
  have h2 : (-(ilog2 p : Int)).toNat = 0 := by omega
  unfold floorLog2
  rw [h1]
  simp only [Nat.cast_zero, sub_zero, zero_sub, Int.toNat_ofNat, h2, pow_zero, Nat.mul_one,
    Nat.one_mul, if_pos ha]

/-- An integer from `2 ^ 53` on is converted to a `float64` of at least `2 ^ 53`: a
mantissa of 53 bits with a positive exponent. -/
theorem ofInt_large (x : Int) (h : 2 ^ 53 ≤ x) :
    ∃ M t : Nat, Float64.ofInt x = Float64.finite false M (t : Int) ∧ 2 ^ 52 ≤ M ∧ 1 ≤ t := by
  have hx0 : x ≠ 0 := by omega
  have hneg : decide (x < 0) = false := by
    simp only [decide_eq_false_iff_not]; omega
  have hn : 2 ^ 53 ≤ x.natAbs := by omega
  obtain ⟨ha, hb⟩ := ilog2_spec x.natAbs (by omega)
  have he : 53 ≤ ilog2 x.natAbs := by
    by_contra hcon
    have : 2 ^ (ilog2 x.natAbs + 1) ≤ 2 ^ 53 := Nat.pow_le_pow_right (by norm_num) (by omega)
    omega
  have h1 : (52 - (ilog2 x.natAbs : Int)).toNat = 0 := by omega
  have h2 : ((ilog2 x.natAbs : Int) - 52).toNat = ilog2 x.natAbs - 52 := by omega
  have h3 : (ilog2 x.natAbs : Int) - 52 = ((ilog2 x.natAbs - 52 : Nat) : Int) := by omega
  unfold Float64.ofInt Float64.nearest
  rw [if_neg hx0, hneg, floorLog2_one _ (by omega), h1, h2, h3, pow_zero, Nat.mul_one, Nat.one_mul]
  refine ⟨_, _, rfl, ?_, by omega⟩
  apply roundHalfEven_lower _ _ _ (Nat.two_pow_pos _)
  calc 2 ^ 52 * 2 ^ (ilog2 x.natAbs - 52) = 2 ^ ilog2 x.natAbs := by
        rw [← pow_add]
        congr 1
        omega
    _ ≤ x.natAbs := ha

/-- The quotient of two positive finite values is the rounded quotient of their
mantissas, brought to a common exponent. -/
theorem div_finite (ma mb : Nat) (ea eb : Int) (ha : 0 < ma) (hb : 0 < mb) :
    (Float64.finite false ma ea).div (Float64.finite false mb eb) =
      Float64.nearest false (ma * 2 ^ (ea - eb).toNat) (mb * 2 ^ (eb - ea).toNat) := by
  have ha0 : ma ≠ 0 := by omega
  have hb0 : mb ≠ 0 := by omega
  simp only [Float64.div, ha0, hb0, if_false, bne_self_eq_false]

/-- The quotient of two positive integers, the first at most `2 ^ 53` and the
quotient below `2 ^ 53`, both scaled by `K`, rounded to a `float64` and then up to an
integer, is the ceiling of the exact quotient. -/
theorem ceil_nearest_le (n p K : Nat) (hn : 0 < n) (hn53 : n ≤ 2 ^ 53) (hp : 0 < p)
    (hp53 : p < 2 ^ 53) (hq : n < p * 2 ^ 53) (hK : 0 < K) :
    ∃ L : Nat, (math.Ceil (Float64.nearest false (n * K) (p * K))).toInt = (L : Int) ∧
      n ≤ L * p ∧ L * p < n + p := by
  have hnK : 0 < n * K := Nat.mul_pos hn hK
  have hpK : 0 < p * K := Nat.mul_pos hp hK
  have hpos : 0 < floorLog2 (n * K) (p * K) →
      p * 2 ^ (floorLog2 (n * K) (p * K)).toNat ≤ n := by
    intro he
    have h := floorLog2_pos (n * K) (p * K) hnK hpK he
    have h2 : (p * 2 ^ (floorLog2 (n * K) (p * K)).toNat) * K ≤ n * K := by
      calc (p * 2 ^ (floorLog2 (n * K) (p * K)).toNat) * K
          = p * K * 2 ^ (floorLog2 (n * K) (p * K)).toNat := by ring
        _ ≤ n * K := h
    exact Nat.le_of_mul_le_mul_right h2 hK
  unfold Float64.nearest
  generalize floorLog2 (n * K) (p * K) = e at hpos ⊢
  have he52 : e ≤ 52 := by
    by_contra hcon
    have he : 0 < e := by omega
    have h1 := hpos he
    have h2 : 2 ^ 53 ≤ 2 ^ e.toNat := Nat.pow_le_pow_right (by norm_num) (by omega)
    have h3 : p * 2 ^ 53 ≤ p * 2 ^ e.toNat := Nat.mul_le_mul_left _ h2
    omega
  obtain ⟨s, hs⟩ : ∃ s : Nat, (s : Int) = 52 - e := ⟨(52 - e).toNat, by omega⟩
  have hs1 : (52 - e).toNat = s := by omega
  have hs2 : (e - 52).toNat = 0 := by omega
  have hs3 : e - 52 = -(s : Int) := by omega
  have hF2 : n % p ≠ 0 → p < 2 * 2 ^ s := by
    intro hr
    by_cases he : 0 < e
    · have h1 := hpos he
      have hne : p * 2 ^ e.toNat ≠ n := by
        intro heq
        rw [← heq, Nat.mul_mod_right] at hr
        exact hr rfl
      have hsum : e.toNat + (s + 1) = 53 := by omega
      have h53 : 2 ^ 53 = 2 ^ e.toNat * (2 * 2 ^ s) := by
        rw [← hsum, pow_add, pow_succ]; ring
      have h4 : 2 ^ e.toNat * p < 2 ^ e.toNat * (2 * 2 ^ s) := by
        rw [Nat.mul_comm _ p]; omega
      exact Nat.lt_of_mul_lt_mul_left h4
    · have h52 : 52 ≤ s := by omega
      have : 2 ^ 52 ≤ 2 ^ s := Nat.pow_le_pow_right (by norm_num) h52
      omega
  rw [hs1, hs2, hs3, pow_zero, Nat.mul_one]
  have hS : 0 < 2 ^ s := Nat.two_pow_pos s
  have hdm : p * (n / p) + n % p = n := Nat.div_add_mod n p
  have hrlt : n % p < p := Nat.mod_lt n hp
  have hlo : n / p * 2 ^ s ≤ roundHalfEven (n * K * 2 ^ s) (p * K) :=
    roundHalfEven_lower _ _ _ hpK (by
      calc n / p * 2 ^ s * (p * K) = (p * (n / p)) * (K * 2 ^ s) := by ring
        _ ≤ n * (K * 2 ^ s) := Nat.mul_le_mul_right _ (by omega)
        _ = n * K * 2 ^ s := by ring)
  have hhi : roundHalfEven (n * K * 2 ^ s) (p * K) ≤ n / p * 2 ^ s + 2 ^ s :=
    roundHalfEven_upper _ _ _ hpK (by
      calc n * K * 2 ^ s = n * (K * 2 ^ s) := by ring
        _ ≤ (p * (n / p) + p) * (K * 2 ^ s) := Nat.mul_le_mul_right _ (by omega)
        _ = (n / p * 2 ^ s + 2 ^ s) * (p * K) := by ring)
  by_cases hr : n % p = 0
  · have hnp : p * (n / p) = n := by omega
    have hhi2 : roundHalfEven (n * K * 2 ^ s) (p * K) ≤ n / p * 2 ^ s :=
      roundHalfEven_upper _ _ _ hpK (le_of_eq (by
        calc n * K * 2 ^ s = (p * (n / p)) * (K * 2 ^ s) := by rw [hnp]; ring
          _ = n / p * 2 ^ s * (p * K) := by ring))
    have hm : roundHalfEven (n * K * 2 ^ s) (p * K) = n / p * 2 ^ s := le_antisymm hhi2 hlo
    refine ⟨n / p, ceil_toInt _ s (n / p) ?_ ?_, ?_, ?_⟩
    · rw [hm]
      apply Nat.div_eq_of_lt_le
      · omega
      · rw [Nat.succ_mul]; omega
    · have : n / p ≤ n := Nat.div_le_self n p
      omega
    · rw [Nat.mul_comm]; omega
    · rw [Nat.mul_comm]; omega
  · have hF := hF2 hr
    have hup : n / p * 2 ^ s + 1 ≤ roundHalfEven (n * K * 2 ^ s) (p * K) :=
      roundHalfEven_up _ _ _ hpK (by
        have h1 : p * K < 2 * (n % p) * (K * 2 ^ s) := by
          calc p * K < 2 * 2 ^ s * K := Nat.mul_lt_mul_of_pos_right hF hK
            _ = 2 * 1 * (K * 2 ^ s) := by ring
            _ ≤ 2 * (n % p) * (K * 2 ^ s) :=
              Nat.mul_le_mul_right _ (Nat.mul_le_mul_left _ (by omega))
        calc (2 * (n / p * 2 ^ s) + 1) * (p * K)
            = 2 * (p * (n / p)) * (K * 2 ^ s) + p * K := by ring
          _ < 2 * (p * (n / p)) * (K * 2 ^ s) + 2 * (n % p) * (K * 2 ^ s) := by omega
          _ = 2 * ((p * (n / p) + n % p) * K * 2 ^ s) := by ring
          _ = 2 * (n * K * 2 ^ s) := by rw [hdm])
    refine ⟨n / p + 1, ceil_toInt _ s (n / p + 1) ?_ ?_, ?_, ?_⟩
    · apply Nat.div_eq_of_lt_le
      · rw [Nat.succ_mul]; omega
      · rw [Nat.succ_mul, Nat.succ_mul]; omega
    · have : n / p ≤ n := Nat.div_le_self n p
      omega
    · rw [Nat.succ_mul, Nat.mul_comm]; omega
    · rw [Nat.succ_mul, Nat.mul_comm]; omega

/-- The total `2 ^ 53` is converted to `float64` exactly. -/
theorem ofInt_pow53 : Float64.ofInt (2 ^ 53) = Float64.finite false (2 ^ 52) 1 := by
  decide

/-- With a page size of `2 ^ 53` or more and a total of at most `2 ^ 53` there is one
page. -/
theorem lastPageOf_large (total perPage : Int) (ht : 1 ≤ total) (ht53 : total ≤ 2 ^ 53)
    (hp53 : 2 ^ 53 ≤ perPage) : lastPageOf total perPage = 1 := by
  obtain ⟨M, t, hb, hM, ht1⟩ := ofInt_large perPage hp53
  have hMt : 2 ^ 53 ≤ M * 2 ^ t := by
    have h2 : 2 ^ 1 ≤ 2 ^ t := Nat.pow_le_pow_right (by norm_num) ht1
    calc 2 ^ 53 = 2 ^ 52 * 2 ^ 1 := by norm_num
      _ ≤ M * 2 ^ t := Nat.mul_le_mul hM h2
  unfold lastPageOf
  rw [hb]
  by_cases hlt : total < 2 ^ 53
  · obtain ⟨sa, ha⟩ := ofInt_exact total ht hlt
    have hn53 : total.natAbs < 2 ^ 53 := by omega
    rw [ha, div_finite _ _ _ _ (Nat.mul_pos (by omega) (Nat.two_pow_pos sa)) (by omega)]
    have h1 : (-(sa : Int) - (t : Int)).toNat = 0 := by omega
    have h2 : ((t : Int) - -(sa : Int)).toNat = t + sa := by omega
    rw [h1, h2, pow_zero, Nat.mul_one]
    apply ceil_small _ _ (Nat.mul_pos (by omega) (Nat.two_pow_pos sa))
    calc total.natAbs * 2 ^ sa ≤ M * 2 ^ t * 2 ^ sa := Nat.mul_le_mul_right _ (by omega)
      _ = M * 2 ^ (t + sa) := by rw [pow_add, Nat.mul_assoc]
  · have he : total = 2 ^ 53 := by omega
    rw [he, ofInt_pow53, div_finite _ _ _ _ (by norm_num) (by omega)]
    have h1 : ((1 : Int) - (t : Int)).toNat = 0 := by omega
    have h2 : ((t : Int) - 1).toNat = t - 1 := by omega
    rw [h1, h2, pow_zero, Nat.mul_one]
    apply ceil_small _ _ (by norm_num)
    calc 2 ^ 52 ≤ M := hM
      _ ≤ M * 2 ^ (t - 1) := Nat.le_mul_of_pos_right _ (Nat.two_pow_pos _)

/-- For a total between 1 and `2 ^ 53` and any page size from 1 on, the last page is
the least integer whose multiple of the page size reaches the total. -/
theorem lastPageOf_ceil_wide (total perPage : Int) (ht : 1 ≤ total) (ht53 : total ≤ 2 ^ 53)
    (hp : 1 ≤ perPage) :
    total ≤ lastPageOf total perPage * perPage ∧
    lastPageOf total perPage * perPage < total + perPage := by
  by_cases hp53 : perPage < 2 ^ 53
  · by_cases hlt : total < 2 ^ 53
    · exact lastPageOf_ceil total perPage ht hlt hp hp53
    · have he : total = 2 ^ 53 := by omega
      by_cases hp1 : perPage = 1
      · have h1 : lastPageOf (2 ^ 53) 1 = 2 ^ 53 := by decide
        rw [he, hp1, h1]
        constructor <;> norm_num
      · obtain ⟨sb, hb⟩ := ofInt_exact perPage hp hp53
        obtain ⟨L, hL, h1, h2⟩ := ceil_nearest_le (2 ^ 53) perPage.natAbs (2 ^ sb) (by norm_num)
          le_rfl (by omega) (by omega) (by omega) (Nat.two_pow_pos sb)
        have e2 : (perPage.natAbs : Int) = perPage := by omega
        have hdiv : (Float64.finite false (2 ^ 52) 1).div
            (Float64.finite false (perPage.natAbs * 2 ^ sb) (-(sb : Int))) =
            Float64.nearest false (2 ^ 53 * 2 ^ sb) (perPage.natAbs * 2 ^ sb) := by
          rw [div_finite _ _ _ _ (by norm_num) (Nat.mul_pos (by omega) (Nat.two_pow_pos sb))]
          have h3 : ((1 : Int) - -(sb : Int)).toNat = sb + 1 := by omega
          have h4 : (-(sb : Int) - 1).toNat = 0 := by omega
          rw [h3, h4, pow_zero, Nat.mul_one]
          congr 1
          rw [pow_succ]
          ring
        unfold lastPageOf
        rw [he, ofInt_pow53, hb, hdiv, hL, ← e2]
        constructor
        · exact_mod_cast h1
        · exact_mod_cast h2
  · rw [lastPageOf_large total perPage ht ht53 (by omega)]
    constructor <;> omega

/-- Two wrapping steps that together stay in the range of `int` give the exact
result, also when the first step leaves the range. -/
theorem wrapInt64_sub_one (a : Int) (h1 : -2 ^ 63 ≤ a - 1) (h2 : a - 1 < 2 ^ 63) :
    wrapInt64 (wrapInt64 a - 1) = a - 1 := by
  unfold wrapInt64
  omega

/-- C29, as the code has it: for every total from 1 to `2 ^ 53`, every page size from
1 on (within the type `int`) and every page with `1 ≤ page ≤ LastPage`, `Paginate`
returns `LastPage = ceil(total / perPage)`, `From = (page-1)*perPage + 1` and
`To = min(From + perPage - 1, total)`, so that `1 ≤ From ≤ To ≤ Total` and
`To - From + 1 ≤ PerPage`; `PrevPageURL` is empty exactly when `page = 1` and
`NextPageURL` is empty exactly when `page = LastPage`. -/
theorem paginate_bounds {T : Type} (data : List T) (total page perPage : Int) (path : String)
    (ht : 1 ≤ total) (ht53 : total ≤ 2 ^ 53) (hp : 1 ≤ perPage) (hp63 : perPage < 2 ^ 63)
    (hpage : 1 ≤ page) (hlast : page ≤ (Paginate data total page perPage path).LastPage) :
    (Paginate data total page perPage path).LastPage = ⌈(total : ℚ) / (perPage : ℚ)⌉ ∧
    (Paginate data total page perPage path).From = (page - 1) * perPage + 1 ∧
    (Paginate data total page perPage path).To =
      min ((Paginate data total page perPage path).From + perPage - 1) total ∧
    1 ≤ (Paginate data total page perPage path).From ∧
    (Paginate data total page perPage path).From ≤ (Paginate data total page perPage path).To ∧
    (Paginate data total page perPage path).To ≤ (Paginate data total page perPage path).Total ∧
    (Paginate data total page perPage path).To - (Paginate data total page perPage path).From + 1
      ≤ (Paginate data total page perPage path).PerPage ∧
    ((Paginate data total page perPage path).PrevPageURL = "" ↔ page = 1) ∧
    ((Paginate data total page perPage path).NextPageURL = "" ↔
      page = (Paginate data total page perPage path).LastPage) := by
  obtain ⟨h1, h2⟩ := lastPageOf_ceil_wide total perPage ht ht53 hp
  have hL : (Paginate data total page perPage path).LastPage = lastPageOf total perPage := rfl
  have hN : (Paginate data total page perPage path).NextPageURL =
      if page < lastPageOf total perPage then path ++ "?page=" ++ Itoa (wrapInt64 (page + 1))
      else "" := rfl
  have hP : (Paginate data total page perPage path).PrevPageURL =
      if page > 1 then path ++ "?page=" ++ Itoa (wrapInt64 (page - 1)) else "" := rfl
  have hFdef : (Paginate data total page perPage path).From =
      wrapInt64 (wrapInt64 (wrapInt64 (page - 1) * perPage) + 1) := rfl
  have hTdef : (Paginate data total page perPage path).To =
      if wrapInt64 (wrapInt64 ((Paginate data total page perPage path).From + perPage) - 1) >
          total then total
      else wrapInt64 (wrapInt64 ((Paginate data total page perPage path).From + perPage) - 1) :=
    rfl
  have hTot : (Paginate data total page perPage path).Total = total := rfl
  have hPer : (Paginate data total page perPage path).PerPage = perPage := rfl
  rw [hL] at hlast
  rw [hL, hN, hP, hTot, hPer]
  generalize lastPageOf total perPage = L at h1 h2 hlast ⊢
  have hmul : (page - 1) * perPage ≤ (L - 1) * perPage :=
    mul_le_mul_of_nonneg_right (by omega) (by omega)
  have hexp : (L - 1) * perPage = L * perPage - perPage := by ring
  have hnn : 0 ≤ (page - 1) * perPage := mul_nonneg (by omega) (by omega)
  have hlt : (page - 1) * perPage < total := by omega
  have hLb : L ≤ L * perPage := le_mul_of_one_le_right (by omega) hp
  have hone : total < perPage → L < 2 := by
    intro hgt
    apply lt_of_mul_lt_mul_right _ (show (0 : Int) ≤ perPage by omega)
    omega
  have hbig : total < perPage → (page - 1) * perPage = 0 := by
    intro hgt
    have hL2 := hone hgt
    have hp1 : page = 1 := by omega
    rw [hp1]
    ring
  have hL63 : L < 2 ^ 63 := by
    by_cases hgt : total < perPage
    · have := hone hgt
      omega
    · omega
  have w1 : wrapInt64 (page - 1) = page - 1 := wrapInt64_id _ (by omega) (by omega)
  have w2 : wrapInt64 ((page - 1) * perPage) = (page - 1) * perPage :=
    wrapInt64_id _ (by omega) (by omega)
  have w3 : wrapInt64 ((page - 1) * perPage + 1) = (page - 1) * perPage + 1 :=
    wrapInt64_id _ (by omega) (by omega)
  have hF : (Paginate data total page perPage path).From = (page - 1) * perPage + 1 := by
    rw [hFdef, w1, w2, w3]
  have hrange : (page - 1) * perPage + 1 + perPage - 1 < 2 ^ 63 := by
    by_cases hgt : total < perPage
    · have := hbig hgt
      omega
    · omega
  have w5 : wrapInt64 (wrapInt64 ((page - 1) * perPage + 1 + perPage) - 1) =
      (page - 1) * perPage + 1 + perPage - 1 :=
    wrapInt64_sub_one _ (by omega) hrange
  have hT : (Paginate data total page perPage path).To =
      min ((page - 1) * perPage + 1 + perPage - 1) total := by
    rw [hTdef, hF, w5]
    by_cases hgt : (page - 1) * perPage + 1 + perPage - 1 > total
    · rw [if_pos hgt, min_eq_right (le_of_lt hgt)]
    · rw [if_neg hgt, min_eq_left (not_lt.mp hgt)]
  rw [hT, hF]
  have hpq : (0 : ℚ) < (perPage : ℚ) := by exact_mod_cast (show (0 : Int) < perPage by omega)
  refine ⟨?_, rfl, rfl, by omega, ?_, min_le_right _ _, ?_, ?_, ?_⟩
  · symm
    rw [Int.ceil_eq_iff]
    constructor
    · rw [lt_div_iff₀ hpq]
      have h2q : ((L * perPage : Int) : ℚ) < ((total + perPage : Int) : ℚ) := by
        exact_mod_cast h2
      push_cast at h2q
      linarith
    · rw [div_le_iff₀ hpq]
      exact_mod_cast h1
  · exact le_min (by omega) (by omega)
  · have := min_le_left ((page - 1) * perPage + 1 + perPage - 1) total
    omega
  · constructor
    · intro h
      by_cases hgt : page > 1
      · rw [if_pos hgt] at h
        exact absurd h (page_url_ne_empty _ _)
      · omega
    · intro h
      rw [if_neg (by omega)]
  · constructor
    · intro h
      by_cases hlt2 : page < L
      · rw [if_pos hlt2] at h
        exact absurd h (page_url_ne_empty _ _)
      · omega
    · intro h
      rw [if_neg (by omega)]

/-- Witness of C29 as amended: ten rows in pages of three, page four; and `2 ^ 53`
rows in pages of `2 ^ 63 - 1`, page one. -/
theorem paginate_bounds_witness :
    (Paginate ([] : List Unit) 10 4 3 "/api/users").LastPage = 4 ∧
    (Paginate ([] : List Unit) 10 4 3 "/api/users").From = (4 - 1) * 3 + 1 ∧
    (Paginate ([] : List Unit) 10 4 3 "/api/users").To =
      min ((Paginate ([] : List Unit) 10 4 3 "/api/users").From + 3 - 1) 10 ∧
    ((Paginate ([] : List Unit) 10 4 3 "/api/users").NextPageURL = "" ↔
      (4 : Int) = (Paginate ([] : List Unit) 10 4 3 "/api/users").LastPage) ∧
    (Paginate ([] : List Unit) 9007199254740992 1 9223372036854775807 "/api/users").LastPage
      = 1 ∧
    (Paginate ([] : List Unit) 9007199254740992 1 9223372036854775807 "/api/users").From ≤
      (Paginate ([] : List Unit) 9007199254740992 1 9223372036854775807 "/api/users").To ∧
    (Paginate ([] : List Unit) 9007199254740992 1 9223372036854775807 "/api/users").To
      = 9007199254740992 :=
  have h := paginate_bounds ([] : List Unit) 10 4 3 "/api/users" (by decide) (by decide)
    (by decide) (by decide) (by decide) (by decide)
  have g := paginate_bounds ([] : List Unit) 9007199254740992 1 9223372036854775807
    "/api/users" (by decide) (by decide) (by decide) (by decide) (by decide) (by decide)
  ⟨by decide, h.2.1, h.2.2.1, h.2.2.2.2.2.2.2.2, by decide, g.2.2.2.2.1, by decide⟩

/-- C29 as stated fails. For a total of `2 ^ 53 + 1` and pages of one row the last
page is `2 ^ 53`, one less than `ceil(total / perPage)`, because `float64(total)`
rounds the total. For a total of `2 ^ 63 - 1`, pages of `2 ^ 62` rows and page 2,
the last page, `From + perPage - 1` overflows and `To` is `-2 ^ 63`, below `From`. -/
theorem last_page_loses_precision :
    (Paginate ([] : List Unit) 9007199254740993 1 1 "/api/users").LastPage =
      9007199254740992 ∧
    ⌈((9007199254740993 : Int) : ℚ) / ((1 : Int) : ℚ)⌉ = 9007199254740993 ∧
    (Paginate ([] : List Unit) 9223372036854775807 2 4611686018427387904 "/api/users").LastPage
      = 2 ∧
    (Paginate ([] : List Unit) 9223372036854775807 2 4611686018427387904 "/api/users").From
      = 4611686018427387905 ∧
    (Paginate ([] : List Unit) 9223372036854775807 2 4611686018427387904 "/api/users").To
      = -9223372036854775808 := by
  refine ⟨by decide, ?_, by decide, by decide, by decide⟩
  rw [Int.cast_one, div_one, Int.ceil_intCast]

/-! ## Registration and login -/

/-- What a successful registration stored: a user with the name and email of the
request, the role `admin` and an empty password, appended to a table that held no
user with that email. -/
theorem HandleRegister_ok (env : ServiceEnv) (table : List User) (req : CreateUserRequest)
    (user : User) (hreg : (HandleRegister env table req).1 = Except.ok user) :
    user = { ID := env.newID, LearningPointID := none, Name := req.Name, Email := req.Email,
             Password := "", Role := RoleAdmin } ∧
    (HandleRegister env table req).2 = table ++ [user] ∧
    table.any (fun u => u.Email = req.Email) = false := by
  unfold HandleRegister InTx Create at hreg ⊢
  cases hb : env.beginErr with
  | some e => simp [hb] at hreg
  | none =>
    simp only [hb, if_true] at hreg ⊢
    by_cases h1 : (table.any fun u => decide (u.ID = env.newID)) = true
    · simp [h1] at hreg
    · by_cases h2 : (table.any fun u => decide (u.Email = req.Email)) = true
      · simp [h1, h2] at hreg
      · cases hc : env.commitErr with
        | some e => simp [h1, h2, hc] at hreg
        | none =>
          simp only [Bool.not_eq_true] at h1 h2
          simp [h1, h2, hc] at hreg ⊢
          subst hreg
          exact ⟨rfl, rfl⟩

/-- C30, as the code has it: for every `CreateUserRequest`, the user that
`HandleRegister` persists has the request's name and email and the role `admin`,
and an empty password: the password of the request is not used. The stored password
is no `bcrypt` hash, so `HandleLogin` rejects the registered email with every
password, the one of the request included. -/
theorem registered_user_cannot_log_in (env : ServiceEnv) (table : List User)
    (req : CreateUserRequest) (user : User)
    (hreg : (HandleRegister env table req).1 = Except.ok user) :
    user.Name = req.Name ∧ user.Email = req.Email ∧ user.Role = RoleAdmin ∧
    user.Password = "" ∧ user ∈ (HandleRegister env table req).2 ∧
    ∀ (env2 : ServiceEnv) (password : String),
      HandleLogin env2 (HandleRegister env table req).2
        { Email := req.Email, Password := password } =
        Except.error "crypto/bcrypt: hashedSecret too short to be a bcrypted password" := by
  obtain ⟨hu, ht, hnone⟩ := HandleRegister_ok env table req user hreg
  refine ⟨by rw [hu], by rw [hu], by rw [hu], by rw [hu], by rw [ht]; simp, ?_⟩
  intro env2 password
  have hfind : (table ++ [user]).find? (fun u => decide (u.Email = req.Email)) = some user := by
    have hnot : table.find? (fun u => decide (u.Email = req.Email)) = none := by
      rw [List.find?_eq_none]
      intro u hu'
      have := List.any_eq_false.mp hnone u hu'
      simpa using this
    rw [List.find?_append, hnot]
    simp [List.find?, hu]
  have hpw : user.Password = "" := by rw [hu]
  have hshort : ("" : String).utf8ByteSize < 59 := by decide
  simp only [HandleLogin, First, ht, hfind, CompareHashAndPassword, hpw, hshort, if_true]

/-- The failing input of C30: the sample registration on an empty table, and a
login with the registered email and password, in surroundings where `bcrypt` accepts
every well-formed hash. -/
theorem registered_user_cannot_log_in_witness :
    (HandleRegister sampleServiceEnv [] sampleRegistration).2 =
      [{ ID := "u2", LearningPointID := none, Name := "Budi", Email := "budi@example.com",
         Password := "", Role := "admin" }] ∧
    HandleLogin sampleServiceEnv (HandleRegister sampleServiceEnv [] sampleRegistration).2
      { Email := "budi@example.com", Password := "secret123" } =
      Except.error "crypto/bcrypt: hashedSecret too short to be a bcrypted password" :=
  ⟨by decide,
    (registered_user_cannot_log_in sampleServiceEnv [] sampleRegistration
      { ID := "u2", LearningPointID := none, Name := "Budi", Email := "budi@example.com",
        Password := "", Role := "admin" } rfl).2.2.2.2.2 sampleServiceEnv "secret123"⟩

end TemplateGolang
